import Mathlib

set_option maxRecDepth 8000

/-!
# Verification of the parcel HTML crate (crates/html) against its specification

This file gives a shallow embedding, in Lean 4, of the parts of
`crates/html` (arena tree model, dependency collector, minifying
serializer, structural optimizer, package rewriter) that the frozen
claims C1..C10 are about, and settles each claim.

Conventions:
* Rust machine integers are modelled as `Nat` with explicit `% 2^64`
  where overflow matters.
* The stateful tree-walk of `collect_dependencies` is modelled by
  explicit state passing over a rose-tree document model.
* The raw pointer tree of `arena.rs` (claim C5) is modelled as a store
  `Nat → Links` of optional indices, mutated by pointer surgery exactly
  as the source does.
* `std::hash::DefaultHasher` is SipHash-1-3 with both keys zero; it is
  implemented below over `Nat` so that placeholders can be evaluated.
-/

set_option autoImplicit false

namespace ParcelHtml

/-! ## 64-bit machine arithmetic -/

/-- Truncation to 64 bits (`u64` wrap-around). -/
def wmask (x : Nat) : Nat := x % (2 ^ 64)

/-- Bitwise combination of two naturals over `fuel` low bits, by explicit
structural recursion (kernel-reducible, unlike `Nat.bitwise`). -/
def bitop (f : Bool → Bool → Bool) : Nat → Nat → Nat → Nat
  | 0, _, _ => 0
  | fuel + 1, n, m =>
    (if f (n % 2 = 1) (m % 2 = 1) then 1 else 0) + 2 * bitop f fuel (n / 2) (m / 2)

/-- 64-bit exclusive or. -/
def xor64 (n m : Nat) : Nat := bitop (fun a b => a ≠ b) 64 n m

/-- 64-bit left rotation. -/
def rotl64 (x r : Nat) : Nat := wmask (x * 2 ^ r) + x / 2 ^ (64 - r) % 2 ^ r

/-- 64-bit wrapping addition. -/
def wadd (x y : Nat) : Nat := wmask (x + y)

/-! ## SipHash-1-3 (= `std::hash::DefaultHasher` with zero keys)

`Dependency::set_placeholder` and the inline-asset keys in
`dependencies.rs` hash with `DefaultHasher::new()`, which is SipHash-1-3
keyed with `k0 = k1 = 0`. -/

/-- SipHash internal state. -/
structure SipState where
  v0 : Nat
  v1 : Nat
  v2 : Nat
  v3 : Nat
deriving Repr, DecidableEq

/-- One SipHash round. -/
def sipRound (s : SipState) : SipState :=
  let v0 := wadd s.v0 s.v1
  let v1 := rotl64 s.v1 13
  let v1 := xor64 v1 v0
  let v0 := rotl64 v0 32
  let v2 := wadd s.v2 s.v3
  let v3 := rotl64 s.v3 16
  let v3 := xor64 v3 v2
  let v0 := wadd v0 v3
  let v3 := rotl64 v3 21
  let v3 := xor64 v3 v0
  let v2 := wadd v2 v1
  let v1 := rotl64 v1 17
  let v1 := xor64 v1 v2
  let v2 := rotl64 v2 32
  ⟨v0, v1, v2, v3⟩

/-- Feed one 64-bit message word (compression with `c = 1` round). -/
def sipCompress (s : SipState) (m : Nat) : SipState :=
  let s := { s with v3 := xor64 s.v3 m }
  let s := sipRound s
  { s with v0 := xor64 s.v0 m }

/-- Little-endian word from a byte list (at most 8 bytes). -/
def leWord (bs : List Nat) : Nat :=
  bs.foldr (fun b acc => b % 256 + 256 * acc) 0

/-- Split the message into full 8-byte words, returning the words and
the remaining tail bytes. -/
def sipWords : List Nat → List Nat × List Nat
  | b0 :: b1 :: b2 :: b3 :: b4 :: b5 :: b6 :: b7 :: rest =>
    let (ws, tail) := sipWords rest
    (leWord [b0, b1, b2, b3, b4, b5, b6, b7] :: ws, tail)
  | bs => ([], bs)

/-- SipHash-1-3 of a byte sequence with both keys zero, exactly as
`DefaultHasher::new()`/`finish()` computes it. -/
def sipHash13 (bytes : List Nat) : Nat :=
  let init : SipState :=
    ⟨0x736f6d6570736575, 0x646f72616e646f6d, 0x6c7967656e657261, 0x7465646279746573⟩
  let (ws, tail) := sipWords bytes
  let s := ws.foldl sipCompress init
  let lastWord := wmask (leWord tail + bytes.length % 256 * 2 ^ 56)
  let s := sipCompress s lastWord
  let s := { s with v2 := xor64 s.v2 0xff }
  let s := sipRound (sipRound (sipRound s))
  xor64 (xor64 s.v0 s.v1) (xor64 s.v2 s.v3)

/-! ## Byte-stream encodings used by the Rust `Hash` impls -/

/-- UTF-8 encoding of one character (as Rust `str` stores it). -/
def utf8Char (c : Char) : List Nat :=
  let n := c.toNat
  if n < 0x80 then [n]
  else if n < 0x800 then [0xC0 + n / 64, 0x80 + n % 64]
  else if n < 0x10000 then [0xE0 + n / 4096, 0x80 + n / 64 % 64, 0x80 + n % 64]
  else [0xF0 + n / 262144, 0x80 + n / 4096 % 64, 0x80 + n / 64 % 64, 0x80 + n % 64]

/-- UTF-8 bytes of a string. -/
def strBytes (s : String) : List Nat :=
  s.data.foldr (fun c acc => utf8Char c ++ acc) []

/-- The eight little-endian bytes of a 64-bit value (how the hasher
receives a `usize`/`isize` on a 64-bit target). -/
def u64LEBytes (n : Nat) : List Nat :=
  [n % 256, n / 2 ^ 8 % 256, n / 2 ^ 16 % 256, n / 2 ^ 24 % 256,
   n / 2 ^ 32 % 256, n / 2 ^ 40 % 256, n / 2 ^ 48 % 256, n / 2 ^ 56 % 256]

/-- Byte stream fed to the hasher by `Hash for str`
(`write(bytes)` followed by `write_u8(0xff)`). -/
def strHashBytes (s : String) : List Nat := strBytes s ++ [0xff]

/-- Byte stream fed to the hasher by `Hash for StrTendril`
(hashes `as_byte_slice()`, i.e. `Hash for [u8]`: a `write_usize` length
prefix followed by the raw bytes). -/
def tendrilHashBytes (s : String) : List Nat :=
  u64LEBytes (strBytes s).length ++ strBytes s

/-! ## Lowercase hex formatting (Rust `format!("{:x}", u64)`) -/

/-- One lowercase hex digit. -/
def hexDigit (n : Nat) : Char :=
  if n < 10 then Char.ofNat (48 + n) else Char.ofNat (87 + n)

/-- Hex digits of `n`, most significant first (`fuel`-bounded; 64 bits
need at most 16 digits). -/
def hexCore : Nat → Nat → List Char
  | 0, _ => []
  | fuel + 1, n => if n = 0 then [] else hexCore fuel (n / 16) ++ [hexDigit (n % 16)]

/-- Lowercase hex representation, no leading zeroes, `"0"` for zero:
exactly Rust's `format!("{:x}", n)` for `n : u64`. -/
def hexFmt (n : Nat) : String :=
  if n = 0 then "0" else String.mk (hexCore 17 n)

end ParcelHtml

namespace ParcelHtml

/-! ## Document model (`arena.rs`)

`NodeData` from `arena.rs`, as a rose tree: the sibling pointer
structure is modelled for the tree passes by an ordered child list.
(The raw pointer representation itself is modelled separately for the
tree-shape claim, see `Links` below.)  `template_contents` and
`mathml_annotation_xml_integration_point` are omitted: no code embedded
here reads them (`walk` does not descend into template contents). -/

/-- Namespace of a qualified name (`html5ever` `ns!` macros). -/
inductive NSpace where
  | nil
  | html
  | svg
  | mathml
  | xlink
  | xml
  | xmlns
  | other
deriving Repr, DecidableEq

/-- A qualified (expanded) name: namespace plus local name.
`ExpandedName` comparison in the source compares exactly these two. -/
structure QName where
  ns : NSpace
  localName : String
deriving Repr, DecidableEq

/-- An element attribute. -/
structure Attr where
  name : QName
  value : String
deriving Repr, DecidableEq

/-- Node payload (`NodeData` in `arena.rs`). -/
inductive NData where
  | document
  | doctype (name publicId systemId : String)
  | text (contents : String)
  | comment (contents : String)
  | element (name : QName) (attrs : List Attr)
  | pi (target : String) (contents : String)
deriving Repr, DecidableEq

/-- A document tree node: payload, source line, ordered children. -/
inductive HNode where
  | mk (data : NData) (line : Nat) (children : List HNode)
deriving Repr

/-- Structural induction for the nested inductive `HNode`. -/
theorem HNode.ind {P : HNode → Prop}
    (h : ∀ d l cs, (∀ c ∈ cs, P c) → P (.mk d l cs)) : ∀ n, P n
  | .mk d l cs => h d l cs (fun c hc => HNode.ind h c)
termination_by n => sizeOf n
decreasing_by
  have := List.sizeOf_lt_of_mem hc
  simp only [HNode.mk.sizeOf_spec]
  omega

mutual

/-- Boolean structural equality of nodes. -/
def HNode.beq : HNode → HNode → Bool
  | .mk d1 l1 cs1, .mk d2 l2 cs2 => d1 == d2 && l1 == l2 && HNode.beqs cs1 cs2

/-- Boolean structural equality of node lists. -/
def HNode.beqs : List HNode → List HNode → Bool
  | [], [] => true
  | a :: as_, b :: bs => HNode.beq a b && HNode.beqs as_ bs
  | _, _ => false

end

theorem HNode.beq_iff : ∀ a b : HNode, HNode.beq a b = true ↔ a = b := by
  intro a
  induction a using HNode.ind with
  | h d l cs ih =>
    intro b
    cases b with
    | mk d2 l2 cs2 =>
      simp only [HNode.beq, Bool.and_eq_true, beq_iff_eq, HNode.mk.injEq]
      constructor
      · rintro ⟨⟨hd, hl⟩, hcs⟩
        refine ⟨hd, hl, ?_⟩
        clear hd hl
        induction cs generalizing cs2 with
        | nil => cases cs2 <;> simp_all [HNode.beqs]
        | cons c rest ihrest =>
          cases cs2 with
          | nil => simp [HNode.beqs] at hcs
          | cons c2 rest2 =>
            simp only [HNode.beqs, Bool.and_eq_true] at hcs
            have h1 := (ih c (by simp) c2).mp hcs.1
            have h2 := ihrest (fun x hx => ih x (by simp [hx])) rest2 hcs.2
            simp [h1, h2]
      · rintro ⟨hd, hl, hcs⟩
        subst hd; subst hl; subst hcs
        refine ⟨⟨rfl, rfl⟩, ?_⟩
        induction cs with
        | nil => simp [HNode.beqs]
        | cons c rest ihrest =>
          simp only [HNode.beqs, Bool.and_eq_true]
          exact ⟨(ih c (by simp) c).mpr rfl, ihrest (fun x hx => ih x (by simp [hx]))⟩

instance : DecidableEq HNode := fun a b => decidable_of_iff _ (HNode.beq_iff a b)

def HNode.data : HNode → NData
  | .mk d _ _ => d

def HNode.line : HNode → Nat
  | .mk _ l _ => l

def HNode.children : HNode → List HNode
  | .mk _ _ cs => cs

def htmlQ (l : String) : QName := ⟨.html, l⟩
def svgQ (l : String) : QName := ⟨.svg, l⟩
def attrQ (l : String) : QName := ⟨.nil, l⟩
def xlinkQ (l : String) : QName := ⟨.xlink, l⟩

/-- `Node::get_attribute`: first attribute whose expanded name matches. -/
def getAttr : List Attr → QName → Option String
  | [], _ => none
  | a :: rest, n => if a.name = n then some a.value else getAttr rest n

/-- `Node::set_attribute`: overwrite the first match, else push at the end. -/
def setAttr : List Attr → QName → String → List Attr
  | [], n, v => [⟨n, v⟩]
  | a :: rest, n, v => if a.name = n then ⟨a.name, v⟩ :: rest else a :: setAttr rest n v

/-- `Node::remove_attribute`: remove the first match. -/
def removeAttr : List Attr → QName → List Attr
  | [], _ => []
  | a :: rest, n => if a.name = n then rest else a :: removeAttr rest n

/-- `Node::text_content`: concatenation of the direct `Text` children. -/
def textContent (children : List HNode) : String :=
  children.foldl
    (fun acc c => match c.data with | .text s => acc ++ s | _ => acc) ""

/-! ## Dependency records (`dependencies.rs`) -/

/-- `Priority` enum. -/
inductive Priority where
  | sync
  | parallel
  | lazy
deriving Repr, DecidableEq

/-- `OutputFormat` enum. -/
inductive OutputFormat where
  | nofmt
  | global
  | esmodule
deriving Repr, DecidableEq

/-- `SourceType` enum. -/
inductive SourceType where
  | nosrc
  | module
  | script
deriving Repr, DecidableEq

/-- `BundleBehavior` enum. -/
inductive BundleBehavior where
  | nobeh
  | isolated
  | inline
deriving Repr, DecidableEq

/-- Discriminant of `Priority` (derived `Hash` feeds it as an `isize`). -/
def Priority.tag : Priority → Nat
  | .sync => 0
  | .parallel => 1
  | .lazy => 2

/-- Discriminant of `OutputFormat`. -/
def OutputFormat.tag : OutputFormat → Nat
  | .nofmt => 0
  | .global => 1
  | .esmodule => 2

/-- Discriminant of `SourceType`. -/
def SourceType.tag : SourceType → Nat
  | .nosrc => 0
  | .module => 1
  | .script => 2

/-- Discriminant of `BundleBehavior`. -/
def BundleBehavior.tag : BundleBehavior → Nat
  | .nobeh => 0
  | .isolated => 1
  | .inline => 2

/-- `Dependency` record. -/
structure Dependency where
  href : String
  needsStableName : Bool
  priority : Priority
  outputFormat : OutputFormat
  sourceType : SourceType
  bundleBehavior : BundleBehavior
  placeholder : String
  line : Nat
deriving Repr, DecidableEq

/-- The byte stream that `Dependency::set_placeholder` feeds to the
hasher: exactly the six fields `href` (a `StrTendril`),
`needs_stable_name` (`bool`), `priority`, `output_format`,
`source_type`, `bundle_behavior` (derived enum `Hash` writes the
`isize` discriminant) — and nothing else; in particular not `line`. -/
def depHashBytes (href : String) (nsn : Bool) (pri : Priority)
    (ofm : OutputFormat) (sty : SourceType) (bb : BundleBehavior) : List Nat :=
  tendrilHashBytes href ++ [if nsn then 1 else 0] ++
    u64LEBytes pri.tag ++ u64LEBytes ofm.tag ++ u64LEBytes sty.tag ++ u64LEBytes bb.tag

/-- The placeholder computed by `Dependency::set_placeholder`. -/
def setPlaceholder (href : String) (nsn : Bool) (pri : Priority)
    (ofm : OutputFormat) (sty : SourceType) (bb : BundleBehavior) : String :=
  hexFmt (sipHash13 (depHashBytes href nsn pri ofm sty bb))

/-- Build a `Dependency` and assign its placeholder, as every
construction site followed by `set_placeholder` does. -/
def mkDep (href : String) (nsn : Bool) (pri : Priority) (ofm : OutputFormat)
    (sty : SourceType) (bb : BundleBehavior) (line : Nat) : Dependency :=
  { href := href, needsStableName := nsn, priority := pri, outputFormat := ofm,
    sourceType := sty, bundleBehavior := bb,
    placeholder := setPlaceholder href nsn pri ofm sty bb, line := line }

/-- `Asset` record (extracted inline sub-asset). -/
structure Asset where
  ty : String
  content : List Nat
  key : String
  isAttr : Bool
  outputFormat : OutputFormat
  sourceType : SourceType
  bundleBehavior : BundleBehavior
  line : Nat
deriving Repr, DecidableEq

/-- `Error` record (a `CollectionError`). -/
structure Error where
  message : String
  line : Nat
deriving Repr, DecidableEq

/-! ## `srcset.rs`: srcset attribute parsing

The descriptor grammar state machine is reproduced.  One caveat: the
`x` density descriptor goes through Rust's `f64` parser and `f64`
display in the source; floating point does not translate to this
embedding, so the accepted numeral is modelled syntactically and
re-serialized verbatim.  No claim below depends on density descriptors. -/

/-- An image source candidate (`ImageSource`): the density is kept as
the accepted numeral text (see the section comment). -/
structure ImageSource where
  url : String
  width : Option Nat
  density : Option String
deriving Repr, DecidableEq

/-- `collect_sequence_characters`: longest prefix satisfying `p`, and
the rest. -/
def collectSeq (p : Char → Bool) : List Char → List Char × List Char
  | [] => ([], [])
  | c :: cs =>
    if p c then
      let (a, b) := collectSeq p cs
      (c :: a, b)
    else ([], c :: cs)

/-- Rust `char::is_ascii_whitespace`. -/
def isAsciiWhitespace (c : Char) : Bool :=
  c = ' ' || c = '\t' || c = '\n' || c = '\x0c' || c = '\r'

/-- The HTML "space characters" list used by `parse_integer`. -/
def isHtmlSpace (c : Char) : Bool :=
  c = ' ' || c = '\t' || c = '\n' || c = '\x0c' || c = '\r'

/-- `read_numbers` plus the `checked_mul`/`checked_add` on `i64`:
digits-prefix accumulation, `none` on overflow or if the first
character is not a digit.  Trailing non-digits are ignored, as in the
source. -/
def readNumbers (cs : List Char) : Option Int :=
  match cs with
  | c :: _ =>
    if c.isDigit then
      let digits := (collectSeq Char.isDigit cs).1
      digits.foldl
        (fun acc d =>
          match acc with
          | none => none
          | some v =>
            let v' := v * 10 + (d.toNat - 48 : Nat)
            if v' ≤ (2 ^ 63 - 1 : Int) then some v' else none)
        (some 0)
    else none
  | [] => none

/-- `parse_integer` (HTML rules for parsing integers, with `i64`
checked arithmetic). -/
def parseInteger (cs : List Char) : Option Int :=
  let cs := (collectSeq isHtmlSpace cs).2
  match cs with
  | [] => none
  | c :: rest =>
    if c = '-' then (readNumbers rest).map (fun v => -v)
    else if c = '+' then readNumbers rest
    else readNumbers cs

/-- Syntactic stand-in for `str::parse::<f64>` followed by
`is_normal() && > 0`: an optional `+` sign, a nonempty decimal mantissa
containing a nonzero digit, an optional exponent.  (Floating-point
subnormal cutoffs are not modelled; see the section comment.) -/
def parsePosF64 (cs : List Char) : Option String :=
  let body := match cs with
    | '+' :: rest => rest
    | other => other
  let (intPart, afterInt) := collectSeq Char.isDigit body
  let (fracPart, afterFrac) :=
    match afterInt with
    | '.' :: rest =>
      let (f, r) := collectSeq Char.isDigit rest
      (f, r)
    | _ => ([], afterInt)
  let expOk := match afterFrac with
    | [] => true
    | 'e' :: rest =>
      let rest2 := match rest with
        | '+' :: r => r
        | '-' :: r => r
        | r => r
      ¬rest2.isEmpty && (collectSeq Char.isDigit rest2).2.isEmpty
    | _ => false
  let hasFrac := match afterInt with
    | '.' :: _ => true
    | _ => false
  if (¬intPart.isEmpty || (hasFrac && ¬fracPart.isEmpty)) && expOk
      && (intPart.any (· ≠ '0') || fracPart.any (· ≠ '0')) then
    some (String.mk cs)
  else none

/-- Descriptor tokenizer state (`ParseState`). -/
inductive DescState where
  | inDescriptor
  | inParens
  | afterDescriptor
deriving Repr, DecidableEq

/-- The descriptor tokenizer loop of `parse_srcset` step 8.4: returns
the collected descriptors and the unconsumed input. -/
def descTok : Nat → DescState → List Char → List Char → List String →
    List String × List Char
  | 0, _, _, cur, descs =>
    -- fuel exhaustion: unreachable for fuel ≥ 2 * length + 2
    (descs ++ (if cur.isEmpty then [] else [String.mk cur.reverse]), [])
  | fuel + 1, st, input, cur, descs =>
    match st, input with
    | .inDescriptor, c :: rest =>
      if isAsciiWhitespace c then
        if cur.isEmpty then descTok fuel .inDescriptor rest cur descs
        else descTok fuel .afterDescriptor rest [] (descs ++ [String.mk cur.reverse])
      else if c = ',' then
        (descs ++ (if cur.isEmpty then [] else [String.mk cur.reverse]), rest)
      else if c = '(' then descTok fuel .inParens rest (c :: cur) descs
      else descTok fuel .inDescriptor rest (c :: cur) descs
    | .inDescriptor, [] =>
      (descs ++ (if cur.isEmpty then [] else [String.mk cur.reverse]), [])
    | .inParens, c :: rest =>
      if c = ')' then descTok fuel .inDescriptor rest (c :: cur) descs
      else descTok fuel .inParens rest (c :: cur) descs
    | .inParens, [] => (descs ++ [String.mk cur.reverse], [])
    | .afterDescriptor, c :: rest =>
      if isAsciiWhitespace c then descTok fuel .afterDescriptor rest cur descs
      else descTok fuel .inDescriptor (c :: rest) cur descs
    | .afterDescriptor, [] => (descs, [])

/-- The descriptor parser loop of `parse_srcset` step 13 with its
`continue`/`break` control flow: returns `(width, density,
future-compat-h, error)`. -/
def descParse : List String → Option Nat → Option String → Option Nat →
    Option Nat × Option String × Option Nat × Bool
  | [], w, d, h => (w, d, h, false)
  | desc :: rest, w, d, h =>
    match desc.data.getLast? with
    | none => (w, d, h, false)   -- `let ... else break`, error stays `no`
    | some lastC =>
      let firstPart := desc.data.dropLast
      if lastC = 'w' ∧ d = none ∧ w = none then
        match parseInteger firstPart with
        | some n =>
          if n > 0 then descParse rest (some (n.toNat % 2 ^ 32)) d h
          else (w, d, h, true)
        | none => (w, d, h, true)
      else if lastC = 'x' ∧ w = none ∧ d = none ∧ h = none then
        match parsePosF64 firstPart with
        | some numeral => descParse rest w (some numeral) h
        | none => (w, d, h, true)
      else if lastC = 'h' ∧ h = none ∧ d = none then
        match parseInteger firstPart with
        | some n =>
          if n > 0 then descParse rest w d (some (n.toNat % 2 ^ 32))
          else (w, d, h, true)
        | none => (w, d, h, true)
      else (w, d, h, true)

/-- One iteration body plus loop of `parse_srcset` (`fuel` bounds the
number of candidates, each consuming at least one character). -/
def parseSrcsetGo : Nat → List Char → List ImageSource → List ImageSource
  | 0, _, acc => acc
  | fuel + 1, input, acc =>
    -- step 4: collect whitespace/commas; any comma is a parse error
    let (collected, afterWs) :=
      collectSeq (fun c => c = ',' || isAsciiWhitespace c) input
    if collected.any (· = ',') then []
    else if afterWs.isEmpty then acc
    else
      -- step 6: the URL is the longest non-whitespace run
      let (url, afterUrl) := collectSeq (fun c => ¬isAsciiWhitespace c) afterWs
      if url.getLast? = some ',' then
        -- step 8: trailing commas stripped, empty descriptor
        let url' := (url.reverse.dropWhile (· = ',')).reverse
        parseSrcsetGo fuel afterUrl
          (acc ++ [{ url := String.mk url', width := none, density := none }])
      else
        -- step 8.1-8.4: skip whitespace, tokenize descriptors
        let (_, afterSp) := collectSeq isAsciiWhitespace afterUrl
        let (descs, rest) :=
          descTok (2 * afterSp.length + 2) .inDescriptor afterSp [] []
        let (w, d, h, err) := descParse descs none none none
        let err := err || (h.isSome && w.isNone)
        parseSrcsetGo fuel rest
          (if err then acc
           else acc ++ [{ url := String.mk url, width := w, density := d }])

/-- `parse_srcset`. -/
def parseSrcset (input : String) : List ImageSource :=
  parseSrcsetGo (input.data.length + 1) input.data []

/-- `Display for ImageSource` (descriptor separated by one space; the
modelled density numeral is printed verbatim). -/
def ImageSource.render (img : ImageSource) : String :=
  img.url ++
    (if img.width.isSome || img.density.isSome then
      " " ++ (match img.width with | some w => toString w ++ "w" | none => "") ++
        (match img.density with | some d => d ++ "x" | none => "")
    else "")

end ParcelHtml

namespace ParcelHtml

/-! ## Dependency collector (`dependencies.rs`)

The single pre-order walk of `collect_dependencies` is modelled by
explicit state passing.  The visitor mutates only the visited node's
payload and may insert one clone immediately before it (the `nomodule`
script copy); the walk reads the next sibling only after visiting a
subtree, so an inserted clone is never itself visited — the functional
fold below reproduces exactly that. -/

/-- A single-quote character (U+0027), used in error messages. -/
def sq : Char := Char.ofNat 39

/-- Collector state (`DependencyCollector` minus the arena). -/
structure CState where
  scopeHoist : Bool
  supportsEsm : Bool
  deps : List Dependency
  assets : List Asset
  hasModuleScripts : Bool
  errors : List Error
deriving Repr, DecidableEq

/-- `'<name>' should not be empty string`. -/
def emptyMsg (localName : String) : String :=
  String.singleton sq ++ localName ++ String.singleton sq ++ " should not be empty string"

/-- `DependencyCollector::add_dep`: push a dependency with `None`
output format / source type / bundle behavior and return its
placeholder. -/
def CState.addDep (st : CState) (src : String) (nsn : Bool) (pri : Priority)
    (line : Nat) : CState × String :=
  let d := mkDep src nsn pri .nofmt .nosrc .nobeh line
  ({ st with deps := st.deps ++ [d] }, d.placeholder)

/-- Rust `str::starts_with` (character-prefix test; equivalent to the
byte test on valid UTF-8). -/
def strStartsWith (s p : String) : Bool := p.data.isPrefixOf s.data

/-- Rust `str::ends_with`. -/
def strEndsWith (s p : String) : Bool := p.data.isSuffixOf s.data

/-- Rust `str::contains(char)`. -/
def strContainsChar (s : String) (c : Char) : Bool := s.data.contains c

/-- `DependencyCollector::handle_attr`. -/
def handleAttr (st : CState) (attrs : List Attr) (name : QName) (nsn : Bool)
    (line : Nat) : CState × List Attr :=
  match getAttr attrs name with
  | some src =>
    if src = "" then
      ({ st with errors := st.errors ++ [⟨emptyMsg name.localName, line⟩] }, attrs)
    else if strStartsWith src "#" then (st, attrs)
    else
      let (st1, ph) := st.addDep src nsn .lazy line
      (st1, setAttr attrs name ph)
  | none => (st, attrs)

/-- The dependency pushed for one srcset candidate: the URL is hashed
on its own (`img.url.hash`, a `String`, hence the `str` hash stream). -/
def srcsetDep (url : String) (line : Nat) : Dependency :=
  { href := url, priority := .lazy, outputFormat := .nofmt,
    needsStableName := false, sourceType := .nosrc, bundleBehavior := .nobeh,
    placeholder := hexFmt (sipHash13 (strHashBytes url)), line := line }

/-- One srcset candidate of `DependencyCollector::handle_srcset`: push
the Lazy dependency and re-render the candidate with the placeholder
substituted for the URL. -/
def srcsetStep (line : Nat) (acc : CState × List String) (img : ImageSource) :
    CState × List String :=
  let d := srcsetDep img.url line
  ({ acc.1 with deps := acc.1.deps ++ [d] },
    acc.2 ++ [ImageSource.render { img with url := d.placeholder }])

def handleSrcset (st : CState) (attrs : List Attr) (name : QName)
    (line : Nat) : CState × List Attr :=
  match getAttr attrs name with
  | some srcset =>
    let imgs := parseSrcset srcset
    let (st1, parts) := imgs.foldl (srcsetStep line) (st, [])
    (st1, setAttr attrs name (String.intercalate ", " parts))
  | none => (st, attrs)

/-- The needs-stable-name flag, priority and possibly rewritten href
chosen by the `html link` arm from the `rel` attribute. -/
def linkDepInfo (attrs : List Attr) (href : String) : Bool × Priority × String :=
  match getAttr attrs (attrQ "rel") with
  | some r =>
    if r = "canonical" ∨ r = "manifest" then
      (true, Priority.lazy,
        if r = "manifest" ∧ ¬strContainsChar href ':' then "webmanifest:" ++ href
        else href)
    else if r = "stylesheet" then (false, Priority.parallel, href)
    else if r = "alternate" then
      (match getAttr attrs (attrQ "type") with
       | some t => (t == "application/rss+xml" || t == "application/atom+xml",
           Priority.lazy, href)
       | none => (false, Priority.lazy, href))
    else (false, Priority.lazy, href)
  | none => (false, Priority.lazy, href)

/-- The `html link` arm of `visit_element`.  Returns the state, the new
attributes, and whether the arm returned early (empty `href`). -/
def visitLink (st : CState) (attrs : List Attr) (line : Nat) :
    CState × List Attr × Bool :=
  match getAttr attrs (attrQ "href") with
  | some href =>
    if href = "" then
      ({ st with errors := st.errors ++ [⟨emptyMsg "href", line⟩] }, attrs, true)
    else
      let (nsn, pri, href') := linkDepInfo attrs href
      let d := mkDep href' nsn pri .nofmt .nosrc .nobeh line
      let attrs1 := setAttr attrs (attrQ "href") d.placeholder
      let st1 := { st with deps := st.deps ++ [d] }
      let (st2, attrs2) := handleSrcset st1 attrs1 (attrQ "imagesrcset") line
      (st2, attrs2, false)
  | none =>
    let (st1, attrs1) := handleSrcset st attrs (attrQ "imagesrcset") line
    (st1, attrs1, false)

/-- `type` values that make an inline script opaque data
(`application/json` / `text/html` / `importmap`). -/
def jsonLike (t : String) : Bool :=
  t = "application/json" || t = "text/html" || t = "importmap"

/-- The attribute a `script` element's source is read from: `src` in
html, `xlink:href` when present else `href` in svg. -/
def scriptSrcAttr (isSvg : Bool) (attrs : List Attr) : QName :=
  if isSvg then
    (if (getAttr attrs (xlinkQ "href")).isSome then xlinkQ "href" else attrQ "href")
  else attrQ "src"

/-- The `script` arm of `visit_element` (html or svg).  Returns the
state, the new attributes, the optional attributes of a clone to be
inserted immediately before the node, and the early-return flag. -/
def visitScript (st : CState) (isSvg : Bool) (attrs : List Attr)
    (children : List HNode) (line : Nat) :
    CState × List Attr × Option (List Attr) × Bool :=
  let srcAttr := scriptSrcAttr isSvg attrs
  let src := getAttr attrs srcAttr
  let ty := getAttr attrs (attrQ "type")
  let sourceType : SourceType := if ty = some "module" then .module else .script
  let st := if ty = some "module" then { st with hasModuleScripts := true } else st
  match src with
  | some srcv =>
    if srcv = "" then
      ({ st with errors := st.errors ++ [⟨emptyMsg "src", line⟩] }, attrs, none, true)
    else
      let outputFormat : OutputFormat :=
        if sourceType = .module ∧ (st.scopeHoist ∨ st.supportsEsm) ∧ ¬isSvg then .esmodule
        else .global
      let attrs1 :=
        if outputFormat ≠ .esmodule then
          removeAttr
            (if sourceType = .module ∧ ¬isSvg then setAttr attrs (attrQ "defer") "" else attrs)
            (attrQ "type")
        else attrs
      let bb : BundleBehavior :=
        if sourceType = .script ∨ (getAttr attrs1 (attrQ "async")).isSome then .isolated
        else .nobeh
      let (st1, clone) :=
        if outputFormat = .esmodule ∧ ¬st.supportsEsm then
          let copy0 := removeAttr attrs1 (attrQ "type")
          let copy1 := setAttr copy0 (attrQ "nomodule") ""
          let copy2 := setAttr copy1 (attrQ "defer") ""
          let d := mkDep srcv false .parallel .global sourceType bb line
          ({ st with deps := st.deps ++ [d] }, some (setAttr copy2 srcAttr d.placeholder))
        else (st, none)
      let d2 := mkDep srcv false .parallel outputFormat sourceType bb line
      let attrs2 := setAttr attrs1 srcAttr d2.placeholder
      ({ st1 with deps := st1.deps ++ [d2] }, attrs2, clone, false)
  | none =>
    if (match ty with | some t => jsonLike t | none => false) then (st, attrs, none, true)
    else
      let code := textContent children
      let (outputFormat, attrs1) :=
        if sourceType = .module ∧ st.scopeHoist ∧ st.supportsEsm ∧ ¬isSvg then
          (OutputFormat.esmodule, attrs)
        else (OutputFormat.global, removeAttr attrs (attrQ "type"))
      let dpk := attrQ "data-parcel-key"
      let (key, attrs2) :=
        match getAttr attrs1 dpk with
        | some k => (k, attrs1)
        | none =>
          let k := hexFmt (sipHash13 (strHashBytes code))
          (k, setAttr attrs1 dpk k)
      let asset : Asset :=
        { ty := ty.getD "application/javascript", content := strBytes code, key := key,
          isAttr := false, outputFormat := outputFormat, sourceType := sourceType,
          bundleBehavior := .inline, line := line }
      ({ st with assets := st.assets ++ [asset] }, attrs2, none, false)

/-- The `style` element arm of `visit_element` (html or svg). -/
def visitStyleEl (st : CState) (attrs : List Attr) (children : List HNode)
    (line : Nat) : CState × List Attr :=
  let code := textContent children
  let dpk := attrQ "data-parcel-key"
  let (key, attrs1) :=
    match getAttr attrs dpk with
    | some k => (k, attrs)
    | none =>
      let k := hexFmt (sipHash13 (strHashBytes code))
      (k, setAttr attrs dpk k)
  let (tyv, attrs2) :=
    match getAttr attrs1 (attrQ "type") with
    | some t => (t, removeAttr attrs1 (attrQ "type"))
    | none => ("text/css", attrs1)
  ({ st with assets := st.assets ++
      [{ ty := tyv, content := strBytes code, key := key, isAttr := false,
         outputFormat := .nofmt, sourceType := .nosrc, bundleBehavior := .inline,
         line := line }] }, attrs2)

/-- The `meta` arm of `visit_element`. -/
def metaKind (attrs : List Attr) : Bool × Bool :=
  match getAttr attrs (attrQ "property") with
    | some property =>
      (property == "og:image" || property == "og:image:url" ||
        property == "og:image:secure_url" || property == "og:audio" ||
        property == "og:audio:secure_url" || property == "og:video" ||
        property == "og:video:secure_url" || property == "vk:image", true)
    | none =>
      match getAttr attrs (attrQ "name") with
      | some nm =>
        if nm = "twitter:image" then (true, true)
        else if nm = "msapplication-config" then
          (match getAttr attrs (attrQ "content") with
           | some content => (content != "none", true)
           | none => (false, true))
        else
          (nm == "msapplication-square150x150logo" ||
            nm == "msapplication-square310x310logo" ||
            nm == "msapplication-square70x70logo" ||
            nm == "msapplication-wide310x150logo" ||
            nm == "msapplication-TileImage", false)
      | none =>
        match getAttr attrs (attrQ "itemprop") with
        | some ip =>
          (ip == "image" || ip == "logo" || ip == "screenshot" || ip == "thumbnailUrl" ||
            ip == "contentUrl" || ip == "downloadUrl", true)
        | none => (false, true)

def visitMeta (st : CState) (attrs : List Attr) (line : Nat) :
    CState × List Attr :=
  let (isDep, nsn) := metaKind attrs
  if isDep then
    match getAttr attrs (attrQ "content") with
    | some content =>
      if content ≠ "" then
        let (st1, ph) := st.addDep content nsn .lazy line
        (st1, setAttr attrs (attrQ "content") ph)
      else (st, attrs)
    | none => (st, attrs)
  else (st, attrs)

/-- Byte position of the last occurrence of `c` (Rust `str::rfind`). -/
def rfindByte (s : String) (c : Char) : Option Nat :=
  (s.data.foldl
    (fun (acc : Nat × Option Nat) ch =>
      (acc.1 + (utf8Char ch).length, if ch = c then some acc.1 else acc.2))
    (0, none)).2

/-- `href.split_once('#')`: the part before the first `#`, or the whole
string when there is none. -/
def hrefPathPart (s : String) : String :=
  match s.data.findIdx? (· = '#') with
  | some i => String.mk (s.data.take i)
  | none => s

/-- The `html a` arm of `visit_element`.  The `Bool` result is the
early-return flag (fragment-only or extension-less references). -/
def visitA (st : CState) (attrs : List Attr) (line : Nat) :
    CState × List Attr × Bool :=
  match getAttr attrs (attrQ "href") with
  | some href =>
    if href = "" ∨ strStartsWith href "#" then (st, attrs, true)
    else
      let path := hrefPathPart href
      if (rfindByte path '.').getD 0 < 1 then (st, attrs, true)
      else
        let (st1, ph) := st.addDep href true .lazy line
        (st1, setAttr attrs (attrQ "href") ph, false)
  | none => (st, attrs, false)

end ParcelHtml

namespace ParcelHtml

/-- `is_func_iri_attr`: the fixed null-namespace presentation
attributes, plus a namespace-blind check for the last three. -/
def isFuncIriAttr (n : QName) : Bool :=
  (n.ns == .nil &&
    (n.localName == "fill" || n.localName == "stroke" || n.localName == "clip-path" ||
      n.localName == "color-profile" || n.localName == "cursor" ||
      n.localName == "filter" || n.localName == "marker" ||
      n.localName == "marker-start" || n.localName == "marker-mid" ||
      n.localName == "marker-end" || n.localName == "mask")) ||
  n.localName == "shape-inside" || n.localName == "shape-subtract" ||
  n.localName == "mask-image"

/-- Modelled stand-in for `cssparser`'s `expect_url` applied to an
attribute value that starts with `url(`.  The `cssparser` crate is an
external dependency; this model accepts `url( <string-or-unquoted> )`
with no escapes.  No claim depends on its edge cases: the claims only
use that a successful parse yields an `add_dep` placeholder. -/
def parseCssUrl (v : String) : Option String :=
  if ¬strStartsWith v "url(" then none
  else if ¬strEndsWith v ")" then none
  else
    let inner := (v.data.drop 4).dropLast
    let inner := (collectSeq isAsciiWhitespace inner).2
    let inner := ((collectSeq isAsciiWhitespace inner.reverse).2).reverse
    match inner with
    | q :: rest =>
      if q = '"' ∨ q = sq then
        match rest.getLast? with
        | some q2 =>
          if q2 = q ∧ (rest.dropLast.all (fun c => c ≠ q ∧ c ≠ '\\')) then
            some (String.mk rest.dropLast)
          else none
        | none => none
      else if inner.all (fun c =>
          ¬isAsciiWhitespace c ∧ c ≠ '"' ∧ c ≠ sq ∧ c ≠ '(' ∧ c ≠ ')' ∧ c ≠ '\\') then
        some (String.mk inner)
      else none
    | [] => some ""

/-- The `style` attribute step run after the per-element dispatch: the
value is hashed (`StrTendril` hash), replaced by its key, and an
attribute-style asset is pushed. -/
def styleAttrStep (st : CState) (attrs : List Attr) (line : Nat) :
    CState × List Attr :=
  match getAttr attrs (attrQ "style") with
  | some style =>
    let key := hexFmt (sipHash13 (tendrilHashBytes style))
    let attrs1 := setAttr attrs (attrQ "style") key
    ({ st with assets := st.assets ++
        [{ ty := "text/css", content := strBytes style, key := key, isAttr := true,
           outputFormat := .nofmt, sourceType := .nosrc, bundleBehavior := .inline,
           line := line }] }, attrs1)
  | none => (st, attrs)

/-- One attribute of the func-IRI `url(...)` pass for SVG elements:
rewritten in place when the URL parses. -/
def svgUrlAttrStep (line : Nat) (acc : CState × List Attr) (a : Attr) :
    CState × List Attr :=
  if isFuncIriAttr a.name ∧ strStartsWith a.value "url(" then
    match parseCssUrl a.value with
    | some url =>
      let (st1, ph) := acc.1.addDep url false .lazy line
      (st1, acc.2 ++ [{ a with value := ph }])
    | none => (acc.1, acc.2 ++ [a])
  else (acc.1, acc.2 ++ [a])

def svgUrlStep (st : CState) (name : QName) (attrs : List Attr) (line : Nat) :
    CState × List Attr :=
  if name.ns = .svg then attrs.foldl (svgUrlAttrStep line) (st, [])
  else (st, attrs)

/-! ### `<?xml-stylesheet?>` processing instructions -/

/-- An attribute as produced by the XML tokenizer for the
`xml-stylesheet` pseudo-element (prefix kept for re-serialization). -/
structure PIAttr where
  prefix? : Option String
  localName : String
  value : String
deriving Repr, DecidableEq

/-- One `name="value"` pair (modelled tokenizer). -/
def parsePIAttrOne (cs : List Char) : Option (PIAttr × List Char) :=
  let (nameCs, rest) :=
    collectSeq (fun c => ¬isAsciiWhitespace c ∧ c ≠ '=' ∧ c ≠ '"' ∧ c ≠ sq) cs
  if nameCs.isEmpty then none
  else
    match rest with
    | '=' :: q :: rest2 =>
      if q = '"' ∨ q = sq then
        let (val, rest3) := collectSeq (fun c => c ≠ q) rest2
        match rest3 with
        | q2 :: rest4 =>
          if q2 = q then
            let nm := String.mk nameCs
            let (pre, loc) :=
              match nameCs.findIdx? (· = ':') with
              | some i => (some (String.mk (nameCs.take i)), String.mk (nameCs.drop (i + 1)))
              | none => (none, nm)
            some (⟨pre, loc, String.mk val⟩, rest4)
          else none
        | [] => none
      else none
    | _ => none

/-- Modelled stand-in for `parse_xml_stylesheet`, which in the source
feeds `<xml-stylesheet {contents} />` to the external `xml5ever`
tokenizer and returns the attribute list (or an error).  The model
accepts whitespace-separated quoted `name="value"` pairs and rejects
anything else.  The claims only use that `href`-named attributes of a
successful parse go through `add_dep` with `Parallel` priority. -/
def parseXmlStylesheet (contents : String) : Option (List PIAttr) :=
  let go : Nat → List Char → List PIAttr → Option (List PIAttr) := fun fuel =>
    Nat.rec (motive := fun _ => List Char → List PIAttr → Option (List PIAttr))
      (fun _ _ => none)
      (fun _ ih cs acc =>
        let cs := (collectSeq isAsciiWhitespace cs).2
        if cs.isEmpty then some acc
        else
          match parsePIAttrOne cs with
          | some (a, rest) => ih rest (acc ++ [a])
          | none => none)
      fuel
  go (contents.data.length + 1) contents.data []

/-- `serialize_xml_stylesheet`: space-separated
`[prefix:]name="value"` with `&`, `'`, `"` escaped. -/
def serializeXmlStylesheet (attrs : List PIAttr) : String :=
  let escChar := fun (c : Char) =>
    if c = '&' then "&amp;"
    else if c = sq then "&apos;"
    else if c = '"' then "&quot;"
    else String.singleton c
  let one := fun (a : PIAttr) =>
    (match a.prefix? with | some p => p ++ ":" | none => "") ++
      a.localName ++ "=" ++ "\"" ++ String.join (a.value.data.map escChar) ++ "\""
  String.intercalate " " (attrs.map one)

/-! ### The walk -/

/-- The per-element dispatch of `visit_element` (the big match on the
expanded name), before the style-attribute and svg `url()` passes. -/
def visitDispatch (st : CState) (name : QName) (attrs : List Attr)
    (children : List HNode) (line : Nat) :
    CState × List Attr × Option (List Attr) × Bool :=
  let ns := name.ns
  let ln := name.localName
    if ns = .html ∧ ln = "link" then
      let (s, a, e) := visitLink st attrs line
      (s, a, none, e)
    else if ns = .html ∧ ln = "script" then visitScript st false attrs children line
    else if ns = .svg ∧ ln = "script" then visitScript st true attrs children line
    else if (ns = .html ∨ ns = .svg) ∧ ln = "style" then
      let (s, a) := visitStyleEl st attrs children line
      (s, a, none, false)
    else if ns = .html ∧ ln = "meta" then
      let (s, a) := visitMeta st attrs line
      (s, a, none, false)
    else if ns = .html ∧ (ln = "img" ∨ ln = "source") then
      let (s1, a1) := handleAttr st attrs (attrQ "src") false line
      let (s2, a2) := handleSrcset s1 a1 (attrQ "srcset") line
      (s2, a2, none, false)
    else if ns = .html ∧ (ln = "audio" ∨ ln = "track" ∨ ln = "embed") then
      let (s, a) := handleAttr st attrs (attrQ "src") false line
      (s, a, none, false)
    else if ns = .html ∧ ln = "video" then
      let (s1, a1) := handleAttr st attrs (attrQ "src") false line
      let (s2, a2) := handleAttr s1 a1 (attrQ "poster") false line
      (s2, a2, none, false)
    else if ns = .html ∧ ln = "iframe" then
      let (s, a) := handleAttr st attrs (attrQ "src") true line
      (s, a, none, false)
    else if ns = .html ∧ ln = "object" then
      let (s, a) := handleAttr st attrs (attrQ "data") false line
      (s, a, none, false)
    else if ns = .html ∧ ln = "a" then
      let (s, a, e) := visitA st attrs line
      (s, a, none, e)
    else if ns = .svg ∧ ln = "a" then
      let (s1, a1) := handleAttr st attrs (attrQ "href") true line
      let (s2, a2) := handleAttr s1 a1 (xlinkQ "href") true line
      (s2, a2, none, false)
    else if ns = .svg ∧ (ln = "use" ∨ ln = "image" ∨ ln = "feImage" ∨
        ln = "linearGradient" ∨ ln = "radialGradient" ∨ ln = "pattern" ∨
        ln = "mpath" ∨ ln = "textPath") then
      let (s1, a1) := handleAttr st attrs (attrQ "href") false line
      let (s2, a2) := handleAttr s1 a1 (xlinkQ "href") false line
      (s2, a2, none, false)
    else if ns = .svg ∧ (ln = "altGlyph" ∨ ln = "cursor" ∨ ln = "filter" ∨
        ln = "font-face-uri" ∨ ln = "glyphRef" ∨ ln = "tref" ∨
        ln = "color-profile") then
      let (s, a) := handleAttr st attrs (xlinkQ "href") false line
      (s, a, none, false)
    else (st, attrs, none, false)

/-- `visit_element`: per-element dispatch, then the `style`-attribute
step, then the SVG func-IRI step (both skipped by the `return`s inside
the dispatch arms).  Returns the new attributes and the optional
attributes of a clone inserted immediately before the node. -/
def visitElement (st : CState) (name : QName) (attrs : List Attr)
    (children : List HNode) (line : Nat) :
    CState × List Attr × Option (List Attr) :=
  let (st1, attrs1, clone, early) := visitDispatch st name attrs children line
  if early then (st1, attrs1, clone)
  else
    let (st2, attrs2) := styleAttrStep st1 attrs1 line
    let (st3, attrs3) := svgUrlStep st2 name attrs2 line
    (st3, attrs3, clone)

/-- One attribute of the `<?xml-stylesheet?>` rewrite. -/
def piAttrStep (line : Nat) (acc : CState × List PIAttr) (a : PIAttr) :
    CState × List PIAttr :=
  if a.localName = "href" then
    let (s2, ph) := acc.1.addDep a.value false .parallel line
    (s2, acc.2 ++ [{ a with value := ph }])
  else (acc.1, acc.2 ++ [a])

/-- The walk visitor applied to one node's payload. -/
def visitNode (st : CState) (data : NData) (children : List HNode) (line : Nat) :
    CState × NData × Option NData :=
  match data with
  | .element name attrs =>
    let (st1, attrs1, clone) := visitElement st name attrs children line
    (st1, .element name attrs1, clone.map (fun ca => .element name ca))
  | .pi target contents =>
    if target = "xml-stylesheet" then
      match parseXmlStylesheet contents with
      | some pattrs =>
        let (st1, pattrs1) := pattrs.foldl (piAttrStep line) (st, [])
        (st1, .pi target (serializeXmlStylesheet pattrs1), none)
      | none => (st, .pi target contents, none)
    else (st, .pi target contents, none)
  | d => (st, d, none)

mutual

/-- Walk one node: visit it (possibly producing a clone inserted before
it), then walk its children. -/
def walkNode (st : CState) : HNode → CState × List HNode
  | .mk data line children =>
    let (st1, data1, cloneData) := visitNode st data children line
    let (st2, children1) := walkChildren st1 children
    (st2, (match cloneData with
           | some cd => [HNode.mk cd line []]
           | none => []) ++ [HNode.mk data1 line children1])

/-- Walk a sibling list left to right. -/
def walkChildren (st : CState) : List HNode → CState × List HNode
  | [] => (st, [])
  | c :: cs =>
    let (st1, c1) := walkNode st c
    let (st2, cs1) := walkChildren st1 cs
    (st2, c1 ++ cs1)

end

mutual

/-- `Node::find`: first matching element, depth first, pre-order. -/
def findElem (q : QName) : HNode → Option HNode
  | .mk data line children =>
    match data with
    | .element name _ =>
      if name = q then some (.mk data line children) else findList q children
    | _ => findList q children

/-- `find` over a sibling list. -/
def findList (q : QName) : List HNode → Option HNode
  | [] => none
  | c :: cs =>
    match findElem q c with
    | some r => some r
    | none => findList q cs

end

mutual

/-- Append `child` to the children of the first element matching `q`
(pre-order); the flag reports whether a match was found. -/
def appendAtElem (q : QName) (child : HNode) : HNode → HNode × Bool
  | .mk data line children =>
    match data with
    | .element name _ =>
      if name = q then (.mk data line (children ++ [child]), true)
      else
        let (cs1, found) := appendAtList q child children
        (.mk data line cs1, found)
    | _ =>
      let (cs1, found) := appendAtList q child children
      (.mk data line cs1, found)

/-- `appendAtElem` over a sibling list (first match only). -/
def appendAtList (q : QName) (child : HNode) : List HNode → List HNode × Bool
  | [] => ([], false)
  | c :: cs =>
    let (c1, found) := appendAtElem q child c
    if found then (c1 :: cs, true)
    else
      let (cs1, found2) := appendAtList q child cs
      (c1 :: cs1, found2)

end

/-- The dependency pushed for every walk-extracted asset
(`collect_dependencies` lines 125-136): href and placeholder are the
asset's key, priority Sync, no stable name, bundle behavior None, and
the asset's own output format and source type. -/
def pairDep (a : Asset) : Dependency :=
  { href := a.key, needsStableName := false, priority := .sync,
    outputFormat := a.outputFormat, sourceType := a.sourceType,
    bundleBehavior := .nobeh, placeholder := a.key, line := a.line }

/-- The zero-byte placeholder asset registered for `hmr.js`. -/
def hmrAsset : Asset :=
  { ty := "application/javascript", content := [], key := "hmr.js", isAttr := false,
    outputFormat := .nofmt, sourceType := .nosrc, bundleBehavior := .nobeh, line := 0 }

/-- Result of `collect_dependencies`, together with the mutated tree. -/
structure CollectResult where
  deps : List Dependency
  assets : List Asset
  errors : List Error
  dom : HNode
deriving Repr, DecidableEq

/-- `collect_dependencies`: the walk, then one pairing dependency per
extracted asset, then HMR injection (only when no module script was
seen and a `body` element exists).  A clone requested at the root is
dropped: `insert_before` on a parentless node links the copy outside
the tree. -/
def collectDependencies (dom : HNode) (scopeHoist supportsEsm hmr : Bool) :
    CollectResult :=
  let st0 : CState :=
    { scopeHoist := scopeHoist, supportsEsm := supportsEsm, deps := [],
      assets := [], hasModuleScripts := false, errors := [] }
  let (st1, data1, _rootClone) := visitNode st0 dom.data dom.children dom.line
  let (st2, children1) := walkChildren st1 dom.children
  let dom1 := HNode.mk data1 dom.line children1
  let st3 := { st2 with deps := st2.deps ++ st2.assets.map pairDep }
  if hmr ∧ ¬st3.hasModuleScripts then
    match findElem (htmlQ "body") dom1 with
    | some _ =>
      let (st4, src) := st3.addDep "hmr.js" false .parallel 0
      let st5 := { st4 with assets := st4.assets ++ [hmrAsset] }
      let script := HNode.mk (.element (htmlQ "script") [⟨attrQ "src", src⟩]) 0 []
      ⟨st5.deps, st5.assets, st5.errors, (appendAtElem (htmlQ "body") script dom1).1⟩
    | none => ⟨st3.deps, st3.assets, st3.errors, dom1⟩
  else ⟨st3.deps, st3.assets, st3.errors, dom1⟩

end ParcelHtml

namespace ParcelHtml

/-! ## Minifying serializer: attribute emission (`serialize.rs`) -/

/-- One character of `HtmlSerializer::write_escaped`, in source order:
`&` always, NBSP always, `"` only in attribute mode, `<`/`>` only in
text mode. -/
def escChar (attrMode : Bool) (c : Char) : String :=
  if c = '&' then "&amp;"
  else if c = Char.ofNat 0xA0 then "&nbsp;"
  else if c = '"' ∧ attrMode then "&quot;"
  else if c = '<' ∧ ¬attrMode then "&lt;"
  else if c = '>' ∧ ¬attrMode then "&gt;"
  else String.singleton c

/-- `HtmlSerializer::write_escaped`. -/
def writeEscaped (text : String) (attrMode : Bool) : String :=
  String.join (text.data.map (escChar attrMode))

/-- The quoting test of `start_elem`: the value contains ASCII
whitespace, `"`, `'`, `=`, `<`, `>`, a backtick, or NBSP. -/
def attrNeedsQuotes (v : String) : Bool :=
  v.data.any (fun c =>
    isAsciiWhitespace c || c = '"' || c = sq || c = '=' || c = '<' || c = '>' ||
      c = Char.ofNat 0x60 || c = Char.ofNat 0xA0)

/-- What `start_elem` writes after an attribute's name: nothing for an
empty value, `=value` unquoted when no quote-forcing character occurs,
otherwise `="..."` with attribute-mode escaping. -/
def emitAttrValue (v : String) : String :=
  if v = "" then ""
  else if ¬attrNeedsQuotes v then "=" ++ v
  else "=" ++ "\"" ++ writeEscaped v true ++ "\""

/-- The namespace prefix `start_elem` writes before an attribute name
(`elemLocal` is the element's local name, compared against `xmlns`). -/
def attrNSPrefix (elemLocal : String) (ns : NSpace) : String :=
  match ns with
  | .nil => ""
  | .xml => "xml:"
  | .xmlns => if elemLocal ≠ "xmlns" then "xmlns:" else ""
  | .xlink => "xlink:"
  | _ => "unknown_namespace:"

/-- Everything `start_elem` writes for one attribute. -/
def emitAttr (elemLocal : String) (a : Attr) : String :=
  " " ++ attrNSPrefix elemLocal a.name.ns ++ a.name.localName ++ emitAttrValue a.value

/-! ## Structural optimizer: the `script` arm (`optimize.rs`)

Only the `html script` element arm and the trailing global-attribute
section are embedded: for a script element, `optimize` runs exactly
this code on its attributes (the `minify_json` branch rewrites only the
element's text content, never an attribute, and is a no-op here). -/

/-- `OptimizeOptions` (all default `true`). -/
structure OptimizeOptions where
  collapseAttributeWhitespace : Bool
  collapseWhitespace : Bool
  deduplicateAttributeValues : Bool
  removeComments : Bool
  removeEmptyAttributes : Bool
  minifyJson : Bool
  minifySvg : Bool
  removeRedundantAttributes : Bool
  collapseBooleanAttributes : Bool
  normalizeAttributeValues : Bool
  sortAttributesWithLists : Bool
deriving Repr, DecidableEq

/-- The `Default` impl: everything on. -/
def OptimizeOptions.default : OptimizeOptions :=
  ⟨true, true, true, true, true, true, true, true, true, true, true⟩

/-- Rust `char::is_whitespace` (Unicode `White_Space`). -/
def isRustWhitespace (c : Char) : Bool :=
  isAsciiWhitespace c || c = Char.ofNat 0x0B || c = Char.ofNat 0x85 ||
    c = Char.ofNat 0xA0 || c = Char.ofNat 0x1680 ||
    (Char.ofNat 0x2000 ≤ c && c ≤ Char.ofNat 0x200A) ||
    c = Char.ofNat 0x2028 || c = Char.ofNat 0x2029 || c = Char.ofNat 0x202F ||
    c = Char.ofNat 0x205F || c = Char.ofNat 0x3000

/-- Rust `str::trim`. -/
def strTrim (s : String) : String :=
  String.mk (((collectSeq isRustWhitespace s.data).2.reverse.dropWhile isRustWhitespace).reverse)

/-- Rust `str::split_whitespace` (nonempty runs between whitespace). -/
def splitWs (s : String) : List String :=
  let step := fun (acc : List String × List Char) (c : Char) =>
    if isRustWhitespace c then
      (acc.1 ++ (if acc.2.isEmpty then [] else [String.mk acc.2.reverse]), [])
    else (acc.1, c :: acc.2)
  let (parts, cur) := s.data.foldl step ([], [])
  parts ++ (if cur.isEmpty then [] else [String.mk cur.reverse])

/-- Rust `char::to_ascii_lowercase`. -/
def asciiLower (c : Char) : Char :=
  if 'A' ≤ c ∧ c ≤ 'Z' then Char.ofNat (c.toNat + 32) else c

/-- Rust `str::eq_ignore_ascii_case`. -/
def eqIgnoreAsciiCase (a b : String) : Bool :=
  a.data.map asciiLower == b.data.map asciiLower

/-- Stand-in for Rust `str::to_lowercase`: ASCII lowering only (the
Unicode case table is not reproduced; none of the claims involve
non-ASCII attribute values). -/
def strLower (s : String) : String := String.mk (s.data.map asciiLower)

/-- `optimize.rs` `trim`. -/
def optTrim (attrs : List Attr) (q : QName) (opts : OptimizeOptions) : List Attr :=
  if ¬opts.collapseAttributeWhitespace then attrs
  else
    match getAttr attrs q with
    | some value =>
      let trimmed := strTrim value
      if trimmed = "" ∧ opts.removeEmptyAttributes then removeAttr attrs q
      else if trimmed ≠ value then setAttr attrs q trimmed
      else attrs
    | none => attrs

/-- Rust `Vec::dedup` (adjacent duplicates). -/
def dedupAdj : List String → List String
  | [] => []
  | [a] => [a]
  | a :: b :: rest => if a = b then dedupAdj (b :: rest) else a :: dedupAdj (b :: rest)

/-- Keep-first deduplication (the `HashSet` retain in
`ordered_space_separated_set`). -/
def dedupKeepFirst (l : List String) : List String :=
  (l.foldl
    (fun (acc : List String × List String) x =>
      if x ∈ acc.2 then acc else (acc.1 ++ [x], x :: acc.2))
    ([], [])).1

/-- `optimize.rs` `unordered_space_separated_set`. -/
def optUnorderedSet (attrs : List Attr) (q : QName) (opts : OptimizeOptions) : List Attr :=
  if ¬opts.collapseAttributeWhitespace then attrs
  else
    match getAttr attrs q with
    | some value =>
      let items := splitWs value
      let items :=
        if opts.sortAttributesWithLists then
          let sorted := items.mergeSort (fun a b => a ≤ b)
          if opts.deduplicateAttributeValues then dedupAdj sorted else sorted
        else items
      if items.isEmpty ∧ opts.removeEmptyAttributes then removeAttr attrs q
      else setAttr attrs q (String.intercalate " " items)
    | none => attrs

/-- `optimize.rs` `ordered_space_separated_set`. -/
def optOrderedSet (attrs : List Attr) (q : QName) (opts : OptimizeOptions) : List Attr :=
  if ¬opts.collapseAttributeWhitespace then attrs
  else
    match getAttr attrs q with
    | some value =>
      let items := splitWs value
      let items := if opts.deduplicateAttributeValues then dedupKeepFirst items else items
      if items.isEmpty ∧ opts.removeEmptyAttributes then removeAttr attrs q
      else setAttr attrs q (String.intercalate " " items)
    | none => attrs

/-- `optimize.rs` `case_insensitive`. -/
def optCaseInsensitive (attrs : List Attr) (q : QName) (opts : OptimizeOptions) : List Attr :=
  if ¬opts.normalizeAttributeValues then attrs
  else
    match getAttr attrs q with
    | some value =>
      let lower := strLower value
      if value ≠ lower then setAttr attrs q lower else attrs
    | none => attrs

/-- `optimize.rs` `enumerated`. -/
def optEnumerated (attrs : List Attr) (q : QName) (dflt : String)
    (opts : OptimizeOptions) : List Attr :=
  match getAttr attrs q with
  | some value =>
    if eqIgnoreAsciiCase value dflt ∧ opts.removeRedundantAttributes then removeAttr attrs q
    else if opts.normalizeAttributeValues then
      let lower := strLower value
      if value ≠ lower then setAttr attrs q lower else attrs
    else attrs
  | none => attrs

/-- `optimize.rs` `boolean`. -/
def optBoolean (attrs : List Attr) (q : QName) (opts : OptimizeOptions) : List Attr :=
  if ¬opts.collapseBooleanAttributes then attrs
  else
    match getAttr attrs q with
    | some value =>
      if eqIgnoreAsciiCase value q.localName then setAttr attrs q "" else attrs
    | none => attrs

/-- The 16 JavaScript MIME type strings listed in the `script` arm
(from the WHATWG mimesniff "JavaScript MIME type" list). -/
def jsMimeTypes : List String :=
  ["application/ecmascript", "application/javascript",
   "application/x-ecmascript", "application/x-javascript",
   "text/ecmascript", "text/javascript", "text/javascript1.0",
   "text/javascript1.1", "text/javascript1.2", "text/javascript1.3",
   "text/javascript1.4", "text/javascript1.5", "text/jscript",
   "text/livescript", "text/x-ecmascript", "text/x-javascript"]

/-- The `type` removal decision of the `html script` arm. -/
def scriptTypeStep (attrs : List Attr) (opts : OptimizeOptions) : List Attr :=
  match getAttr attrs (attrQ "type") with
  | some ty =>
    if (ty = "" ∧ opts.removeEmptyAttributes) ∨
        (jsMimeTypes.any (eqIgnoreAsciiCase ty) ∧ opts.removeRedundantAttributes) then
      removeAttr attrs (attrQ "type")
    else attrs
  | none => attrs

/-- The global-attribute section of `optimize`, applied after every
per-element arm. -/
def optGlobalAttrs (attrs : List Attr) (opts : OptimizeOptions) : List Attr :=
  let attrs := optOrderedSet attrs (attrQ "accesskey") opts
  let attrs := optBoolean attrs (attrQ "autofocus") opts
  let attrs := optUnorderedSet attrs (attrQ "class") opts
  let attrs := optTrim attrs (attrQ "style") opts
  let attrs := optTrim attrs (attrQ "itemid") opts
  let attrs := optUnorderedSet attrs (attrQ "itemprop") opts
  let attrs := optUnorderedSet attrs (attrQ "itemref") opts
  let attrs := optBoolean attrs (attrQ "itemscope") opts
  let attrs := optUnorderedSet attrs (attrQ "itemtype") opts
  match getAttr attrs (attrQ "contenteditable") with
  | some value =>
    if value = "true" ∧ opts.normalizeAttributeValues then
      setAttr attrs (attrQ "contenteditable") ""
    else attrs
  | none => attrs

/-- What `optimize` does to a script element's attributes: the
`html script` arm followed by the global-attribute section. -/
def optimizeScriptAttrs (attrs : List Attr) (opts : OptimizeOptions) : List Attr :=
  let attrs := optTrim attrs (attrQ "src") opts
  let attrs := scriptTypeStep attrs opts
  let attrs := optEnumerated attrs (attrQ "referrerpolicy") "" opts
  let attrs := optEnumerated attrs (attrQ "fetchpriority") "auto" opts
  let attrs := optEnumerated attrs (attrQ "charset") "utf-8" opts
  let attrs := optCaseInsensitive attrs (attrQ "crossorigin") opts
  let attrs := optBoolean attrs (attrQ "async") opts
  let attrs := optBoolean attrs (attrQ "defer") opts
  let attrs := optBoolean attrs (attrQ "nomodule") opts
  optGlobalAttrs attrs opts

/-! ## Package rewriter: head insertion (`package.rs`)

The head-mutation phase of `insert_bundle_references` (lines 81-135):
bundle reference nodes are prepended while iterating the given list in
reverse, then the import-map script (the existing node moved, or a
synthesized one) is prepended last.  JSON handling through `serde_json`
is external to the repository and only rewrites the import-map node's
text content, never its placement; it is kept opaque here. -/

/-- An external bundle reference. -/
inductive BundleReference where
  | styleSheet (href : String)
  | script (src : String) (module : Bool) (nomodule : Bool)
deriving Repr, DecidableEq

/-- The element built for one bundle reference (attribute order follows
the `set_attribute` calls; `Node::create_element` uses line 1). -/
def bundleRefNode (b : BundleReference) : HNode :=
  match b with
  | .styleSheet href =>
    .mk (.element (htmlQ "link")
      [⟨attrQ "rel", "stylesheet"⟩, ⟨attrQ "href", href⟩]) 1 []
  | .script src module nomodule =>
    .mk (.element (htmlQ "script")
      ((if module then [⟨attrQ "type", "module"⟩] else []) ++
        (if nomodule then [⟨attrQ "nomodule", ""⟩, ⟨attrQ "defer", ""⟩] else []) ++
        [⟨attrQ "src", src⟩])) 1 []

/-- One entry of the import map; the value stands for an arbitrary
serialized JSON value. -/
structure ImportMapEntry where
  key : String
  value : String
deriving Repr, DecidableEq

/-- serde_json string escaping for the synthesized import-map keys. -/
def jsonEscape (s : String) : String :=
  String.join (s.data.map fun c =>
    if c = '"' then "\\\""
    else if c = '\\' then "\\\\"
    else if c = '\n' then "\\n"
    else if c = '\r' then "\\r"
    else if c = '\t' then "\\t"
    else if c.toNat < 0x20 then
      "\\u00" ++ String.mk [hexDigit (c.toNat / 16), hexDigit (c.toNat % 16)]
    else String.singleton c)

/-- The JSON text of a synthesized import map:
`{"imports":{"k":v,...}}`. -/
def importMapJson (im : List ImportMapEntry) : String :=
  "\x7b\"imports\":\x7b" ++
    String.intercalate ","
      (im.map (fun e => "\"" ++ jsonEscape e.key ++ "\":" ++ e.value)) ++
    "\x7d\x7d"

/-- The synthesized `<script type="importmap">` node
(`set_text_content` creates the text child at line 0). -/
def synthImportMapNode (im : List ImportMapEntry) : HNode :=
  .mk (.element (htmlQ "script") [⟨attrQ "type", "importmap"⟩]) 1
    [.mk (.text (importMapJson im)) 0 []]

/-- Stand-in for the `serde_json` merge into an existing import-map
node: on a successful parse the source replaces only the node's text
content with the merged JSON; placement is unaffected.  The merged
text itself is kept opaque (external `serde_json`). -/
def mergeImportMapNode (n : HNode) (_im : List ImportMapEntry) : HNode := n

/-- The head-insertion phase of `insert_bundle_references`: prepend one
node per bundle iterating the list in reverse, then prepend the
import-map script if the map is nonempty. -/
def insertIntoHead (bundles : List BundleReference) (importMap : List ImportMapEntry)
    (importMapNode : Option HNode) (headChildren : List HNode) : List HNode :=
  let cs1 := bundles.reverse.foldl (fun cs b => bundleRefNode b :: cs) headChildren
  if importMap.isEmpty then cs1
  else
    match importMapNode with
    | some n => mergeImportMapNode n importMap :: cs1
    | none => synthImportMapNode importMap :: cs1

end ParcelHtml

namespace ParcelHtml

/-! ## The raw pointer tree (`arena.rs`), for the tree-shape claim

A `Node`'s five links (`parent`, `previous_sibling`, `next_sibling`,
`first_child`, `last_child`) are optional non-owning references; the
arena is modelled as a total store from node indices to link records,
and `detach` / `append` / `prepend` / `insert_before` perform exactly
the pointer surgery of the source (a `Cell::take` is a read followed by
a clear; where the cleared value is overwritten before ever being read
again, the clear is dropped). -/

/-- The five links of a `Node`. -/
structure Links where
  parent : Option Nat
  prev : Option Nat
  next : Option Nat
  first : Option Nat
  last : Option Nat
deriving Repr, DecidableEq

instance : Inhabited Links := ⟨⟨none, none, none, none, none⟩⟩

/-- The arena: a total assignment of links to node indices. -/
def Store := Nat → Links

/-- Pointwise update of one node's links. -/
def upd (s : Store) (n : Nat) (f : Links → Links) : Store :=
  fun i => if i = n then f (s i) else s i

theorem upd_apply (s : Store) (n : Nat) (f : Links → Links) (i : Nat) :
    upd s n f i = if i = n then f (s i) else s i := rfl

def clearPPN (l : Links) : Links := { l with parent := none, prev := none, next := none }
def withParent (v : Option Nat) (l : Links) : Links := { l with parent := v }
def withPrev (v : Option Nat) (l : Links) : Links := { l with prev := v }
def withNext (v : Option Nat) (l : Links) : Links := { l with next := v }
def withFirst (v : Option Nat) (l : Links) : Links := { l with first := v }
def withLast (v : Option Nat) (l : Links) : Links := { l with last := v }

/-- `Node::detach`. -/
def detach (s : Store) (n : Nat) : Store :=
  let L := s n
  let s1 := upd s n clearPPN
  let s2 :=
    match L.next with
    | some r => upd s1 r (withPrev L.prev)
    | none =>
      match L.parent with
      | some p => upd s1 p (withLast L.prev)
      | none => s1
  match L.prev with
  | some l0 => upd s2 l0 (withNext L.next)
  | none =>
    match L.parent with
    | some p => upd s2 p (withFirst L.next)
    | none => s2

/-- `Node::append`. -/
def append (s : Store) (p c : Nat) : Store :=
  let s1 := detach s c
  let s2 := upd s1 c (withParent (some p))
  match (s2 p).last with
  | some lc =>
    let s3 := upd s2 c (withPrev (some lc))
    let s4 := upd s3 lc (withNext (some c))
    upd s4 p (withLast (some c))
  | none =>
    let s3 := upd s2 p (withFirst (some c))
    upd s3 p (withLast (some c))

/-- `Node::prepend`. -/
def prepend (s : Store) (p c : Nat) : Store :=
  let s1 := detach s c
  let s2 := upd s1 c (withParent (some p))
  match (s2 p).first with
  | some fc =>
    let s3 := upd s2 c (withNext (some fc))
    let s4 := upd s3 fc (withPrev (some c))
    upd s4 p (withFirst (some c))
  | none =>
    let s3 := upd s2 p (withLast (some c))
    upd s3 p (withFirst (some c))

/-- `Node::insert_before` (`sib.insert_before(c)` inserts `c`
immediately before `sib`). -/
def insertBefore (s : Store) (sib c : Nat) : Store :=
  let s1 := detach s c
  let s2 := upd s1 c (withParent (s1 sib).parent)
  let s3 := upd s2 c (withNext (some sib))
  match (s3 sib).prev with
  | some l0 =>
    let s4 := upd s3 c (withPrev (some l0))
    let s5 := upd s4 l0 (withNext (some c))
    upd s5 sib (withPrev (some c))
  | none =>
    match (s3 sib).parent with
    | some p =>
      let s4 := upd s3 p (withFirst (some c))
      upd s4 sib (withPrev (some c))
    | none => upd s3 sib (withPrev (some c))

/-! ### The tree-shape invariant

The local consistency conditions stated in the specification, plus the
"terminated by absence" requirement expressed as a rank strictly
increasing along `next` links (a sibling list that ends in `none` on
both sides admits such a rank; a cyclic one does not). -/

/-- `first_child` points to a child with no previous sibling. -/
def FirstOk (s : Store) : Prop :=
  ∀ a b, (s a).first = some b → (s b).parent = some a ∧ (s b).prev = none

/-- `last_child` points to a child with no next sibling. -/
def LastOk (s : Store) : Prop :=
  ∀ a b, (s a).last = some b → (s b).parent = some a ∧ (s b).next = none

/-- `next_sibling` is mirrored by `previous_sibling` and preserves the
parent. -/
def NextOk (s : Store) : Prop :=
  ∀ a b, (s a).next = some b → (s b).prev = some a ∧ (s b).parent = (s a).parent

/-- `previous_sibling` is mirrored by `next_sibling` and preserves the
parent. -/
def PrevOk (s : Store) : Prop :=
  ∀ a b, (s a).prev = some b → (s b).next = some a ∧ (s b).parent = (s a).parent

/-- A node with no children has both child links absent. -/
def ChildIff (s : Store) : Prop :=
  ∀ a, (s a).first = none ↔ (s a).last = none

/-- A parented node with no previous (next) sibling is its parent's
first (last) child. -/
def MemberOk (s : Store) : Prop :=
  ∀ a p, (s a).parent = some p →
    ((s a).prev = none → (s p).first = some a) ∧
    ((s a).next = none → (s p).last = some a)

/-- Some rank increases strictly along `next` links: sibling lists
terminate by absence instead of cycling. -/
def Ranked (s : Store) : Prop :=
  ∃ rank : Nat → ℚ, ∀ a b, (s a).next = some b → rank a < rank b

/-- The tree-shape invariant of §3 of the specification. -/
def WF (s : Store) : Prop :=
  FirstOk s ∧ LastOk s ∧ NextOk s ∧ PrevOk s ∧ ChildIff s ∧ MemberOk s ∧ Ranked s

end ParcelHtml

namespace ParcelHtml

/-! ### Field-wise characterization of `detach`

`detach` writes each link field at most twice (the clear, then at most
one repair); these lemmas give the final value of every field of every
node. -/

theorem detach_parent (s : Store) (n a : Nat) :
    (detach s n a).parent = if a = n then none else (s a).parent := by
  unfold detach
  rcases hn : (s n).next with _ | r <;> rcases hv : (s n).prev with _ | l0 <;>
    rcases hp : (s n).parent with _ | p <;>
      simp only [upd_apply, clearPPN, withPrev, withNext, withFirst, withLast] <;>
      split_ifs <;> simp_all

theorem detach_prev (s : Store) (n a : Nat) :
    (detach s n a).prev =
      if (s n).next = some a then (s n).prev
      else if a = n then none else (s a).prev := by
  unfold detach
  rcases hn : (s n).next with _ | r <;> rcases hv : (s n).prev with _ | l0 <;>
    rcases hp : (s n).parent with _ | p <;>
      simp only [upd_apply, clearPPN, withPrev, withNext, withFirst, withLast] <;>
      split_ifs <;> simp_all

theorem detach_next (s : Store) (n a : Nat) :
    (detach s n a).next =
      if (s n).prev = some a then (s n).next
      else if a = n then none else (s a).next := by
  unfold detach
  rcases hn : (s n).next with _ | r <;> rcases hv : (s n).prev with _ | l0 <;>
    rcases hp : (s n).parent with _ | p <;>
      simp only [upd_apply, clearPPN, withPrev, withNext, withFirst, withLast] <;>
      split_ifs <;> simp_all

theorem detach_first (s : Store) (n a : Nat) :
    (detach s n a).first =
      if (s n).prev = none ∧ (s n).parent = some a then (s n).next
      else (s a).first := by
  unfold detach
  rcases hn : (s n).next with _ | r <;> rcases hv : (s n).prev with _ | l0 <;>
    rcases hp : (s n).parent with _ | p <;>
      simp only [upd_apply, clearPPN, withPrev, withNext, withFirst, withLast] <;>
      split_ifs <;> simp_all

theorem detach_last (s : Store) (n a : Nat) :
    (detach s n a).last =
      if (s n).next = none ∧ (s n).parent = some a then (s n).prev
      else (s a).last := by
  unfold detach
  rcases hn : (s n).next with _ | r <;> rcases hv : (s n).prev with _ | l0 <;>
    rcases hp : (s n).parent with _ | p <;>
      simp only [upd_apply, clearPPN, withPrev, withNext, withFirst, withLast] <;>
      split_ifs <;> simp_all

end ParcelHtml

namespace ParcelHtml

/-! ### Consequences of the invariant -/

theorem next_ne_self {s : Store} (hR : Ranked s) (a : Nat) : (s a).next ≠ some a := by
  intro h
  obtain ⟨rank, hr⟩ := hR
  exact lt_irrefl _ (hr a a h)

theorem next_no_swap {s : Store} (hR : Ranked s) {a b : Nat}
    (hab : (s a).next = some b) : (s b).next ≠ some a := by
  intro h
  obtain ⟨rank, hr⟩ := hR
  exact lt_irrefl _ ((hr a b hab).trans (hr b a h))

theorem prev_ne_self {s : Store} (hP : PrevOk s) (hR : Ranked s) (a : Nat) :
    (s a).prev ≠ some a := by
  intro h
  exact next_ne_self hR a (hP a a h).1

theorem next_prev_ne {s : Store} (hP : PrevOk s) (hR : Ranked s) {n r l0 : Nat}
    (hn : (s n).next = some r) (hv : (s n).prev = some l0) : r ≠ l0 := by
  intro h
  subst h
  exact next_no_swap hR hn (hP n r hv).1

end ParcelHtml

namespace ParcelHtml

/-! ### `detach` preserves the invariant, clears the node's links, and
removes every incoming sibling/child link to it -/

theorem detach_FirstOk {s : Store} (h : WF s) (n : Nat) : FirstOk (detach s n) := by
  obtain ⟨hF, hL, hN, hP, hC, hM, hR⟩ := h
  intro a b hfb
  rw [detach_first] at hfb
  split_ifs at hfb with h1
  · -- repaired: `a`'s first child becomes `n`'s next sibling `b`
    have hbn : b ≠ n := by
      intro he
      rw [he] at hfb
      exact next_ne_self hR n hfb
    constructor
    · rw [detach_parent, if_neg hbn, (hN n b hfb).2, h1.2]
    · rw [detach_prev, if_pos hfb, h1.1]
  · -- untouched first pointer
    have hbn : b ≠ n := by
      intro he
      rw [he] at hfb
      exact h1 ⟨(hF a n hfb).2, (hF a n hfb).1⟩
    have hnb : (s n).next ≠ some b := by
      intro hx
      have h5 := (hN n b hx).1
      rw [(hF a b hfb).2] at h5
      exact Option.noConfusion h5
    constructor
    · rw [detach_parent, if_neg hbn]
      exact (hF a b hfb).1
    · rw [detach_prev, if_neg hnb, if_neg hbn]
      exact (hF a b hfb).2

theorem detach_LastOk {s : Store} (h : WF s) (n : Nat) : LastOk (detach s n) := by
  obtain ⟨hF, hL, hN, hP, hC, hM, hR⟩ := h
  intro a b hfb
  rw [detach_last] at hfb
  split_ifs at hfb with h1
  · have hbn : b ≠ n := by
      intro he
      rw [he] at hfb
      exact prev_ne_self hP hR n hfb
    constructor
    · rw [detach_parent, if_neg hbn, (hP n b hfb).2, h1.2]
    · rw [detach_next, if_pos hfb, h1.1]
  · have hbn : b ≠ n := by
      intro he
      rw [he] at hfb
      exact h1 ⟨(hL a n hfb).2, (hL a n hfb).1⟩
    have hnb : (s n).prev ≠ some b := by
      intro hx
      have h5 := (hP n b hx).1
      rw [(hL a b hfb).2] at h5
      exact Option.noConfusion h5
    constructor
    · rw [detach_parent, if_neg hbn]
      exact (hL a b hfb).1
    · rw [detach_next, if_neg hnb, if_neg hbn]
      exact (hL a b hfb).2

theorem detach_NextOk {s : Store} (h : WF s) (n : Nat) : NextOk (detach s n) := by
  obtain ⟨hF, hL, hN, hP, hC, hM, hR⟩ := h
  intro a b hab
  rw [detach_next] at hab
  split_ifs at hab with h1 h2
  · -- `a` was `n`'s previous sibling; its next is repaired to `b = n.next`
    have han : a ≠ n := by
      intro he
      rw [he] at h1
      exact prev_ne_self hP hR n h1
    have hbn : b ≠ n := by
      intro he
      rw [he] at hab
      exact next_ne_self hR n hab
    constructor
    · rw [detach_prev, if_pos hab, h1]
    · rw [detach_parent, if_neg hbn, detach_parent, if_neg han,
        (hN n b hab).2, (hP n a h1).2]
  · have hprevb : (s b).prev = some a := (hN a b hab).1
    have hbn : b ≠ n := by
      intro he
      rw [he] at hprevb
      exact h1 hprevb
    have hnextnb : (s n).next ≠ some b := by
      intro hx
      have h5 := (hN n b hx).1
      rw [hprevb] at h5
      exact h2 (Option.some.inj h5)
    constructor
    · rw [detach_prev, if_neg hnextnb, if_neg hbn]
      exact hprevb
    · rw [detach_parent, if_neg hbn, detach_parent, if_neg h2]
      exact (hN a b hab).2

theorem detach_PrevOk {s : Store} (h : WF s) (n : Nat) : PrevOk (detach s n) := by
  obtain ⟨hF, hL, hN, hP, hC, hM, hR⟩ := h
  intro a b hab
  rw [detach_prev] at hab
  split_ifs at hab with h1 h2
  · -- `a` was `n`'s next sibling; its prev is repaired to `b = n.prev`
    have han : a ≠ n := by
      intro he
      rw [he] at h1
      exact next_ne_self hR n h1
    have hbn : b ≠ n := by
      intro he
      rw [he] at hab
      exact prev_ne_self hP hR n hab
    constructor
    · rw [detach_next, if_pos hab, h1]
    · rw [detach_parent, if_neg hbn, detach_parent, if_neg han,
        (hP n b hab).2, (hN n a h1).2]
  · have hnextb : (s b).next = some a := (hP a b hab).1
    have hbn : b ≠ n := by
      intro he
      rw [he] at hnextb
      exact h1 hnextb
    have hprevnb : (s n).prev ≠ some b := by
      intro hx
      have h5 := (hP n b hx).1
      rw [hnextb] at h5
      exact h2 (Option.some.inj h5)
    constructor
    · rw [detach_next, if_neg hprevnb, if_neg hbn]
      exact hnextb
    · rw [detach_parent, if_neg hbn, detach_parent, if_neg h2]
      exact (hP a b hab).2

end ParcelHtml

namespace ParcelHtml

theorem detach_ChildIff {s : Store} (h : WF s) (n : Nat) : ChildIff (detach s n) := by
  obtain ⟨hF, hL, hN, hP, hC, hM, hR⟩ := h
  intro a
  rw [detach_first, detach_last]
  split_ifs with h1 h2 h2
  · -- n was an only child of a: both links cleared together
    exact Iff.rfl.trans (Iff.of_eq (by rw [h1.1, h2.1]))
  · -- prev n = none, next n = some r: a keeps a last child
    have hfirst : (s a).first = some n := ((hM n a h1.2).1 h1.1)
    rcases hr : (s n).next with _ | r
    · exact absurd ⟨hr, h1.2⟩ h2
    · constructor
      · intro hx
        exact Option.noConfusion hx
      · intro hx
        have : (s a).first = none := (hC a).mpr hx
        rw [hfirst] at this
        exact Option.noConfusion this
  · -- next n = none, prev n = some l0: a keeps a first child
    have hlast : (s a).last = some n := ((hM n a h2.2).2 h2.1)
    constructor
    · intro hx
      have : (s a).last = none := (hC a).mp hx
      rw [hlast] at this
      exact Option.noConfusion this
    · intro hx
      rcases hv : (s n).prev with _ | l0
      · exact absurd ⟨hv, h2.2⟩ h1
      · rw [hv] at hx
        exact Option.noConfusion hx
  · exact hC a

theorem detach_MemberOk {s : Store} (h : WF s) (n : Nat) : MemberOk (detach s n) := by
  obtain ⟨hF, hL, hN, hP, hC, hM, hR⟩ := h
  intro a p hpar
  rw [detach_parent] at hpar
  split_ifs at hpar with han
  have hpa : (s a).parent = some p := hpar
  by_cases hna : (s n).next = some a
  · -- `a` is n's repaired next sibling
    have hparn : (s n).parent = some p := by
      rw [← (hN n a hna).2, hpa]
    have hnpa : (s n).prev ≠ some a := by
      intro hx
      exact next_no_swap hR hna (hP n a hx).1
    constructor
    · intro hprev
      rw [detach_prev, if_pos hna] at hprev
      rw [detach_first, if_pos ⟨hprev, hparn⟩, hna]
    · intro hnext
      rw [detach_next, if_neg hnpa, if_neg han] at hnext
      rw [detach_last, if_neg (fun hx => Option.noConfusion (hx.1 ▸ hna))]
      exact (hM a p hpa).2 hnext
  · -- `a`'s links to its parent are untouched or repaired consistently
    constructor
    · intro hprev
      rw [detach_prev, if_neg hna, if_neg han] at hprev
      have hfirst : (s p).first = some a := (hM a p hpa).1 hprev
      rw [detach_first]
      split_ifs with hcond
      · exfalso
        have : (s p).first = some n := (hM n p hcond.2).1 hcond.1
        rw [hfirst] at this
        exact han (Option.some.inj this)
      · exact hfirst
    · intro hnext
      rw [detach_next] at hnext
      split_ifs at hnext with hpna
      · -- prev n = some a: a's next was repaired to n's next, which is none
        have hparn : (s n).parent = some p := by
          rw [← (hP n a hpna).2, hpa]
        rw [detach_last, if_pos ⟨hnext, hparn⟩, hpna]
      · have hlast : (s p).last = some a := (hM a p hpa).2 hnext
        rw [detach_last]
        split_ifs with hcond
        · exfalso
          have : (s p).last = some n := (hM n p hcond.2).2 hcond.1
          rw [hlast] at this
          exact han (Option.some.inj this)
        · exact hlast

theorem detach_Ranked {s : Store} (h : WF s) (n : Nat) : Ranked (detach s n) := by
  obtain ⟨hF, hL, hN, hP, hC, hM, hR⟩ := h
  obtain ⟨rank, hr⟩ := hR
  refine ⟨rank, ?_⟩
  intro a b hab
  rw [detach_next] at hab
  split_ifs at hab with h1 h2
  · exact (hr a n (hP n a h1).1).trans (hr n b hab)
  · exact hr a b hab

/-- `detach` preserves the tree-shape invariant. -/
theorem detach_WF {s : Store} (h : WF s) (n : Nat) : WF (detach s n) :=
  ⟨detach_FirstOk h n, detach_LastOk h n, detach_NextOk h n, detach_PrevOk h n,
    detach_ChildIff h n, detach_MemberOk h n, detach_Ranked h n⟩

/-- `detach` clears the detached node's parent and sibling links. -/
theorem detach_clears {s : Store} (h : WF s) (n : Nat) :
    (detach s n n).parent = none ∧ (detach s n n).prev = none ∧
      (detach s n n).next = none := by
  obtain ⟨hF, hL, hN, hP, hC, hM, hR⟩ := h
  refine ⟨?_, ?_, ?_⟩
  · rw [detach_parent, if_pos rfl]
  · rw [detach_prev, if_neg (next_ne_self hR n), if_pos rfl]
  · rw [detach_next, if_neg (prev_ne_self hP hR n), if_pos rfl]

/-- After `detach`, no node at all links to the detached node through
a sibling or child pointer: the node is never left linked anywhere. -/
theorem detach_unlinked {s : Store} (h : WF s) (n : Nat) :
    ∀ a, (detach s n a).first ≠ some n ∧ (detach s n a).last ≠ some n ∧
      (detach s n a).next ≠ some n ∧ (detach s n a).prev ≠ some n := by
  obtain ⟨hF, hL, hN, hP, hC, hM, hR⟩ := h
  intro a
  refine ⟨?_, ?_, ?_, ?_⟩
  · rw [detach_first]
    split_ifs with h1
    · exact next_ne_self hR n
    · intro hx
      exact h1 ⟨(hF a n hx).2, (hF a n hx).1⟩
  · rw [detach_last]
    split_ifs with h1
    · exact prev_ne_self hP hR n
    · intro hx
      exact h1 ⟨(hL a n hx).2, (hL a n hx).1⟩
  · rw [detach_next]
    split_ifs with h1 h2
    · exact next_ne_self hR n
    · exact fun hx => Option.noConfusion hx
    · intro hx
      exact h1 (hN a n hx).1
  · rw [detach_prev]
    split_ifs with h1 h2
    · exact prev_ne_self hP hR n
    · exact fun hx => Option.noConfusion hx
    · intro hx
      exact h1 (hP a n hx).1

end ParcelHtml

namespace ParcelHtml

/-! ### Field-wise characterization of `append` -/

theorem append_parent (s : Store) (p c a : Nat) :
    (append s p c a).parent = if a = c then some p else (detach s c a).parent := by
  unfold append
  rcases hl : (upd (detach s c) c (withParent (some p)) p).last with _ | lc <;>
    simp only [hl, upd_apply, withParent, withPrev, withNext, withFirst, withLast] <;>
    split_ifs <;> simp_all

theorem append_last (s : Store) (p c a : Nat) :
    (append s p c a).last = if a = p then some c else (detach s c a).last := by
  unfold append
  rcases hl : (upd (detach s c) c (withParent (some p)) p).last with _ | lc <;>
    simp only [hl, upd_apply, withParent, withPrev, withNext, withFirst, withLast] <;>
    split_ifs <;> simp_all

theorem upd_parent_last (s : Store) (c p : Nat) :
    (upd s c (withParent (some p)) p).last = (s p).last := by
  simp only [upd_apply, withParent]
  split_ifs <;> simp_all

theorem append_first_some {s : Store} {p c lc : Nat}
    (hl : (detach s c p).last = some lc) (a : Nat) :
    (append s p c a).first = (detach s c a).first := by
  unfold append
  rw [upd_parent_last, hl]
  simp only [upd_apply, withParent, withPrev, withNext, withLast]
  split_ifs <;> simp_all

theorem append_first_none {s : Store} {p c : Nat}
    (hl : (detach s c p).last = none) (a : Nat) :
    (append s p c a).first = if a = p then some c else (detach s c a).first := by
  unfold append
  rw [upd_parent_last, hl]
  simp only [upd_apply, withParent, withFirst, withLast]
  split_ifs <;> simp_all

theorem append_prev_some {s : Store} {p c lc : Nat}
    (hl : (detach s c p).last = some lc) (a : Nat) :
    (append s p c a).prev = if a = c then some lc else (detach s c a).prev := by
  unfold append
  rw [upd_parent_last, hl]
  simp only [upd_apply, withParent, withPrev, withNext, withLast]
  split_ifs <;> simp_all

theorem append_prev_none {s : Store} {p c : Nat}
    (hl : (detach s c p).last = none) (a : Nat) :
    (append s p c a).prev = (detach s c a).prev := by
  unfold append
  rw [upd_parent_last, hl]
  simp only [upd_apply, withParent, withFirst, withLast]
  split_ifs <;> simp_all

theorem append_next_some {s : Store} {p c lc : Nat}
    (hl : (detach s c p).last = some lc) (a : Nat) :
    (append s p c a).next = if a = lc then some c else (detach s c a).next := by
  unfold append
  rw [upd_parent_last, hl]
  simp only [upd_apply, withParent, withPrev, withNext, withLast]
  split_ifs <;> simp_all

theorem append_next_none {s : Store} {p c : Nat}
    (hl : (detach s c p).last = none) (a : Nat) :
    (append s p c a).next = (detach s c a).next := by
  unfold append
  rw [upd_parent_last, hl]
  simp only [upd_apply, withParent, withFirst, withLast]
  split_ifs <;> simp_all

end ParcelHtml

namespace ParcelHtml

/-- `append` preserves the tree-shape invariant (the child is detached
first, so it is linked in exactly one place afterwards). -/
theorem append_WF {s : Store} (h : WF s) (p c : Nat) : WF (append s p c) := by
  have W1 := detach_WF h c
  have U := detach_unlinked h c
  have K := detach_clears h c
  obtain ⟨hF, hL, hN, hP, hC, hM, hR⟩ := W1
  rcases hl : (detach s c p).last with _ | lc
  · -- p had no children after the detach
    have hfirstp : (detach s c p).first = none := (hC p).mpr hl
    refine ⟨?_, ?_, ?_, ?_, ?_, ?_, ?_⟩
    · intro a b hab
      rw [append_first_none hl] at hab
      rw [append_parent, append_prev_none hl]
      split_ifs at hab with h1
      · subst h1
        obtain rfl := Option.some.inj hab
        exact ⟨by rw [if_pos rfl], K.2.1⟩
      · have hbc : b ≠ c := fun he => (U a).1 (he ▸ hab)
        rw [if_neg hbc]
        exact hF a b hab
    · intro a b hab
      rw [append_last] at hab
      rw [append_parent, append_next_none hl]
      split_ifs at hab with h1
      · subst h1
        obtain rfl := Option.some.inj hab
        exact ⟨by rw [if_pos rfl], K.2.2⟩
      · have hbc : b ≠ c := fun he => (U a).2.1 (he ▸ hab)
        rw [if_neg hbc]
        exact hL a b hab
    · intro a b hab
      rw [append_next_none hl] at hab
      rw [append_prev_none hl, append_parent, append_parent]
      have hac : a ≠ c := by
        intro he
        rw [he, K.2.2] at hab
        exact Option.noConfusion hab
      have hbc : b ≠ c := fun he => (U a).2.2.1 (he ▸ hab)
      rw [if_neg hbc, if_neg hac]
      exact hN a b hab
    · intro a b hab
      rw [append_prev_none hl] at hab
      rw [append_next_none hl, append_parent, append_parent]
      have hac : a ≠ c := by
        intro he
        rw [he, K.2.1] at hab
        exact Option.noConfusion hab
      have hbc : b ≠ c := fun he => (U a).2.2.2 (he ▸ hab)
      rw [if_neg hbc, if_neg hac]
      exact hP a b hab
    · intro a
      rw [append_first_none hl, append_last]
      split_ifs with h1
      · subst h1
        simp
      · exact hC a
    · intro a q hq
      rw [append_parent] at hq
      split_ifs at hq with hac
      · subst hac
        obtain rfl : p = q := Option.some.inj hq
        constructor
        · intro _
          rw [append_first_none hl, if_pos rfl]
        · intro _
          rw [append_last, if_pos rfl]
      · constructor
        · intro hprev
          rw [append_prev_none hl] at hprev
          have hfq := (hM a q hq).1 hprev
          rw [append_first_none hl]
          split_ifs with hqp
          · exfalso
            rw [hqp, hfirstp] at hfq
            exact Option.noConfusion hfq
          · exact hfq
        · intro hnext
          rw [append_next_none hl] at hnext
          have hlq := (hM a q hq).2 hnext
          rw [append_last]
          split_ifs with hqp
          · exfalso
            rw [hqp, hl] at hlq
            exact Option.noConfusion hlq
          · exact hlq
    · obtain ⟨rank, hr⟩ := hR
      refine ⟨rank, ?_⟩
      intro a b hab
      rw [append_next_none hl] at hab
      exact hr a b hab
  · -- p had a last child lc; c is linked after it
    have hlcc : lc ≠ c := by
      intro he
      exact (U p).2.1 (he ▸ hl)
    have hlcpar : (detach s c lc).parent = some p := (hL p lc hl).1
    have hlcnext : (detach s c lc).next = none := (hL p lc hl).2
    refine ⟨?_, ?_, ?_, ?_, ?_, ?_, ?_⟩
    · intro a b hab
      rw [append_first_some hl] at hab
      rw [append_parent, append_prev_some hl]
      have hbc : b ≠ c := fun he => (U a).1 (he ▸ hab)
      rw [if_neg hbc, if_neg hbc]
      exact hF a b hab
    · intro a b hab
      rw [append_last] at hab
      rw [append_parent, append_next_some hl]
      split_ifs at hab with h1
      · subst h1
        obtain rfl := Option.some.inj hab
        rw [if_pos rfl, if_neg (Ne.symm hlcc)]
        exact ⟨rfl, K.2.2⟩
      · have hbc : b ≠ c := fun he => (U a).2.1 (he ▸ hab)
        have hblc : b ≠ lc := by
          intro he
          subst he
          have := (hL a b hab).1
          rw [hlcpar] at this
          exact h1 (Option.some.inj this).symm
        rw [if_neg hbc, if_neg hblc]
        exact hL a b hab
    · intro a b hab
      rw [append_next_some hl] at hab
      rw [append_prev_some hl, append_parent, append_parent]
      split_ifs at hab with h1
      · subst h1
        obtain rfl := Option.some.inj hab
        rw [if_pos rfl, if_pos rfl, if_neg hlcc]
        exact ⟨rfl, hlcpar.symm⟩
      · have hac : a ≠ c := by
          intro he
          rw [he, K.2.2] at hab
          exact Option.noConfusion hab
        have hbc : b ≠ c := fun he => (U a).2.2.1 (he ▸ hab)
        rw [if_neg hbc, if_neg hbc, if_neg hac]
        exact hN a b hab
    · intro a b hab
      rw [append_prev_some hl] at hab
      rw [append_next_some hl, append_parent, append_parent]
      split_ifs at hab with h1
      · subst h1
        obtain rfl := Option.some.inj hab
        rw [if_pos rfl, if_pos rfl, if_neg hlcc, hlcpar]
        exact ⟨rfl, rfl⟩
      · have hbc : b ≠ c := fun he => (U a).2.2.2 (he ▸ hab)
        have hblc : b ≠ lc := by
          intro he
          subst he
          have h5 := (hP a b hab).1
          rw [hlcnext] at h5
          exact Option.noConfusion h5
        rw [if_neg hblc, if_neg hbc, if_neg h1]
        exact hP a b hab
    · intro a
      rw [append_first_some hl, append_last]
      split_ifs with h1
      · subst h1
        have hfp : (detach s c a).first ≠ none := by
          intro hx
          have h5 := (hC a).mp hx
          rw [hl] at h5
          exact Option.noConfusion h5
        simp [hfp]
      · exact hC a
    · intro a q hq
      rw [append_parent] at hq
      split_ifs at hq with hac
      · subst hac
        obtain rfl : p = q := Option.some.inj hq
        constructor
        · intro hprev
          rw [append_prev_some hl, if_pos rfl] at hprev
          exact Option.noConfusion hprev
        · intro _
          rw [append_last, if_pos rfl]
      · constructor
        · intro hprev
          rw [append_prev_some hl, if_neg hac] at hprev
          have hfq := (hM a q hq).1 hprev
          rw [append_first_some hl]
          exact hfq
        · intro hnext
          rw [append_next_some hl] at hnext
          split_ifs at hnext with halc
          · have hlq := (hM a q hq).2 hnext
            rw [append_last]
            split_ifs with hqp
            · exfalso
              rw [hqp, hl] at hlq
              exact halc (Option.some.inj hlq).symm
            · exact hlq
    · obtain ⟨rank, hr⟩ := hR
      refine ⟨fun i => if i = c then rank lc + 1 else rank i, ?_⟩
      intro a b hab
      rw [append_next_some hl] at hab
      split_ifs at hab with h1
      · subst h1
        obtain rfl := Option.some.inj hab
        simp only [if_neg hlcc, if_pos rfl]
        exact lt_add_one _
      · have hac : a ≠ c := by
          intro he
          rw [he, K.2.2] at hab
          exact Option.noConfusion hab
        have hbc : b ≠ c := fun he => (U a).2.2.1 (he ▸ hab)
        simp only [if_neg hac, if_neg hbc]
        exact hr a b hab

end ParcelHtml

namespace ParcelHtml

/-! ### Field-wise characterization of `prepend` -/

theorem upd_parent_first (s : Store) (c p : Nat) :
    (upd s c (withParent (some p)) p).first = (s p).first := by
  simp only [upd_apply, withParent]
  split_ifs <;> simp_all

theorem prepend_parent (s : Store) (p c a : Nat) :
    (prepend s p c a).parent = if a = c then some p else (detach s c a).parent := by
  unfold prepend
  rcases hf : (upd (detach s c) c (withParent (some p)) p).first with _ | fc <;>
    simp only [hf, upd_apply, withParent, withPrev, withNext, withFirst, withLast] <;>
    split_ifs <;> simp_all

theorem prepend_first (s : Store) (p c a : Nat) :
    (prepend s p c a).first = if a = p then some c else (detach s c a).first := by
  unfold prepend
  rcases hf : (upd (detach s c) c (withParent (some p)) p).first with _ | fc <;>
    simp only [hf, upd_apply, withParent, withPrev, withNext, withFirst, withLast] <;>
    split_ifs <;> simp_all

theorem prepend_last_some {s : Store} {p c fc : Nat}
    (hf : (detach s c p).first = some fc) (a : Nat) :
    (prepend s p c a).last = (detach s c a).last := by
  unfold prepend
  rw [upd_parent_first, hf]
  simp only [upd_apply, withParent, withNext, withPrev, withFirst]
  split_ifs <;> simp_all

theorem prepend_last_none {s : Store} {p c : Nat}
    (hf : (detach s c p).first = none) (a : Nat) :
    (prepend s p c a).last = if a = p then some c else (detach s c a).last := by
  unfold prepend
  rw [upd_parent_first, hf]
  simp only [upd_apply, withParent, withLast, withFirst]
  split_ifs <;> simp_all

theorem prepend_next_some {s : Store} {p c fc : Nat}
    (hf : (detach s c p).first = some fc) (a : Nat) :
    (prepend s p c a).next = if a = c then some fc else (detach s c a).next := by
  unfold prepend
  rw [upd_parent_first, hf]
  simp only [upd_apply, withParent, withNext, withPrev, withFirst]
  split_ifs <;> simp_all

theorem prepend_next_none {s : Store} {p c : Nat}
    (hf : (detach s c p).first = none) (a : Nat) :
    (prepend s p c a).next = (detach s c a).next := by
  unfold prepend
  rw [upd_parent_first, hf]
  simp only [upd_apply, withParent, withLast, withFirst]
  split_ifs <;> simp_all

theorem prepend_prev_some {s : Store} {p c fc : Nat}
    (hf : (detach s c p).first = some fc) (a : Nat) :
    (prepend s p c a).prev = if a = fc then some c else (detach s c a).prev := by
  unfold prepend
  rw [upd_parent_first, hf]
  simp only [upd_apply, withParent, withNext, withPrev, withFirst]
  split_ifs <;> simp_all

theorem prepend_prev_none {s : Store} {p c : Nat}
    (hf : (detach s c p).first = none) (a : Nat) :
    (prepend s p c a).prev = (detach s c a).prev := by
  unfold prepend
  rw [upd_parent_first, hf]
  simp only [upd_apply, withParent, withLast, withFirst]
  split_ifs <;> simp_all

/-- `prepend` preserves the tree-shape invariant. -/
theorem prepend_WF {s : Store} (h : WF s) (p c : Nat) : WF (prepend s p c) := by
  have U := detach_unlinked h c
  have K := detach_clears h c
  obtain ⟨hF, hL, hN, hP, hC, hM, hR⟩ := detach_WF h c
  rcases hf : (detach s c p).first with _ | fc
  · -- p had no children after the detach
    have hlastp : (detach s c p).last = none := (hC p).mp hf
    refine ⟨?_, ?_, ?_, ?_, ?_, ?_, ?_⟩
    · intro a b hab
      rw [prepend_first] at hab
      rw [prepend_parent, prepend_prev_none hf]
      split_ifs at hab with h1
      · subst h1
        obtain rfl := Option.some.inj hab
        exact ⟨by rw [if_pos rfl], K.2.1⟩
      · have hbc : b ≠ c := fun he => (U a).1 (he ▸ hab)
        rw [if_neg hbc]
        exact hF a b hab
    · intro a b hab
      rw [prepend_last_none hf] at hab
      rw [prepend_parent, prepend_next_none hf]
      split_ifs at hab with h1
      · subst h1
        obtain rfl := Option.some.inj hab
        exact ⟨by rw [if_pos rfl], K.2.2⟩
      · have hbc : b ≠ c := fun he => (U a).2.1 (he ▸ hab)
        rw [if_neg hbc]
        exact hL a b hab
    · intro a b hab
      rw [prepend_next_none hf] at hab
      rw [prepend_prev_none hf, prepend_parent, prepend_parent]
      have hac : a ≠ c := by
        intro he
        rw [he, K.2.2] at hab
        exact Option.noConfusion hab
      have hbc : b ≠ c := fun he => (U a).2.2.1 (he ▸ hab)
      rw [if_neg hbc, if_neg hac]
      exact hN a b hab
    · intro a b hab
      rw [prepend_prev_none hf] at hab
      rw [prepend_next_none hf, prepend_parent, prepend_parent]
      have hac : a ≠ c := by
        intro he
        rw [he, K.2.1] at hab
        exact Option.noConfusion hab
      have hbc : b ≠ c := fun he => (U a).2.2.2 (he ▸ hab)
      rw [if_neg hbc, if_neg hac]
      exact hP a b hab
    · intro a
      rw [prepend_first, prepend_last_none hf]
      split_ifs with h1
      · simp
      · exact hC a
    · intro a q hq
      rw [prepend_parent] at hq
      split_ifs at hq with hac
      · subst hac
        obtain rfl : p = q := Option.some.inj hq
        constructor
        · intro _
          rw [prepend_first, if_pos rfl]
        · intro _
          rw [prepend_last_none hf, if_pos rfl]
      · constructor
        · intro hprev
          rw [prepend_prev_none hf] at hprev
          have hfq := (hM a q hq).1 hprev
          rw [prepend_first]
          split_ifs with hqp
          · exfalso
            rw [hqp, hf] at hfq
            exact Option.noConfusion hfq
          · exact hfq
        · intro hnext
          rw [prepend_next_none hf] at hnext
          have hlq := (hM a q hq).2 hnext
          rw [prepend_last_none hf]
          split_ifs with hqp
          · exfalso
            rw [hqp, hlastp] at hlq
            exact Option.noConfusion hlq
          · exact hlq
    · obtain ⟨rank, hr⟩ := hR
      refine ⟨rank, ?_⟩
      intro a b hab
      rw [prepend_next_none hf] at hab
      exact hr a b hab
  · -- p had a first child fc; c is linked before it
    have hfcc : fc ≠ c := by
      intro he
      exact (U p).1 (he ▸ hf)
    have hfcpar : (detach s c fc).parent = some p := (hF p fc hf).1
    have hfcprev : (detach s c fc).prev = none := (hF p fc hf).2
    refine ⟨?_, ?_, ?_, ?_, ?_, ?_, ?_⟩
    · intro a b hab
      rw [prepend_first] at hab
      rw [prepend_parent, prepend_prev_some hf]
      split_ifs at hab with h1
      · subst h1
        obtain rfl := Option.some.inj hab
        rw [if_pos rfl, if_neg (Ne.symm hfcc)]
        exact ⟨rfl, K.2.1⟩
      · have hbc : b ≠ c := fun he => (U a).1 (he ▸ hab)
        have hbfc : b ≠ fc := by
          intro he
          subst he
          have h5 := (hF a b hab).1
          rw [hfcpar] at h5
          exact h1 (Option.some.inj h5).symm
        rw [if_neg hbc, if_neg hbfc]
        exact hF a b hab
    · intro a b hab
      rw [prepend_last_some hf] at hab
      rw [prepend_parent, prepend_next_some hf]
      have hbc : b ≠ c := fun he => (U a).2.1 (he ▸ hab)
      rw [if_neg hbc, if_neg hbc]
      exact hL a b hab
    · intro a b hab
      rw [prepend_next_some hf] at hab
      rw [prepend_prev_some hf, prepend_parent, prepend_parent]
      split_ifs at hab with h1
      · subst h1
        obtain rfl := Option.some.inj hab
        rw [if_pos rfl, if_pos rfl, if_neg hfcc]
        exact ⟨rfl, hfcpar⟩
      · have hac : a ≠ c := h1
        have hbc : b ≠ c := fun he => (U a).2.2.1 (he ▸ hab)
        have hbfc : b ≠ fc := by
          intro he
          subst he
          have h5 := (hN a b hab).1
          rw [hfcprev] at h5
          exact Option.noConfusion h5
        rw [if_neg hbfc, if_neg hbc, if_neg hac]
        exact hN a b hab
    · intro a b hab
      rw [prepend_prev_some hf] at hab
      rw [prepend_next_some hf, prepend_parent, prepend_parent]
      split_ifs at hab with h1
      · subst h1
        obtain rfl := Option.some.inj hab
        rw [if_pos rfl, if_pos rfl, if_neg hfcc, hfcpar]
        exact ⟨rfl, rfl⟩
      · have hbc : b ≠ c := fun he => (U a).2.2.2 (he ▸ hab)
        have hac : a ≠ c := by
          intro he
          rw [he, K.2.1] at hab
          exact Option.noConfusion hab
        rw [if_neg hbc, if_neg hbc, if_neg hac]
        exact hP a b hab
    · intro a
      rw [prepend_first, prepend_last_some hf]
      split_ifs with h1
      · subst h1
        have hlp : (detach s c a).last ≠ none := by
          intro hx
          have h5 := (hC a).mpr hx
          rw [hf] at h5
          exact Option.noConfusion h5
        simp [hlp]
      · exact hC a
    · intro a q hq
      rw [prepend_parent] at hq
      split_ifs at hq with hac
      · subst hac
        obtain rfl : p = q := Option.some.inj hq
        constructor
        · intro _
          rw [prepend_first, if_pos rfl]
        · intro hnext
          rw [prepend_next_some hf, if_pos rfl] at hnext
          exact Option.noConfusion hnext
      · constructor
        · intro hprev
          rw [prepend_prev_some hf] at hprev
          split_ifs at hprev with hafc
          · have hfq := (hM a q hq).1 hprev
            rw [prepend_first]
            split_ifs with hqp
            · exfalso
              rw [hqp, hf] at hfq
              exact hafc (Option.some.inj hfq).symm
            · exact hfq
        · intro hnext
          rw [prepend_next_some hf, if_neg hac] at hnext
          have hlq := (hM a q hq).2 hnext
          rw [prepend_last_some hf]
          exact hlq
    · obtain ⟨rank, hr⟩ := hR
      refine ⟨fun i => if i = c then rank fc - 1 else rank i, ?_⟩
      intro a b hab
      rw [prepend_next_some hf] at hab
      split_ifs at hab with h1
      · subst h1
        obtain rfl := Option.some.inj hab
        simp only [if_pos rfl, if_neg hfcc]
        exact sub_one_lt _
      · have hac : a ≠ c := h1
        have hbc : b ≠ c := fun he => (U a).2.2.1 (he ▸ hab)
        simp only [if_neg hac, if_neg hbc]
        exact hr a b hab

end ParcelHtml

namespace ParcelHtml

/-! ### Field-wise characterization of `insert_before` -/

theorem ib_scrut_prev (s : Store) (sib c : Nat) :
    (upd (upd (detach s c) c (withParent ((detach s c) sib).parent)) c
      (withNext (some sib)) sib).prev = (detach s c sib).prev := by
  simp only [upd_apply, withParent, withNext]
  split_ifs <;> simp_all

theorem ib_scrut_parent (s : Store) (sib c : Nat) :
    (upd (upd (detach s c) c (withParent ((detach s c) sib).parent)) c
      (withNext (some sib)) sib).parent = (detach s c sib).parent := by
  simp only [upd_apply, withParent, withNext]
  split_ifs <;> simp_all

theorem ib_parent (s : Store) (sib c a : Nat) :
    (insertBefore s sib c a).parent =
      if a = c then (detach s c sib).parent else (detach s c a).parent := by
  unfold insertBefore
  rw [ib_scrut_prev]
  rcases hv : (detach s c sib).prev with _ | l0
  · rw [ib_scrut_parent]
    rcases hp : (detach s c sib).parent with _ | p <;>
      simp only [upd_apply, withParent, withNext, withPrev, withFirst] <;>
      split_ifs <;> simp_all
  · simp only [upd_apply, withParent, withNext, withPrev] <;>
      split_ifs <;> simp_all

theorem ib_first_somePrev {s : Store} {sib c l0 : Nat}
    (hv : (detach s c sib).prev = some l0) (a : Nat) :
    (insertBefore s sib c a).first = (detach s c a).first := by
  unfold insertBefore
  rw [ib_scrut_prev, hv]
  simp only [upd_apply, withParent, withNext, withPrev]
  split_ifs <;> simp_all

theorem ib_first_noPrev_someParent {s : Store} {sib c p : Nat}
    (hv : (detach s c sib).prev = none) (hp : (detach s c sib).parent = some p)
    (a : Nat) :
    (insertBefore s sib c a).first =
      if a = p then some c else (detach s c a).first := by
  unfold insertBefore
  rw [ib_scrut_prev, hv, ib_scrut_parent, hp]
  simp only [upd_apply, withParent, withNext, withPrev, withFirst]
  split_ifs <;> simp_all

theorem ib_first_noPrev_noParent {s : Store} {sib c : Nat}
    (hv : (detach s c sib).prev = none) (hp : (detach s c sib).parent = none)
    (a : Nat) :
    (insertBefore s sib c a).first = (detach s c a).first := by
  unfold insertBefore
  rw [ib_scrut_prev, hv, ib_scrut_parent, hp]
  simp only [upd_apply, withParent, withNext, withPrev]
  split_ifs <;> simp_all

theorem ib_last (s : Store) (sib c a : Nat) :
    (insertBefore s sib c a).last = (detach s c a).last := by
  unfold insertBefore
  rw [ib_scrut_prev]
  rcases hv : (detach s c sib).prev with _ | l0
  · rw [ib_scrut_parent]
    rcases hp : (detach s c sib).parent with _ | p <;>
      simp only [upd_apply, withParent, withNext, withPrev, withFirst] <;>
      split_ifs <;> simp_all
  · simp only [upd_apply, withParent, withNext, withPrev] <;>
      split_ifs <;> simp_all

theorem ib_next_somePrev {s : Store} {sib c l0 : Nat}
    (hv : (detach s c sib).prev = some l0) (a : Nat) :
    (insertBefore s sib c a).next =
      if a = l0 then some c
      else if a = c then some sib else (detach s c a).next := by
  unfold insertBefore
  rw [ib_scrut_prev, hv]
  simp only [upd_apply, withParent, withNext, withPrev]
  split_ifs <;> simp_all

theorem ib_next_noPrev {s : Store} {sib c : Nat}
    (hv : (detach s c sib).prev = none) (a : Nat) :
    (insertBefore s sib c a).next =
      if a = c then some sib else (detach s c a).next := by
  unfold insertBefore
  rw [ib_scrut_prev, hv, ib_scrut_parent]
  rcases hp : (detach s c sib).parent with _ | p <;>
    simp only [upd_apply, withParent, withNext, withPrev, withFirst] <;>
    split_ifs <;> simp_all

theorem ib_prev_somePrev {s : Store} {sib c l0 : Nat}
    (hv : (detach s c sib).prev = some l0) (a : Nat) :
    (insertBefore s sib c a).prev =
      if a = sib then some c
      else if a = c then some l0 else (detach s c a).prev := by
  unfold insertBefore
  rw [ib_scrut_prev, hv]
  simp only [upd_apply, withParent, withNext, withPrev]
  split_ifs <;> simp_all

theorem ib_prev_noPrev {s : Store} {sib c : Nat}
    (hv : (detach s c sib).prev = none) (a : Nat) :
    (insertBefore s sib c a).prev =
      if a = sib then some c else (detach s c a).prev := by
  unfold insertBefore
  rw [ib_scrut_prev, hv, ib_scrut_parent]
  rcases hp : (detach s c sib).parent with _ | p <;>
    simp only [upd_apply, withParent, withNext, withPrev, withFirst] <;>
    split_ifs <;> simp_all

end ParcelHtml

namespace ParcelHtml

/-- `insert_before` preserves the tree-shape invariant whenever the
inserted node is not the reference sibling itself (with `sib = c` the
source links the node as its own sibling, see the C5 counterexample). -/
theorem insertBefore_WF {s : Store} (h : WF s) {sib c : Nat} (hsc : sib ≠ c) :
    WF (insertBefore s sib c) := by
  have U := detach_unlinked h c
  have K := detach_clears h c
  obtain ⟨hF, hL, hN, hP, hC, hM, hR⟩ := detach_WF h c
  have hRanked : Ranked (detach s c) := hR
  rcases hv : (detach s c sib).prev with _ | l0
  · rcases hp : (detach s c sib).parent with _ | p
    · -- sib is parentless with no previous sibling
      refine ⟨?_, ?_, ?_, ?_, ?_, ?_, ?_⟩
      · intro a b hab
        rw [ib_first_noPrev_noParent hv hp] at hab
        rw [ib_parent, ib_prev_noPrev hv]
        have hbc : b ≠ c := fun he => (U a).1 (he ▸ hab)
        have hbsib : b ≠ sib := by
          intro he
          subst he
          have h5 := (hF a b hab).1
          rw [hp] at h5
          exact Option.noConfusion h5
        rw [if_neg hbc, if_neg hbsib]
        exact hF a b hab
      · intro a b hab
        rw [ib_last] at hab
        rw [ib_parent, ib_next_noPrev hv]
        have hbc : b ≠ c := fun he => (U a).2.1 (he ▸ hab)
        rw [if_neg hbc, if_neg hbc]
        exact hL a b hab
      · intro a b hab
        rw [ib_next_noPrev hv] at hab
        rw [ib_prev_noPrev hv, ib_parent, ib_parent]
        split_ifs at hab with h1
        · subst h1
          obtain rfl := Option.some.inj hab
          exact ⟨by simp, by simp⟩
        · have hac : a ≠ c := h1
          have hbc : b ≠ c := fun he => (U a).2.2.1 (he ▸ hab)
          have hbsib : b ≠ sib := by
            intro he
            subst he
            have h5 := (hN a b hab).1
            rw [hv] at h5
            exact Option.noConfusion h5
          rw [if_neg hbsib, if_neg hbc, if_neg hac]
          exact hN a b hab
      · intro a b hab
        rw [ib_prev_noPrev hv] at hab
        rw [ib_next_noPrev hv, ib_parent, ib_parent]
        split_ifs at hab with h1
        · subst h1
          obtain rfl := Option.some.inj hab
          refine ⟨by rw [if_pos rfl], ?_⟩
          simp
        · have hasib : a ≠ sib := h1
          have hbc : b ≠ c := fun he => (U a).2.2.2 (he ▸ hab)
          have hac : a ≠ c := by
            intro he
            rw [he, K.2.1] at hab
            exact Option.noConfusion hab
          rw [if_neg hbc, if_neg hbc, if_neg hac]
          exact hP a b hab
      · intro a
        rw [ib_first_noPrev_noParent hv hp, ib_last]
        exact hC a
      · intro a q hq
        rw [ib_parent] at hq
        split_ifs at hq with hac
        · subst hac
          rw [hp] at hq
          exact Option.noConfusion hq
        · constructor
          · intro hprev
            rw [ib_prev_noPrev hv] at hprev
            split_ifs at hprev with hasib
            · have hfq := (hM a q hq).1 hprev
              rw [ib_first_noPrev_noParent hv hp]
              exact hfq
          · intro hnext
            rw [ib_next_noPrev hv, if_neg hac] at hnext
            have hlq := (hM a q hq).2 hnext
            rw [ib_last]
            exact hlq
      · obtain ⟨rank, hr⟩ := hR
        refine ⟨fun i => if i = c then rank sib - 1 else rank i, ?_⟩
        intro a b hab
        rw [ib_next_noPrev hv] at hab
        split_ifs at hab with h1
        · subst h1
          obtain rfl := Option.some.inj hab
          simp [hsc, sub_one_lt]
        · have hbc : b ≠ c := fun he => (U a).2.2.1 (he ▸ hab)
          simp only [if_neg h1, if_neg hbc]
          exact hr a b hab
    · -- sib is a first child of p
      have hfirstp : (detach s c p).first = some sib := (hM sib p hp).1 hv
      refine ⟨?_, ?_, ?_, ?_, ?_, ?_, ?_⟩
      · intro a b hab
        rw [ib_first_noPrev_someParent hv hp] at hab
        rw [ib_parent, ib_prev_noPrev hv]
        split_ifs at hab with h1
        · subst h1
          obtain rfl := Option.some.inj hab
          rw [if_pos rfl, if_neg hsc.symm, hp]
          exact ⟨rfl, K.2.1⟩
        · have hbc : b ≠ c := fun he => (U a).1 (he ▸ hab)
          have hbsib : b ≠ sib := by
            intro he
            subst he
            have h5 := (hF a b hab).1
            rw [hp] at h5
            exact h1 (Option.some.inj h5).symm
          rw [if_neg hbc, if_neg hbsib]
          exact hF a b hab
      · intro a b hab
        rw [ib_last] at hab
        rw [ib_parent, ib_next_noPrev hv]
        have hbc : b ≠ c := fun he => (U a).2.1 (he ▸ hab)
        rw [if_neg hbc, if_neg hbc]
        exact hL a b hab
      · intro a b hab
        rw [ib_next_noPrev hv] at hab
        rw [ib_prev_noPrev hv, ib_parent, ib_parent]
        split_ifs at hab with h1
        · subst h1
          obtain rfl := Option.some.inj hab
          exact ⟨by simp, by simp⟩
        · have hac : a ≠ c := h1
          have hbc : b ≠ c := fun he => (U a).2.2.1 (he ▸ hab)
          have hbsib : b ≠ sib := by
            intro he
            subst he
            have h5 := (hN a b hab).1
            rw [hv] at h5
            exact Option.noConfusion h5
          rw [if_neg hbsib, if_neg hbc, if_neg hac]
          exact hN a b hab
      · intro a b hab
        rw [ib_prev_noPrev hv] at hab
        rw [ib_next_noPrev hv, ib_parent, ib_parent]
        split_ifs at hab with h1
        · subst h1
          obtain rfl := Option.some.inj hab
          rw [if_pos rfl, if_pos rfl, if_neg hsc]
          exact ⟨rfl, rfl⟩
        · have hbc : b ≠ c := fun he => (U a).2.2.2 (he ▸ hab)
          have hac : a ≠ c := by
            intro he
            rw [he, K.2.1] at hab
            exact Option.noConfusion hab
          rw [if_neg hbc, if_neg hbc, if_neg hac]
          exact hP a b hab
      · intro a
        rw [ib_first_noPrev_someParent hv hp, ib_last]
        split_ifs with h1
        · subst h1
          have hlp : (detach s c a).last ≠ none := by
            intro hx
            have h5 := (hC a).mpr hx
            rw [hfirstp] at h5
            exact Option.noConfusion h5
          simp [hlp]
        · exact hC a
      · intro a q hq
        rw [ib_parent] at hq
        split_ifs at hq with hac
        · subst hac
          rw [hp] at hq
          obtain rfl : p = q := Option.some.inj hq
          constructor
          · intro _
            rw [ib_first_noPrev_someParent hv hp, if_pos rfl]
          · intro hnext
            rw [ib_next_noPrev hv, if_pos rfl] at hnext
            exact Option.noConfusion hnext
        · constructor
          · intro hprev
            rw [ib_prev_noPrev hv] at hprev
            split_ifs at hprev with hasib
            · have hfq := (hM a q hq).1 hprev
              rw [ib_first_noPrev_someParent hv hp]
              split_ifs with hqp
              · exfalso
                rw [hqp, hfirstp] at hfq
                exact hasib (Option.some.inj hfq).symm
              · exact hfq
          · intro hnext
            rw [ib_next_noPrev hv, if_neg hac] at hnext
            have hlq := (hM a q hq).2 hnext
            rw [ib_last]
            exact hlq
      · obtain ⟨rank, hr⟩ := hR
        refine ⟨fun i => if i = c then rank sib - 1 else rank i, ?_⟩
        intro a b hab
        rw [ib_next_noPrev hv] at hab
        split_ifs at hab with h1
        · subst h1
          obtain rfl := Option.some.inj hab
          simp [hsc, sub_one_lt]
        · have hbc : b ≠ c := fun he => (U a).2.2.1 (he ▸ hab)
          simp only [if_neg h1, if_neg hbc]
          exact hr a b hab
  · -- sib has a previous sibling l0; c is linked between them
    have hl0next : (detach s c l0).next = some sib := (hP sib l0 hv).1
    have hl0par : (detach s c l0).parent = (detach s c sib).parent := (hP sib l0 hv).2
    have hl0c : l0 ≠ c := by
      intro he
      exact (U sib).2.2.2 (he ▸ hv)
    have hl0sib : l0 ≠ sib := by
      intro he
      rw [he] at hv
      exact prev_ne_self hP hRanked sib hv
    refine ⟨?_, ?_, ?_, ?_, ?_, ?_, ?_⟩
    · intro a b hab
      rw [ib_first_somePrev hv] at hab
      rw [ib_parent, ib_prev_somePrev hv]
      have hbc : b ≠ c := fun he => (U a).1 (he ▸ hab)
      have hbsib : b ≠ sib := by
        intro he
        subst he
        have h5 := (hF a b hab).2
        rw [hv] at h5
        exact Option.noConfusion h5
      rw [if_neg hbc, if_neg hbsib, if_neg hbc]
      exact hF a b hab
    · intro a b hab
      rw [ib_last] at hab
      rw [ib_parent, ib_next_somePrev hv]
      have hbc : b ≠ c := fun he => (U a).2.1 (he ▸ hab)
      have hbl0 : b ≠ l0 := by
        intro he
        subst he
        have h5 := (hL a b hab).2
        rw [hl0next] at h5
        exact Option.noConfusion h5
      rw [if_neg hbc, if_neg hbl0, if_neg hbc]
      exact hL a b hab
    · intro a b hab
      rw [ib_next_somePrev hv] at hab
      rw [ib_prev_somePrev hv, ib_parent, ib_parent]
      split_ifs at hab with h1 h2
      · -- a = l0, b = c
        subst h1
        obtain rfl := Option.some.inj hab
        rw [if_neg hsc.symm, if_pos rfl, if_pos rfl, if_neg hl0c]
        exact ⟨rfl, hl0par.symm⟩
      · -- a = c, b = sib
        subst h2
        obtain rfl := Option.some.inj hab
        rw [if_pos rfl, if_neg hsc, if_pos rfl]
        exact ⟨rfl, rfl⟩
      · have hbc : b ≠ c := fun he => (U a).2.2.1 (he ▸ hab)
        have hbsib : b ≠ sib := by
          intro he
          subst he
          have h5 := (hN a b hab).1
          rw [hv] at h5
          exact h1 (Option.some.inj h5).symm
        rw [if_neg hbsib, if_neg hbc, if_neg hbc, if_neg h2]
        exact hN a b hab
    · intro a b hab
      rw [ib_prev_somePrev hv] at hab
      rw [ib_next_somePrev hv, ib_parent, ib_parent]
      split_ifs at hab with h1 h2
      · -- a = sib, b = c
        subst h1
        obtain rfl := Option.some.inj hab
        rw [if_neg hl0c.symm, if_pos rfl, if_pos rfl, if_neg hsc]
        exact ⟨rfl, rfl⟩
      · -- a = c, b = l0
        subst h2
        obtain rfl := Option.some.inj hab
        rw [if_pos rfl, if_neg hl0c, if_pos rfl]
        exact ⟨rfl, hl0par⟩
      · have hbc : b ≠ c := fun he => (U a).2.2.2 (he ▸ hab)
        have hbl0 : b ≠ l0 := by
          intro he
          subst he
          have h5 := (hP a b hab).1
          rw [hl0next] at h5
          exact h1 (Option.some.inj h5).symm
        rw [if_neg hbl0, if_neg hbc, if_neg hbc, if_neg h2]
        exact hP a b hab
    · intro a
      rw [ib_first_somePrev hv, ib_last]
      exact hC a
    · intro a q hq
      rw [ib_parent] at hq
      split_ifs at hq with hac
      · subst hac
        constructor
        · intro hprev
          rw [ib_prev_somePrev hv, if_neg hsc.symm, if_pos rfl] at hprev
          exact Option.noConfusion hprev
        · intro hnext
          rw [ib_next_somePrev hv, if_neg hl0c.symm, if_pos rfl] at hnext
          exact Option.noConfusion hnext
      · constructor
        · intro hprev
          rw [ib_prev_somePrev hv] at hprev
          split_ifs at hprev with hasib
          · have hfq := (hM a q hq).1 hprev
            rw [ib_first_somePrev hv]
            exact hfq
        · intro hnext
          rw [ib_next_somePrev hv] at hnext
          split_ifs at hnext with hal0
          · have hlq := (hM a q hq).2 hnext
            rw [ib_last]
            exact hlq
    · obtain ⟨rank, hr⟩ := hR
      have hlt : rank l0 < rank sib := hr l0 sib hl0next
      refine ⟨fun i => if i = c then (rank l0 + rank sib) / 2 else rank i, ?_⟩
      intro a b hab
      rw [ib_next_somePrev hv] at hab
      split_ifs at hab with h1 h2
      · subst h1
        obtain rfl := Option.some.inj hab
        simp only [if_neg hl0c]
        simp
        linarith [hlt]
      · subst h2
        obtain rfl := Option.some.inj hab
        simp [hsc]
        linarith [hlt]
      · have hbc : b ≠ c := fun he => (U a).2.2.1 (he ▸ hab)
        simp only [if_neg h2, if_neg hbc]
        exact hr a b hab

end ParcelHtml

namespace ParcelHtml

/-! ## Attribute-list lemmas -/

theorem getAttr_setAttr_self (l : List Attr) (q : QName) (v : String) :
    getAttr (setAttr l q v) q = some v := by
  induction l with
  | nil => simp [setAttr, getAttr]
  | cons a rest ih =>
    by_cases h : a.name = q
    · simp [setAttr, getAttr, h]
    · simp [setAttr, getAttr, h, ih]

theorem getAttr_setAttr_ne {q q' : QName} (h : q ≠ q') (l : List Attr) (v : String) :
    getAttr (setAttr l q v) q' = getAttr l q' := by
  induction l with
  | nil => simp [setAttr, getAttr, h]
  | cons a rest ih =>
    by_cases ha : a.name = q
    · simp [setAttr, getAttr, ha, h]
    · simp [setAttr, getAttr, ha, ih]

theorem getAttr_removeAttr_ne {q q' : QName} (h : q ≠ q') (l : List Attr) :
    getAttr (removeAttr l q) q' = getAttr l q' := by
  induction l with
  | nil => simp [removeAttr]
  | cons a rest ih =>
    by_cases ha : a.name = q
    · subst ha
      simp [removeAttr, getAttr, h]
    · simp [removeAttr, getAttr, ha, ih]

theorem getAttr_removeAttr_self {l : List Attr} {q : QName}
    (h : (l.map Attr.name).Nodup) : getAttr (removeAttr l q) q = none := by
  induction l with
  | nil => simp [removeAttr, getAttr]
  | cons a rest ih =>
    simp only [List.map_cons, List.nodup_cons] at h
    by_cases ha : a.name = q
    · subst ha
      cases hres : getAttr rest a.name with
      | none => simp [removeAttr, hres]
      | some v =>
        exfalso
        apply h.1
        clear ih h
        induction rest with
        | nil => simp [getAttr] at hres
        | cons b r2 ih2 =>
          by_cases hb : b.name = a.name
          · simp [hb]
          · simp only [getAttr, hb, if_neg] at hres
            simp [ih2 hres]
    · simp [removeAttr, getAttr, ha, ih h.2]

/-! ## Claim C9: package-rewriter insertion order -/

theorem foldl_reverse_cons {α β : Type} (f : α → β) :
    ∀ (l : List α) (cs : List β),
      l.reverse.foldl (fun acc b => f b :: acc) cs = l.map f ++ cs := by
  intro l
  induction l with
  | nil => intro cs; simp
  | cons x xs ih =>
    intro cs
    simp only [List.reverse_cons, List.foldl_append, List.foldl_cons, List.foldl_nil,
      List.map_cons]
    rw [ih]
    simp

/-- C9: `insert_bundle_references` prepends one `<link rel=stylesheet>`
or `<script>` node per external bundle reference, iterating the given
list in reverse so that the final document order matches the input
order, and the import-map script (the merged existing node, or a
synthesized one) is prepended last, ending up first, before all
inserted bundle references. -/
theorem c9_insert_order (bundles : List BundleReference)
    (importMap : List ImportMapEntry) (importMapNode : Option HNode)
    (headChildren : List HNode) :
    insertIntoHead bundles importMap importMapNode headChildren =
      (if importMap.isEmpty then []
       else [match importMapNode with
             | some n => mergeImportMapNode n importMap
             | none => synthImportMapNode importMap]) ++
        bundles.map bundleRefNode ++ headChildren := by
  unfold insertIntoHead
  rw [foldl_reverse_cons]
  cases importMapNode <;> by_cases h : importMap.isEmpty <;> simp [h]

/-! ## Claim C6: attribute quoting and escaping in the serializer -/

/-- The claim C6 exactly as stated: unquoted iff non-empty with no
quote-forcing character, otherwise (including the empty value)
double-quoted with attribute-mode escaping. -/
def c6Stated : Prop :=
  ∀ (elemLocal : String) (a : Attr),
    (a.value ≠ "" ∧ ¬attrNeedsQuotes a.value →
      emitAttr elemLocal a =
        " " ++ attrNSPrefix elemLocal a.name.ns ++ a.name.localName ++ "=" ++ a.value) ∧
    (¬(a.value ≠ "" ∧ ¬attrNeedsQuotes a.value) →
      emitAttr elemLocal a =
        " " ++ attrNSPrefix elemLocal a.name.ns ++ a.name.localName ++
          "=" ++ "\"" ++ writeEscaped a.value true ++ "\"")

/-- C6 counterexample: an empty attribute value is emitted as the bare
name (`disabled`), not as an empty quoted string (`disabled=""`). -/
theorem c6_counterexample : ¬c6Stated := by
  intro h
  have h2 := (h "div" ⟨attrQ "disabled", ""⟩).2 (by simp)
  have h3 : emitAttr "div" ⟨attrQ "disabled", ""⟩ = " disabled" := by rfl
  rw [h3] at h2
  exact absurd (congrArg String.length h2) (by decide)

/-- C6 amended: the value is written unquoted exactly when it is
non-empty and contains none of ASCII whitespace, `"`, `'`, `=`, `<`,
`>`, backtick, NBSP; an empty value emits only the attribute name with
no `=` sign; any other value is double-quoted with `&` escaped to
`&amp;`, NBSP to `&nbsp;` and `"` to `&quot;`; `<` and `>` are escaped
only in text mode, never in attribute mode. -/
theorem c6_attr_emission :
    (∀ (elemLocal : String) (a : Attr),
      (a.value = "" →
        emitAttr elemLocal a = " " ++ attrNSPrefix elemLocal a.name.ns ++ a.name.localName) ∧
      (a.value ≠ "" → ¬attrNeedsQuotes a.value →
        emitAttr elemLocal a =
          " " ++ attrNSPrefix elemLocal a.name.ns ++ a.name.localName ++ "=" ++ a.value) ∧
      (a.value ≠ "" → attrNeedsQuotes a.value →
        emitAttr elemLocal a =
          " " ++ attrNSPrefix elemLocal a.name.ns ++ a.name.localName ++
            "=" ++ "\"" ++ writeEscaped a.value true ++ "\"")) ∧
    (∀ c : Char, escChar true '&' = "&amp;" ∧ escChar true (Char.ofNat 0xA0) = "&nbsp;" ∧
      escChar true '"' = "&quot;" ∧
      (escChar false c ≠ escChar true c ↔ (c = '"' ∨ c = '<' ∨ c = '>'))) := by
  constructor
  · intro elemLocal a
    refine ⟨?_, ?_, ?_⟩
    · intro hv
      simp [emitAttr, emitAttrValue, hv]
    · intro hv hq
      simp [emitAttr, emitAttrValue, hv, hq]
      simp [String.append_assoc]
    · intro hv hq
      simp [emitAttr, emitAttrValue, hv, hq]
      simp [String.append_assoc]
  · intro c
    refine ⟨rfl, rfl, rfl, ?_⟩
    by_cases h1 : c = '&'
    · subst h1
      constructor
      · intro hne
        exact absurd rfl hne
      · intro hor
        exfalso
        rcases hor with h | h | h <;> exact absurd h (by decide)
    · by_cases h2 : c = Char.ofNat 0xA0
      · subst h2
        constructor
        · intro hne
          exact absurd rfl hne
        · intro hor
          exfalso
          rcases hor with h | h | h <;> exact absurd h (by decide)
      · by_cases h3 : c = '"'
        · subst h3
          refine ⟨fun _ => Or.inl rfl, fun _ => ?_⟩
          decide
        · by_cases h4 : c = '<'
          · subst h4
            refine ⟨fun _ => Or.inr (Or.inl rfl), fun _ => ?_⟩
            decide
          · by_cases h5 : c = '>'
            · subst h5
              refine ⟨fun _ => Or.inr (Or.inr rfl), fun _ => ?_⟩
              decide
            · simp [escChar, h1, h2, h3, h4, h5]

end ParcelHtml

namespace ParcelHtml

/-! ## Claim C5: arena link-surgery invariant preservation -/

/-- The claim C5 exactly as stated: all four operations preserve the
tree-shape invariant for every argument choice. -/
def c5Stated : Prop :=
  ∀ s : Store, WF s →
    (∀ n, WF (detach s n)) ∧ (∀ p c, WF (append s p c)) ∧
    (∀ p c, WF (prepend s p c)) ∧ (∀ sib c, WF (insertBefore s sib c))

/-- The store with no links at all (every node isolated). -/
def emptyStore : Store := fun _ => Links.mk none none none none none

theorem wf_emptyStore : WF emptyStore :=
  ⟨fun _ _ hab => Option.noConfusion hab, fun _ _ hab => Option.noConfusion hab,
    fun _ _ hab => Option.noConfusion hab, fun _ _ hab => Option.noConfusion hab,
    fun _ => Iff.rfl, fun _ _ hpar => Option.noConfusion hpar,
    ⟨fun _ => 0, fun _ _ hab => Option.noConfusion hab⟩⟩

/-- C5 counterexample: `insert_before(n, n)` with `n` detached makes
`n` its own next and previous sibling, so `next_sibling` no longer
terminates by absence and the invariant is violated. -/
theorem c5_counterexample : ¬c5Stated := by
  intro h
  have h2 := (h emptyStore wf_emptyStore).2.2.2 0 0
  obtain ⟨_, _, _, _, _, _, _rank, hr⟩ := h2
  exact lt_irrefl _ (hr 0 0 rfl)

/-- C5 amended: `detach` preserves the invariant, clears the detached
node's parent/prev/next links and leaves no link anywhere pointing at
it; `append` and `prepend` preserve the invariant unconditionally; and
`insert_before(sib, c)` preserves it provided `sib ≠ c` (the self
insertion is the one violating case). -/
theorem c5_link_surgery {s : Store} (h : WF s) :
    (∀ n, WF (detach s n)) ∧
    (∀ n, (detach s n n).parent = none ∧ (detach s n n).prev = none ∧
      (detach s n n).next = none) ∧
    (∀ n a, (detach s n a).first ≠ some n ∧ (detach s n a).last ≠ some n ∧
      (detach s n a).next ≠ some n ∧ (detach s n a).prev ≠ some n) ∧
    (∀ p c, WF (append s p c)) ∧
    (∀ p c, WF (prepend s p c)) ∧
    (∀ sib c, sib ≠ c → WF (insertBefore s sib c)) :=
  ⟨detach_WF h, fun n => detach_clears h n, fun n => detach_unlinked h n,
    fun p c => append_WF h p c, fun p c => prepend_WF h p c,
    fun _ _ hsc => insertBefore_WF h hsc⟩

/-- A two-node store: node `0` is a root whose only child is node `1`. -/
def s0w : Store := fun i =>
  if i = 0 then Links.mk none none none (some 1) (some 1)
  else if i = 1 then Links.mk (some 0) none none none none
  else Links.mk none none none none none

theorem wf_s0w : WF s0w := by
  refine ⟨?_, ?_, ?_, ?_, ?_, ?_, ⟨fun _ => 0, ?_⟩⟩
  · intro a b hab
    by_cases h0 : a = 0
    · subst h0
      rw [show (s0w 0).first = some 1 from rfl] at hab
      obtain rfl := Option.some.inj hab
      exact ⟨rfl, rfl⟩
    · by_cases h1 : a = 1
      · subst h1
        exact Option.noConfusion hab
      · rw [show (s0w a).first = none from by simp [s0w, h0, h1]] at hab
        exact Option.noConfusion hab
  · intro a b hab
    by_cases h0 : a = 0
    · subst h0
      rw [show (s0w 0).last = some 1 from rfl] at hab
      obtain rfl := Option.some.inj hab
      exact ⟨rfl, rfl⟩
    · by_cases h1 : a = 1
      · subst h1
        exact Option.noConfusion hab
      · rw [show (s0w a).last = none from by simp [s0w, h0, h1]] at hab
        exact Option.noConfusion hab
  · intro a b hab
    have hn : (s0w a).next = none := by
      by_cases h0 : a = 0
      · subst h0
        rfl
      · by_cases h1 : a = 1
        · subst h1
          rfl
        · simp [s0w, h0, h1]
    rw [hn] at hab
    exact Option.noConfusion hab
  · intro a b hab
    have hn : (s0w a).prev = none := by
      by_cases h0 : a = 0
      · subst h0
        rfl
      · by_cases h1 : a = 1
        · subst h1
          rfl
        · simp [s0w, h0, h1]
    rw [hn] at hab
    exact Option.noConfusion hab
  · intro a
    by_cases h0 : a = 0
    · subst h0
      simp [s0w]
    · by_cases h1 : a = 1
      · subst h1
        simp [s0w]
      · simp [s0w, h0, h1]
  · intro a p hpar
    by_cases h0 : a = 0
    · subst h0
      exact Option.noConfusion hpar
    · by_cases h1 : a = 1
      · subst h1
        rw [show (s0w 1).parent = some 0 from rfl] at hpar
        obtain rfl := Option.some.inj hpar
        exact ⟨fun _ => rfl, fun _ => rfl⟩
      · rw [show (s0w a).parent = none from by simp [s0w, h0, h1]] at hpar
        exact Option.noConfusion hpar
  · intro a b hab
    have hn : (s0w a).next = none := by
      by_cases h0 : a = 0
      · subst h0
        rfl
      · by_cases h1 : a = 1
        · subst h1
          rfl
        · simp [s0w, h0, h1]
    rw [hn] at hab
    exact Option.noConfusion hab

theorem c5_witness :
    WF (detach s0w 1) ∧ WF (append s0w 0 1) ∧ WF (prepend s0w 0 1) ∧
      WF (insertBefore s0w 1 0) := by
  have h := c5_link_surgery wf_s0w
  exact ⟨h.1 1, h.2.2.2.1 0 1, h.2.2.2.2.1 0 1, h.2.2.2.2.2 1 0 (by decide)⟩

end ParcelHtml

namespace ParcelHtml

/-! ## Claim C10: asset/dependency pairing -/

/-- The collector state at the end of the tree walk, before the
asset-pairing loop and HMR injection of `collect_dependencies`. -/
def collectWalkState (dom : HNode) (scopeHoist supportsEsm : Bool) : CState :=
  let st0 : CState :=
    { scopeHoist := scopeHoist, supportsEsm := supportsEsm, deps := [],
      assets := [], hasModuleScripts := false, errors := [] }
  let st1 := (visitNode st0 dom.data dom.children dom.line).1
  (walkChildren st1 dom.children).1

/-- C10: for every inline asset extracted during the walk (the HMR
asset is added afterwards and is not among them), `collect_dependencies`
emits a dependency whose href and placeholder are both the asset's key
unhashed, with Sync priority, no stable name, no bundle behavior, and
the asset's own output format, source type and line. -/
theorem c10_asset_pairing (dom : HNode) (sh se hm : Bool) :
    ∀ a ∈ (collectWalkState dom sh se).assets,
      ∃ d ∈ (collectDependencies dom sh se hm).deps,
        d.href = a.key ∧ d.placeholder = a.key ∧ d.priority = Priority.sync ∧
        d.needsStableName = false ∧ d.bundleBehavior = BundleBehavior.nobeh ∧
        d.outputFormat = a.outputFormat ∧ d.sourceType = a.sourceType ∧
        d.line = a.line := by
  intro a ha
  refine ⟨pairDep a, ?_, rfl, rfl, rfl, rfl, rfl, rfl, rfl, rfl⟩
  have hmem : pairDep a ∈ (collectWalkState dom sh se).deps ++
      (collectWalkState dom sh se).assets.map pairDep :=
    List.mem_append_right _ (List.mem_map_of_mem _ ha)
  rcases hv : visitNode
      { scopeHoist := sh, supportsEsm := se, deps := [], assets := [],
        hasModuleScripts := false, errors := [] } dom.data dom.children dom.line
    with ⟨st1, data1, rootClone⟩
  rcases hw : walkChildren st1 dom.children with ⟨st2, children1⟩
  simp only [collectWalkState, hv, hw] at hmem
  simp only [collectDependencies, hv, hw]
  split
  · split
    · simp only [CState.addDep]
      exact List.mem_append_left _ hmem
    · exact hmem
  · exact hmem

/-- C10 witness: a document whose body carries an inline `style`
element yields a walk asset keyed by the style content hash, and the
final dependency list contains its Sync pairing dependency. -/
theorem c10_witness :
    ∃ a ∈ (collectWalkState
        (HNode.mk .document 0
          [HNode.mk (.element (htmlQ "style") []) 2 [HNode.mk (.text "b\x7bc:d\x7d") 2 []]])
        false false).assets,
      ∃ d ∈ (collectDependencies
          (HNode.mk .document 0
            [HNode.mk (.element (htmlQ "style") []) 2 [HNode.mk (.text "b\x7bc:d\x7d") 2 []]])
          false false true).deps,
        d.href = a.key ∧ d.placeholder = a.key ∧ d.priority = Priority.sync ∧
        d.needsStableName = false ∧ d.bundleBehavior = BundleBehavior.nobeh ∧
        d.outputFormat = a.outputFormat ∧ d.sourceType = a.sourceType ∧
        d.line = a.line := by
  have h := c10_asset_pairing
    (HNode.mk .document 0
      [HNode.mk (.element (htmlQ "style") []) 2 [HNode.mk (.text "b\x7bc:d\x7d") 2 []]])
    false false true
  cases hassets : (collectWalkState
      (HNode.mk .document 0
        [HNode.mk (.element (htmlQ "style") []) 2 [HNode.mk (.text "b\x7bc:d\x7d") 2 []]])
      false false).assets with
  | nil => exact absurd hassets (by decide)
  | cons a as =>
    have hmem : a ∈ (collectWalkState
        (HNode.mk .document 0
          [HNode.mk (.element (htmlQ "style") []) 2 [HNode.mk (.text "b\x7bc:d\x7d") 2 []]])
        false false).assets := by
      rw [hassets]
      exact List.mem_cons_self a as
    exact ⟨a, List.mem_cons_self a as, h a hmem⟩

end ParcelHtml

namespace ParcelHtml

/-! ## Claim C4: the nomodule clone for module scripts -/

set_option maxHeartbeats 2000000 in
set_option maxRecDepth 4000 in
/-- C4: a `script type=module` with non-empty `src`, under
`scope_hoist = true` and `supports_esm = false`, yields exactly two
dependencies — the Parallel/Global one of the clone first, then the
Parallel/EsModule one of the original — and the clone, with `type`
removed and `nomodule` and `defer` added and its `src` set to the
Global dependency's placeholder, is inserted immediately before the
original node, whose `src` becomes the EsModule placeholder. -/
theorem c4_module_script_clone (src : String) (hsrc : src ≠ "") (line : Nat)
    (hm : Bool) :
    collectDependencies
        (HNode.mk .document 0
          [HNode.mk (.element (htmlQ "script")
            [⟨attrQ "type", "module"⟩, ⟨attrQ "src", src⟩]) line []])
        true false hm =
      { deps := [mkDep src false .parallel .global .module .nobeh line,
                 mkDep src false .parallel .esmodule .module .nobeh line],
        assets := [], errors := [],
        dom := HNode.mk .document 0
          [HNode.mk (.element (htmlQ "script")
            [⟨attrQ "src",
                (mkDep src false .parallel .global .module .nobeh line).placeholder⟩,
             ⟨attrQ "nomodule", ""⟩, ⟨attrQ "defer", ""⟩]) line [],
           HNode.mk (.element (htmlQ "script")
            [⟨attrQ "type", "module"⟩,
             ⟨attrQ "src",
                (mkDep src false .parallel .esmodule .module .nobeh line).placeholder⟩])
             line []] } := by
  simp [collectDependencies, visitNode, visitElement, visitDispatch, visitScript,
    styleAttrStep, svgUrlStep, walkNode, walkChildren, findElem, findList, getAttr,
    setAttr, removeAttr, textContent, CState.addDep, hsrc, htmlQ, attrQ, xlinkQ,
    jsonLike, scriptSrcAttr, HNode.data, HNode.line, HNode.children]

/-- C4 witness at `src = "a.js"`, line 7, `hmr = false`. -/
theorem c4_witness :
    collectDependencies
        (HNode.mk .document 0
          [HNode.mk (.element (htmlQ "script")
            [⟨attrQ "type", "module"⟩, ⟨attrQ "src", "a.js"⟩]) 7 []])
        true false false =
      { deps := [mkDep "a.js" false .parallel .global .module .nobeh 7,
                 mkDep "a.js" false .parallel .esmodule .module .nobeh 7],
        assets := [], errors := [],
        dom := HNode.mk .document 0
          [HNode.mk (.element (htmlQ "script")
            [⟨attrQ "src",
                (mkDep "a.js" false .parallel .global .module .nobeh 7).placeholder⟩,
             ⟨attrQ "nomodule", ""⟩, ⟨attrQ "defer", ""⟩]) 7 [],
           HNode.mk (.element (htmlQ "script")
            [⟨attrQ "type", "module"⟩,
             ⟨attrQ "src",
                (mkDep "a.js" false .parallel .esmodule .module .nobeh 7).placeholder⟩])
             7 []] } :=
  c4_module_script_clone "a.js" (by decide) 7 false

end ParcelHtml

namespace ParcelHtml

/-! ## Claim C3: script output-format selection -/

/-- Names occurring after `setAttr` are the old names or the set one. -/
theorem mem_map_name_setAttr {x : QName} (l : List Attr) (q : QName) (v : String) :
    x ∈ (setAttr l q v).map Attr.name → x ∈ l.map Attr.name ∨ x = q := by
  induction l with
  | nil =>
    intro h
    simp [setAttr] at h
    exact Or.inr h
  | cons a rest ih =>
    by_cases ha : a.name = q
    · intro h
      rw [show setAttr (a :: rest) q v = ⟨a.name, v⟩ :: rest from by
        simp [setAttr, ha]] at h
      simp only [List.map_cons, List.mem_cons] at h ⊢
      rcases h with h | h
      · exact Or.inl (Or.inl h)
      · exact Or.inl (Or.inr h)
    · intro h
      rw [show setAttr (a :: rest) q v = a :: setAttr rest q v from by
        simp [setAttr, ha]] at h
      simp only [List.map_cons, List.mem_cons] at h ⊢
      rcases h with h | h
      · exact Or.inl (Or.inl h)
      · rcases ih h with h2 | h2
        · exact Or.inl (Or.inr h2)
        · exact Or.inr h2

/-- `set_attribute` preserves attribute-name uniqueness. -/
theorem nodup_setAttr {l : List Attr} (h : (l.map Attr.name).Nodup)
    (q : QName) (v : String) : ((setAttr l q v).map Attr.name).Nodup := by
  induction l with
  | nil => simp [setAttr]
  | cons a rest ih =>
    simp only [List.map_cons, List.nodup_cons] at h
    by_cases ha : a.name = q
    · rw [show setAttr (a :: rest) q v = ⟨a.name, v⟩ :: rest from by
        simp [setAttr, ha]]
      simp only [List.map_cons, List.nodup_cons]
      exact ⟨h.1, h.2⟩
    · rw [show setAttr (a :: rest) q v = a :: setAttr rest q v from by
        simp [setAttr, ha]]
      simp only [List.map_cons, List.nodup_cons]
      refine ⟨?_, ih h.2⟩
      intro hmem
      rcases mem_map_name_setAttr rest q v hmem with h2 | h2
      · exact h.1 h2
      · exact ha h2

/-- The output format of the script's own product: the last dependency
pushed if any (`src` scripts), else the last extracted asset (inline
scripts); `none` when the script is skipped. -/
def scriptMainFormat (r : CState × List Attr × Option (List Attr) × Bool) :
    Option OutputFormat :=
  match r.1.deps.getLast? with
  | some d => some d.outputFormat
  | none => r.1.assets.getLast?.map Asset.outputFormat

/-- The fresh collector state `collect_dependencies` starts from. -/
def freshCState (scopeHoist supportsEsm : Bool) : CState :=
  ⟨scopeHoist, supportsEsm, [], [], false, []⟩

/-- The claim C3 exactly as stated: for every script element, the
produced output format is EsModule iff `type=module ∧ (scope_hoist ∨
supports_esm) ∧ ¬svg`, and whenever EsModule is not chosen the `type`
attribute is removed (and `defer` added if the script was a module). -/
def c3Stated : Prop :=
  ∀ (sh se isSvg : Bool) (attrs : List Attr) (children : List HNode) (line : Nat),
    (∀ f, scriptMainFormat (visitScript (freshCState sh se) isSvg attrs children line) =
        some f →
      (f = OutputFormat.esmodule ↔
        getAttr attrs (attrQ "type") = some "module" ∧ (sh = true ∨ se = true) ∧
          isSvg = false)) ∧
    (scriptMainFormat (visitScript (freshCState sh se) isSvg attrs children line) ≠
        some OutputFormat.esmodule →
      getAttr (visitScript (freshCState sh se) isSvg attrs children line).2.1
          (attrQ "type") = none ∧
      (getAttr attrs (attrQ "type") = some "module" →
        getAttr (visitScript (freshCState sh se) isSvg attrs children line).2.1
          (attrQ "defer") = some ""))

/-- C3 counterexample: an inline `type=module` script under
`scope_hoist = true, supports_esm = false` is extracted as a Global
asset although `module ∧ (scope_hoist ∨ supports_esm) ∧ ¬svg` holds —
the inline branch demands `scope_hoist ∧ supports_esm`, not the
disjunction the claim states. -/
theorem c3_counterexample : ¬c3Stated := by
  intro h
  have h1 := (h true false false [⟨attrQ "type", "module"⟩] [] 1).1
    OutputFormat.global (by decide)
  have h2 := h1.mpr ⟨rfl, Or.inl rfl, rfl⟩
  exact OutputFormat.noConfusion h2

end ParcelHtml

namespace ParcelHtml

set_option maxHeartbeats 1600000 in
theorem c3_src_case (sh se isSvg : Bool) (attrs : List Attr)
    (children : List HNode) (line : Nat)
    (hnodup : (attrs.map Attr.name).Nodup) :
    ∀ s, getAttr attrs (scriptSrcAttr isSvg attrs) = some s → s ≠ "" →
      (scriptMainFormat (visitScript (freshCState sh se) isSvg attrs children line) =
          some OutputFormat.esmodule ↔
        getAttr attrs (attrQ "type") = some "module" ∧ (sh = true ∨ se = true) ∧
          isSvg = false) ∧
      (scriptMainFormat (visitScript (freshCState sh se) isSvg attrs children line) ≠
          some OutputFormat.esmodule →
        getAttr (visitScript (freshCState sh se) isSvg attrs children line).2.1
            (attrQ "type") = none ∧
        (getAttr attrs (attrQ "type") = some "module" → isSvg = false →
          getAttr (visitScript (freshCState sh se) isSvg attrs children line).2.1
            (attrQ "defer") = some "") ∧
        (isSvg = true →
          getAttr (visitScript (freshCState sh se) isSvg attrs children line).2.1
            (attrQ "defer") = getAttr attrs (attrQ "defer")) ∧
        (getAttr attrs (attrQ "type") ≠ some "module" →
          getAttr (visitScript (freshCState sh se) isSvg attrs children line).2.1
            (attrQ "defer") = getAttr attrs (attrQ "defer"))) := by
  have hn1 : scriptSrcAttr isSvg attrs ≠ attrQ "type" := by
    unfold scriptSrcAttr
    split_ifs <;> decide
  have hn2 : scriptSrcAttr isSvg attrs ≠ attrQ "defer" := by
    unfold scriptSrcAttr
    split_ifs <;> decide
  intro s hsome hs
  rcases hty : getAttr attrs (attrQ "type") with _ | t
  · constructor
    · simp [visitScript, freshCState, scriptMainFormat, hsome, hs, hty, mkDep]
    · intro _
      refine ⟨?_, ?_, ?_, ?_⟩
      · simp only [visitScript, freshCState, hsome, hty]
        simp [hs, getAttr_setAttr_ne hn1, getAttr_removeAttr_self hnodup]
      · intro habs
        exact absurd habs (by simp)
      · intro _
        simp only [visitScript, freshCState, hsome, hty]
        simp [hs, getAttr_setAttr_ne hn2,
          getAttr_removeAttr_ne (show attrQ "type" ≠ attrQ "defer" by decide)]
      · intro _
        simp only [visitScript, freshCState, hsome, hty]
        simp [hs, getAttr_setAttr_ne hn2,
          getAttr_removeAttr_ne (show attrQ "type" ≠ attrQ "defer" by decide)]
  · by_cases htm : t = "module"
    · subst htm
      cases isSvg
      · cases sh
        · cases se
          · constructor
            · simp [visitScript, freshCState, scriptMainFormat, hsome, hs, hty, mkDep]
            · intro _
              refine ⟨?_, ?_, ?_, ?_⟩
              · simp only [visitScript, freshCState, hsome, hty]
                simp [hs, getAttr_setAttr_ne hn1,
                  getAttr_removeAttr_self (nodup_setAttr hnodup (attrQ "defer") "")]
              · intro _ _
                simp only [visitScript, freshCState, hsome, hty]
                simp [hs, getAttr_setAttr_ne hn2,
                  getAttr_removeAttr_ne (show attrQ "type" ≠ attrQ "defer" by decide),
                  getAttr_setAttr_self]
              · intro habs
                exact Bool.noConfusion habs
              · intro habs
                exact absurd rfl habs
          · constructor
            · simp [visitScript, freshCState, scriptMainFormat, hsome, hs, hty, mkDep]
            · intro habs
              exact absurd (by
                simp [visitScript, freshCState, scriptMainFormat, hsome, hs, hty,
                  mkDep]) habs
        · cases se
          · constructor
            · simp [visitScript, freshCState, scriptMainFormat, hsome, hs, hty, mkDep]
            · intro habs
              exact absurd (by
                simp [visitScript, freshCState, scriptMainFormat, hsome, hs, hty,
                  mkDep]) habs
          · constructor
            · simp [visitScript, freshCState, scriptMainFormat, hsome, hs, hty, mkDep]
            · intro habs
              exact absurd (by
                simp [visitScript, freshCState, scriptMainFormat, hsome, hs, hty,
                  mkDep]) habs
      · constructor
        · simp [visitScript, freshCState, scriptMainFormat, hsome, hs, hty, mkDep]
        · intro _
          refine ⟨?_, ?_, ?_, ?_⟩
          · simp only [visitScript, freshCState, hsome, hty]
            simp [hs, getAttr_setAttr_ne hn1, getAttr_removeAttr_self hnodup]
          · intro _ habs
            exact Bool.noConfusion habs
          · intro _
            simp only [visitScript, freshCState, hsome, hty]
            simp [hs, getAttr_setAttr_ne hn2,
              getAttr_removeAttr_ne (show attrQ "type" ≠ attrQ "defer" by decide)]
          · intro habs
            exact absurd rfl habs
    · constructor
      · simp [visitScript, freshCState, scriptMainFormat, hsome, hs, hty, htm, mkDep]
      · intro _
        refine ⟨?_, ?_, ?_, ?_⟩
        · simp only [visitScript, freshCState, hsome, hty]
          simp [hs, htm, getAttr_setAttr_ne hn1, getAttr_removeAttr_self hnodup]
        · intro habs
          exact absurd (Option.some.inj habs) htm
        · intro _
          simp only [visitScript, freshCState, hsome, hty]
          simp [hs, htm, getAttr_setAttr_ne hn2,
            getAttr_removeAttr_ne (show attrQ "type" ≠ attrQ "defer" by decide)]
        · intro _
          simp only [visitScript, freshCState, hsome, hty]
          simp [hs, htm, getAttr_setAttr_ne hn2,
            getAttr_removeAttr_ne (show attrQ "type" ≠ attrQ "defer" by decide)]

set_option maxHeartbeats 800000 in
theorem c3_empty_src_case (sh se isSvg : Bool) (attrs : List Attr)
    (children : List HNode) (line : Nat) :
    getAttr attrs (scriptSrcAttr isSvg attrs) = some "" →
      (visitScript (freshCState sh se) isSvg attrs children line).2.1 = attrs := by
  intro hsome
  simp [visitScript, freshCState, hsome]

set_option maxHeartbeats 800000 in
theorem c3_json_case (sh se isSvg : Bool) (attrs : List Attr)
    (children : List HNode) (line : Nat) :
    getAttr attrs (scriptSrcAttr isSvg attrs) = none →
      ∀ t, getAttr attrs (attrQ "type") = some t → jsonLike t = true →
        (visitScript (freshCState sh se) isSvg attrs children line).2.1 = attrs := by
  intro hsome t hty hjson
  simp [visitScript, freshCState, hsome, hty, hjson]

set_option maxHeartbeats 1600000 in
theorem c3_inline_case (sh se isSvg : Bool) (attrs : List Attr)
    (children : List HNode) (line : Nat)
    (hnodup : (attrs.map Attr.name).Nodup) :
    getAttr attrs (scriptSrcAttr isSvg attrs) = none →
      (∀ t, getAttr attrs (attrQ "type") = some t → jsonLike t = false) →
      (scriptMainFormat (visitScript (freshCState sh se) isSvg attrs children line) =
          some OutputFormat.esmodule ↔
        getAttr attrs (attrQ "type") = some "module" ∧ sh = true ∧ se = true ∧
          isSvg = false) ∧
      (scriptMainFormat (visitScript (freshCState sh se) isSvg attrs children line) ≠
          some OutputFormat.esmodule →
        getAttr (visitScript (freshCState sh se) isSvg attrs children line).2.1
          (attrQ "type") = none) ∧
      (getAttr (visitScript (freshCState sh se) isSvg attrs children line).2.1
          (attrQ "defer") = getAttr attrs (attrQ "defer")) := by
  intro hsome hjs
  rcases hty : getAttr attrs (attrQ "type") with _ | t
  · refine ⟨?_, ?_, ?_⟩
    · simp [visitScript, freshCState, scriptMainFormat, hsome, hty]
    · intro _
      rcases hdpk : getAttr (removeAttr attrs (attrQ "type")) (attrQ "data-parcel-key")
        with _ | k
      · simp only [visitScript, freshCState, hsome, hty]
        simp [hdpk, getAttr_setAttr_ne
          (show attrQ "data-parcel-key" ≠ attrQ "type" by decide),
          getAttr_removeAttr_self hnodup]
      · simp only [visitScript, freshCState, hsome, hty]
        simp [hdpk, getAttr_removeAttr_self hnodup]
    · rcases hdpk2 : getAttr (removeAttr attrs (attrQ "type"))
          (attrQ "data-parcel-key") with _ | k
      · simp only [visitScript, freshCState, hsome, hty]
        simp [hdpk2, getAttr_setAttr_ne
          (show attrQ "data-parcel-key" ≠ attrQ "defer" by decide),
          getAttr_removeAttr_ne (show attrQ "type" ≠ attrQ "defer" by decide)]
      · simp only [visitScript, freshCState, hsome, hty]
        simp [hdpk2, getAttr_removeAttr_ne
          (show attrQ "type" ≠ attrQ "defer" by decide)]
  · have hjl := hjs t hty
    by_cases htm : t = "module"
    · subst htm
      cases sh
      · refine ⟨?_, ?_, ?_⟩
        · simp [visitScript, freshCState, scriptMainFormat, hsome, hty, hjl]
        · intro _
          rcases hdpk : getAttr (removeAttr attrs (attrQ "type"))
              (attrQ "data-parcel-key") with _ | k
          · simp only [visitScript, freshCState, hsome, hty]
            simp [hjl, hdpk, getAttr_setAttr_ne
              (show attrQ "data-parcel-key" ≠ attrQ "type" by decide),
              getAttr_removeAttr_self hnodup]
          · simp only [visitScript, freshCState, hsome, hty]
            simp [hjl, hdpk, getAttr_removeAttr_self hnodup]
        · rcases hdpk2 : getAttr (removeAttr attrs (attrQ "type"))
              (attrQ "data-parcel-key") with _ | k
          · simp only [visitScript, freshCState, hsome, hty]
            simp [hjl, hdpk2, getAttr_setAttr_ne
              (show attrQ "data-parcel-key" ≠ attrQ "defer" by decide),
              getAttr_removeAttr_ne (show attrQ "type" ≠ attrQ "defer" by decide)]
          · simp only [visitScript, freshCState, hsome, hty]
            simp [hjl, hdpk2, getAttr_removeAttr_ne
              (show attrQ "type" ≠ attrQ "defer" by decide)]
      · cases se
        · refine ⟨?_, ?_, ?_⟩
          · simp [visitScript, freshCState, scriptMainFormat, hsome, hty, hjl]
          · intro _
            rcases hdpk : getAttr (removeAttr attrs (attrQ "type"))
                (attrQ "data-parcel-key") with _ | k
            · simp only [visitScript, freshCState, hsome, hty]
              simp [hjl, hdpk, getAttr_setAttr_ne
                (show attrQ "data-parcel-key" ≠ attrQ "type" by decide),
                getAttr_removeAttr_self hnodup]
            · simp only [visitScript, freshCState, hsome, hty]
              simp [hjl, hdpk, getAttr_removeAttr_self hnodup]
          · rcases hdpk2 : getAttr (removeAttr attrs (attrQ "type"))
                (attrQ "data-parcel-key") with _ | k
            · simp only [visitScript, freshCState, hsome, hty]
              simp [hjl, hdpk2, getAttr_setAttr_ne
                (show attrQ "data-parcel-key" ≠ attrQ "defer" by decide),
                getAttr_removeAttr_ne (show attrQ "type" ≠ attrQ "defer" by decide)]
            · simp only [visitScript, freshCState, hsome, hty]
              simp [hjl, hdpk2, getAttr_removeAttr_ne
                (show attrQ "type" ≠ attrQ "defer" by decide)]
        · cases isSvg
          · refine ⟨?_, ?_, ?_⟩
            · simp [visitScript, freshCState, scriptMainFormat, hsome, hty, hjl]
            · intro habs
              exact absurd (by
                simp [visitScript, freshCState, scriptMainFormat, hsome, hty,
                  hjl]) habs
            · rcases hdpk2 : getAttr attrs (attrQ "data-parcel-key") with _ | k
              · simp only [visitScript, freshCState, hsome, hty]
                simp [hjl, hdpk2, getAttr_setAttr_ne
                  (show attrQ "data-parcel-key" ≠ attrQ "defer" by decide)]
              · simp only [visitScript, freshCState, hsome, hty]
                simp [hjl, hdpk2]
          · refine ⟨?_, ?_, ?_⟩
            · simp [visitScript, freshCState, scriptMainFormat, hsome, hty, hjl]
            · intro _
              rcases hdpk : getAttr (removeAttr attrs (attrQ "type"))
                  (attrQ "data-parcel-key") with _ | k
              · simp only [visitScript, freshCState, hsome, hty]
                simp [hjl, hdpk, getAttr_setAttr_ne
                  (show attrQ "data-parcel-key" ≠ attrQ "type" by decide),
                  getAttr_removeAttr_self hnodup]
              · simp only [visitScript, freshCState, hsome, hty]
                simp [hjl, hdpk, getAttr_removeAttr_self hnodup]
            · rcases hdpk2 : getAttr (removeAttr attrs (attrQ "type"))
                  (attrQ "data-parcel-key") with _ | k
              · simp only [visitScript, freshCState, hsome, hty]
                simp [hjl, hdpk2, getAttr_setAttr_ne
                  (show attrQ "data-parcel-key" ≠ attrQ "defer" by decide),
                  getAttr_removeAttr_ne (show attrQ "type" ≠ attrQ "defer" by decide)]
              · simp only [visitScript, freshCState, hsome, hty]
                simp [hjl, hdpk2, getAttr_removeAttr_ne
                  (show attrQ "type" ≠ attrQ "defer" by decide)]
    · refine ⟨?_, ?_, ?_⟩
      · simp [visitScript, freshCState, scriptMainFormat, hsome, hty, hjl, htm]
      · intro _
        rcases hdpk : getAttr (removeAttr attrs (attrQ "type"))
            (attrQ "data-parcel-key") with _ | k
        · simp only [visitScript, freshCState, hsome, hty]
          simp [hjl, htm, hdpk, getAttr_setAttr_ne
            (show attrQ "data-parcel-key" ≠ attrQ "type" by decide),
            getAttr_removeAttr_self hnodup]
        · simp only [visitScript, freshCState, hsome, hty]
          simp [hjl, htm, hdpk, getAttr_removeAttr_self hnodup]
      · rcases hdpk2 : getAttr (removeAttr attrs (attrQ "type"))
            (attrQ "data-parcel-key") with _ | k
        · simp only [visitScript, freshCState, hsome, hty]
          simp [hjl, htm, hdpk2, getAttr_setAttr_ne
            (show attrQ "data-parcel-key" ≠ attrQ "defer" by decide),
            getAttr_removeAttr_ne (show attrQ "type" ≠ attrQ "defer" by decide)]
        · simp only [visitScript, freshCState, hsome, hty]
          simp [hjl, htm, hdpk2, getAttr_removeAttr_ne
            (show attrQ "type" ≠ attrQ "defer" by decide)]

/-- C3 amended: for a `src` script (non-empty source), the dependency's
output format is EsModule iff `type=module ∧ (scope_hoist ∨
supports_esm) ∧ ¬svg`; when EsModule is not chosen the `type` attribute
is removed, and `defer` is added only for non-svg module scripts: an
svg script's `defer` and a non-module script's `defer` are left
untouched.  A script with an empty source or a json-like inline `type`
keeps its attributes unchanged.  For an inline script the EsModule
condition is the conjunction `scope_hoist ∧ supports_esm` (not the
disjunction); when EsModule is not chosen the `type` attribute is
removed, and no `defer` is ever added or altered on any inline
script. -/
theorem c3_script_output_format (sh se isSvg : Bool) (attrs : List Attr)
    (children : List HNode) (line : Nat)
    (hnodup : (attrs.map Attr.name).Nodup) :
    (∀ s, getAttr attrs (scriptSrcAttr isSvg attrs) = some s → s ≠ "" →
      (scriptMainFormat (visitScript (freshCState sh se) isSvg attrs children line) =
          some OutputFormat.esmodule ↔
        getAttr attrs (attrQ "type") = some "module" ∧ (sh = true ∨ se = true) ∧
          isSvg = false) ∧
      (scriptMainFormat (visitScript (freshCState sh se) isSvg attrs children line) ≠
          some OutputFormat.esmodule →
        getAttr (visitScript (freshCState sh se) isSvg attrs children line).2.1
            (attrQ "type") = none ∧
        (getAttr attrs (attrQ "type") = some "module" → isSvg = false →
          getAttr (visitScript (freshCState sh se) isSvg attrs children line).2.1
            (attrQ "defer") = some "") ∧
        (isSvg = true →
          getAttr (visitScript (freshCState sh se) isSvg attrs children line).2.1
            (attrQ "defer") = getAttr attrs (attrQ "defer")) ∧
        (getAttr attrs (attrQ "type") ≠ some "module" →
          getAttr (visitScript (freshCState sh se) isSvg attrs children line).2.1
            (attrQ "defer") = getAttr attrs (attrQ "defer")))) ∧
    (getAttr attrs (scriptSrcAttr isSvg attrs) = some "" →
      (visitScript (freshCState sh se) isSvg attrs children line).2.1 = attrs) ∧
    (getAttr attrs (scriptSrcAttr isSvg attrs) = none →
      ∀ t, getAttr attrs (attrQ "type") = some t → jsonLike t = true →
        (visitScript (freshCState sh se) isSvg attrs children line).2.1 = attrs) ∧
    (getAttr attrs (scriptSrcAttr isSvg attrs) = none →
      (∀ t, getAttr attrs (attrQ "type") = some t → jsonLike t = false) →
      (scriptMainFormat (visitScript (freshCState sh se) isSvg attrs children line) =
          some OutputFormat.esmodule ↔
        getAttr attrs (attrQ "type") = some "module" ∧ sh = true ∧ se = true ∧
          isSvg = false) ∧
      (scriptMainFormat (visitScript (freshCState sh se) isSvg attrs children line) ≠
          some OutputFormat.esmodule →
        getAttr (visitScript (freshCState sh se) isSvg attrs children line).2.1
          (attrQ "type") = none) ∧
      (getAttr (visitScript (freshCState sh se) isSvg attrs children line).2.1
          (attrQ "defer") = getAttr attrs (attrQ "defer"))) :=
  ⟨c3_src_case sh se isSvg attrs children line hnodup,
    c3_empty_src_case sh se isSvg attrs children line,
    c3_json_case sh se isSvg attrs children line,
    c3_inline_case sh se isSvg attrs children line hnodup⟩

end ParcelHtml

namespace ParcelHtml

/-- C3 witness: `script type=module src=a.js` under
`scope_hoist = supports_esm = true` gets the EsModule output format. -/
theorem c3_witness :
    scriptMainFormat (visitScript (freshCState true true) false
      [⟨attrQ "type", "module"⟩, ⟨attrQ "src", "a.js"⟩] [] 3) =
      some OutputFormat.esmodule := by
  have h := (c3_script_output_format true true false
      [⟨attrQ "type", "module"⟩, ⟨attrQ "src", "a.js"⟩] [] 3 (by decide)).1
      "a.js" (by decide) (by decide)
  exact h.1.mpr ⟨rfl, Or.inl rfl, rfl⟩

end ParcelHtml

namespace ParcelHtml

/-! ## Claim C2: empty reference values -/

/-- The element/attribute pairs named by the claim. -/
def c2ClaimCases : List (QName × QName) :=
  [(htmlQ "link", attrQ "href"), (htmlQ "script", attrQ "src"),
   (htmlQ "img", attrQ "src"), (htmlQ "source", attrQ "src"),
   (htmlQ "audio", attrQ "src"), (htmlQ "track", attrQ "src"),
   (htmlQ "embed", attrQ "src"), (htmlQ "video", attrQ "src"),
   (htmlQ "a", attrQ "href")]

/-- The claim C2 exactly as stated: an empty value on each listed
reference-bearing attribute is recorded as a CollectionError at the
element's line, collection continues with everything else unchanged. -/
def c2Stated : Prop :=
  ∀ (st : CState) (p : QName × QName) (line : Nat), p ∈ c2ClaimCases →
    ∃ msg, visitElement st p.1 [⟨p.2, ""⟩] [] line =
      ({ st with errors := st.errors ++ [⟨msg, line⟩] }, [⟨p.2, ""⟩], none)

/-- C2 counterexample: `<a href="">` is silently skipped — the `a`
branch early-returns on an empty href and records no error at all. -/
theorem c2_counterexample : ¬c2Stated := by
  intro h
  obtain ⟨msg, hmsg⟩ := h (freshCState false false) (htmlQ "a", attrQ "href") 7 (by decide)
  have h1 : (visitElement (freshCState false false) (htmlQ "a")
      [⟨attrQ "href", ""⟩] [] 7).1.errors = [] := rfl
  rw [hmsg] at h1
  simpa using congrArg List.length h1

/-- The element/attribute pairs that really produce an empty-value
error, with the local name used in the message (the `script` branch
hardcodes `src` even when reading svg `href`/`xlink:href`). -/
def c2ErrorCases : List (QName × QName × String) :=
  [(htmlQ "link", attrQ "href", "href"),
   (htmlQ "script", attrQ "src", "src"),
   (svgQ "script", attrQ "href", "src"),
   (svgQ "script", xlinkQ "href", "src"),
   (htmlQ "img", attrQ "src", "src"),
   (htmlQ "source", attrQ "src", "src"),
   (htmlQ "audio", attrQ "src", "src"),
   (htmlQ "track", attrQ "src", "src"),
   (htmlQ "embed", attrQ "src", "src"),
   (htmlQ "video", attrQ "src", "src"),
   (htmlQ "video", attrQ "poster", "poster"),
   (htmlQ "iframe", attrQ "src", "src"),
   (htmlQ "object", attrQ "data", "data"),
   (svgQ "a", attrQ "href", "href"),
   (svgQ "a", xlinkQ "href", "href"),
   (svgQ "use", attrQ "href", "href"),
   (svgQ "use", xlinkQ "href", "href"),
   (svgQ "image", attrQ "href", "href"),
   (svgQ "image", xlinkQ "href", "href"),
   (svgQ "cursor", xlinkQ "href", "href")]

set_option maxHeartbeats 2000000 in
/-- C2 amended: every pair in `c2ErrorCases` yields exactly one
CollectionError with the element's line number and the quoted local
name, leaving the attribute value, the dependency list and everything
else unchanged; but an html `<a href="">` is silently skipped with no
error recorded, contrary to the claim. -/
theorem c2_empty_value_behavior :
    (∀ (st : CState) (e : QName × QName × String) (line : Nat), e ∈ c2ErrorCases →
      visitElement st e.1 [⟨e.2.1, ""⟩] [] line =
        ({ st with errors := st.errors ++ [⟨emptyMsg e.2.2, line⟩] },
          [⟨e.2.1, ""⟩], none)) ∧
    (∀ (st : CState) (line : Nat),
      visitElement st (htmlQ "a") [⟨attrQ "href", ""⟩] [] line =
        (st, [⟨attrQ "href", ""⟩], none)) := by
  constructor
  · intro st e line he
    fin_cases he <;> rfl
  · intro st line
    rfl

/-- C2 witness: `<link href="">` at line 5 from the fresh state. -/
theorem c2_witness :
    visitElement (freshCState false false) (htmlQ "link") [⟨attrQ "href", ""⟩] [] 5 =
      ({ freshCState false false with
          errors := (freshCState false false).errors ++ [⟨emptyMsg "href", 5⟩] },
        [⟨attrQ "href", ""⟩], none) :=
  c2_empty_value_behavior.1 (freshCState false false)
    (htmlQ "link", attrQ "href", "href") 5 (by decide)

end ParcelHtml

namespace ParcelHtml

/-! ## Claim C8: redundant script `type` removal -/

/-- Case-insensitive comparison key. -/
def lowerKey (s : String) : List Char := s.data.map asciiLower

/-- The claim C8 exactly as stated: some list of 14 MIME strings
characterizes (case-insensitively, plus the empty value under
`remove_empty_attributes`) when a script's `type` attribute is removed. -/
def c8Stated : Prop :=
  ∃ l : List String, l.length = 14 ∧
    ∀ (ty : String) (opts : OptimizeOptions), opts.removeRedundantAttributes = true →
      (getAttr (optimizeScriptAttrs [⟨attrQ "type", ty⟩] opts) (attrQ "type") = none ↔
        (l.any (eqIgnoreAsciiCase ty) = true ∨
          (ty = "" ∧ opts.removeEmptyAttributes = true)))

theorem optTrim_none (attrs : List Attr) (q : QName) (opts : OptimizeOptions)
    (h : getAttr attrs q = none) : optTrim attrs q opts = attrs := by
  simp [optTrim, h]

theorem optUnorderedSet_none (attrs : List Attr) (q : QName)
    (opts : OptimizeOptions) (h : getAttr attrs q = none) :
    optUnorderedSet attrs q opts = attrs := by
  simp [optUnorderedSet, h]

theorem optOrderedSet_none (attrs : List Attr) (q : QName)
    (opts : OptimizeOptions) (h : getAttr attrs q = none) :
    optOrderedSet attrs q opts = attrs := by
  simp [optOrderedSet, h]

theorem optCaseInsensitive_none (attrs : List Attr) (q : QName)
    (opts : OptimizeOptions) (h : getAttr attrs q = none) :
    optCaseInsensitive attrs q opts = attrs := by
  simp [optCaseInsensitive, h]

theorem optEnumerated_none (attrs : List Attr) (q : QName) (dflt : String)
    (opts : OptimizeOptions) (h : getAttr attrs q = none) :
    optEnumerated attrs q dflt opts = attrs := by
  simp [optEnumerated, h]

theorem optBoolean_none (attrs : List Attr) (q : QName) (opts : OptimizeOptions)
    (h : getAttr attrs q = none) : optBoolean attrs q opts = attrs := by
  simp [optBoolean, h]

theorem optGlobalAttrs_keep (attrs : List Attr) (opts : OptimizeOptions)
    (h1 : getAttr attrs (attrQ "accesskey") = none)
    (h2 : getAttr attrs (attrQ "autofocus") = none)
    (h3 : getAttr attrs (attrQ "class") = none)
    (h4 : getAttr attrs (attrQ "style") = none)
    (h5 : getAttr attrs (attrQ "itemid") = none)
    (h6 : getAttr attrs (attrQ "itemprop") = none)
    (h7 : getAttr attrs (attrQ "itemref") = none)
    (h8 : getAttr attrs (attrQ "itemscope") = none)
    (h9 : getAttr attrs (attrQ "itemtype") = none)
    (h10 : getAttr attrs (attrQ "contenteditable") = none) :
    optGlobalAttrs attrs opts = attrs := by
  unfold optGlobalAttrs
  dsimp only
  rw [optOrderedSet_none _ _ _ h1, optBoolean_none _ _ _ h2,
    optUnorderedSet_none _ _ _ h3, optTrim_none _ _ _ h4, optTrim_none _ _ _ h5,
    optUnorderedSet_none _ _ _ h6, optUnorderedSet_none _ _ _ h7,
    optBoolean_none _ _ _ h8, optUnorderedSet_none _ _ _ h9, h10]

theorem scriptTypeStep_single (ty : String) (opts : OptimizeOptions) :
    scriptTypeStep [⟨attrQ "type", ty⟩] opts =
      if (ty = "" ∧ opts.removeEmptyAttributes = true) ∨
          (jsMimeTypes.any (eqIgnoreAsciiCase ty) = true ∧
            opts.removeRedundantAttributes = true) then []
      else [⟨attrQ "type", ty⟩] := by
  simp [scriptTypeStep, getAttr, removeAttr]

set_option maxHeartbeats 1000000 in
/-- Removal characterization for a script whose only attribute is
`type` (shared between the refutation and the amended statement). -/
theorem scriptTypeRemoval_char (ty : String) (opts : OptimizeOptions) :
    getAttr (optimizeScriptAttrs [⟨attrQ "type", ty⟩] opts) (attrQ "type") = none ↔
      ((ty = "" ∧ opts.removeEmptyAttributes = true) ∨
        (jsMimeTypes.any (eqIgnoreAsciiCase ty) = true ∧
          opts.removeRedundantAttributes = true)) := by
  unfold optimizeScriptAttrs
  dsimp only
  rw [optTrim_none [⟨attrQ "type", ty⟩] (attrQ "src") opts
      (by simp [getAttr, attrQ]),
    scriptTypeStep_single]
  by_cases hcond : (ty = "" ∧ opts.removeEmptyAttributes = true) ∨
      (jsMimeTypes.any (eqIgnoreAsciiCase ty) = true ∧
        opts.removeRedundantAttributes = true)
  · rw [if_pos hcond]
    rw [optEnumerated_none [] (attrQ "referrerpolicy") "" opts rfl,
      optEnumerated_none [] (attrQ "fetchpriority") "auto" opts rfl,
      optEnumerated_none [] (attrQ "charset") "utf-8" opts rfl,
      optCaseInsensitive_none [] (attrQ "crossorigin") opts rfl,
      optBoolean_none [] (attrQ "async") opts rfl,
      optBoolean_none [] (attrQ "defer") opts rfl,
      optBoolean_none [] (attrQ "nomodule") opts rfl,
      optGlobalAttrs_keep [] opts rfl rfl rfl rfl rfl rfl rfl rfl rfl rfl]
    exact iff_of_true rfl hcond
  · rw [if_neg hcond]
    rw [optEnumerated_none [⟨attrQ "type", ty⟩] (attrQ "referrerpolicy") "" opts
        (by simp [getAttr, attrQ]),
      optEnumerated_none [⟨attrQ "type", ty⟩] (attrQ "fetchpriority") "auto" opts
        (by simp [getAttr, attrQ]),
      optEnumerated_none [⟨attrQ "type", ty⟩] (attrQ "charset") "utf-8" opts
        (by simp [getAttr, attrQ]),
      optCaseInsensitive_none [⟨attrQ "type", ty⟩] (attrQ "crossorigin") opts
        (by simp [getAttr, attrQ]),
      optBoolean_none [⟨attrQ "type", ty⟩] (attrQ "async") opts (by simp [getAttr, attrQ]),
      optBoolean_none [⟨attrQ "type", ty⟩] (attrQ "defer") opts (by simp [getAttr, attrQ]),
      optBoolean_none [⟨attrQ "type", ty⟩] (attrQ "nomodule") opts (by simp [getAttr, attrQ]),
      optGlobalAttrs_keep [⟨attrQ "type", ty⟩] opts (by simp [getAttr, attrQ])
        (by simp [getAttr, attrQ]) (by simp [getAttr, attrQ])
        (by simp [getAttr, attrQ]) (by simp [getAttr, attrQ])
        (by simp [getAttr, attrQ]) (by simp [getAttr, attrQ])
        (by simp [getAttr, attrQ]) (by simp [getAttr, attrQ])
        (by simp [getAttr, attrQ])]
    refine iff_of_false ?_ hcond
    simp [getAttr]

/-- C8 counterexample: no 14-element list can cut it — the `script`
arm recognises 16 pairwise case-insensitively distinct JavaScript MIME
strings, so by counting no 14 strings cover all of them. -/
theorem c8_counterexample : ¬c8Stated := by
  intro h
  obtain ⟨l, hlen, hiff⟩ := h
  have hmatch : ∀ m ∈ jsMimeTypes, ∃ x ∈ l, lowerKey x = lowerKey m := by
    intro m hm
    have hne : m ≠ "" := by fin_cases hm <;> decide
    have hany : jsMimeTypes.any (eqIgnoreAsciiCase m) = true := by
      fin_cases hm <;> decide
    have hrem := (scriptTypeRemoval_char m
      ⟨true, true, true, true, false, true, true, true, true, true, true⟩).mpr
      (Or.inr ⟨hany, rfl⟩)
    rcases (hiff m ⟨true, true, true, true, false, true, true, true, true, true,
        true⟩ rfl).mp hrem with h1 | h1
    · rw [List.any_eq_true] at h1
      obtain ⟨x, hx, hbeq⟩ := h1
      simp only [eqIgnoreAsciiCase] at hbeq
      exact ⟨x, hx, (eq_of_beq hbeq).symm⟩
    · exact absurd h1.1 hne
  have hsub : (jsMimeTypes.map lowerKey).toFinset ⊆ (l.map lowerKey).toFinset := by
    intro k hk
    simp only [List.mem_toFinset, List.mem_map] at hk ⊢
    obtain ⟨m, hm, rfl⟩ := hk
    obtain ⟨x, hx, hkey⟩ := hmatch m hm
    exact ⟨x, hx, hkey⟩
  have hnodup : (jsMimeTypes.map lowerKey).Nodup := by decide
  have h16 : (jsMimeTypes.map lowerKey).toFinset.card = 16 := by
    rw [List.toFinset_card_of_nodup hnodup]
    rfl
  have hcard := Finset.card_le_card hsub
  have hle : (l.map lowerKey).toFinset.card ≤ (l.map lowerKey).length :=
    List.toFinset_card_le _
  rw [h16] at hcard
  rw [List.length_map, hlen] at hle
  omega

/-- C8 amended: the `script` arm's JavaScript MIME list has 16 entries,
and for a script whose only attribute is `type`, the attribute is
removed exactly when the value is empty with `remove_empty_attributes`
enabled, or matches one of those 16 strings case-insensitively with
`remove_redundant_attributes` enabled; in particular
`type=application/javascript` is removed under the default options. -/
theorem c8_script_type_removal :
    jsMimeTypes.length = 16 ∧
    (∀ (ty : String) (opts : OptimizeOptions),
      getAttr (optimizeScriptAttrs [⟨attrQ "type", ty⟩] opts) (attrQ "type") = none ↔
        ((ty = "" ∧ opts.removeEmptyAttributes = true) ∨
          (jsMimeTypes.any (eqIgnoreAsciiCase ty) = true ∧
            opts.removeRedundantAttributes = true))) :=
  ⟨rfl, scriptTypeRemoval_char⟩

/-- C8 witness: `<script type=application/javascript>` loses its
`type` attribute under the default options. -/
theorem c8_witness :
    getAttr (optimizeScriptAttrs [⟨attrQ "type", "application/javascript"⟩]
      OptimizeOptions.default) (attrQ "type") = none :=
  (c8_script_type_removal.2 "application/javascript" OptimizeOptions.default).mpr
    (Or.inr ⟨by decide, rfl⟩)

end ParcelHtml

namespace ParcelHtml

/-! ## Claim C1: placeholder provenance -/

/-- Every placeholder in the final dependency list is either the
six-field hash of the dependency's own fields, the bare `str` hash of
the href alone (srcset candidates), or the href itself verbatim
(asset pairing dependencies, whose href is the asset key). -/
def DepOk (d : Dependency) : Prop :=
  d.placeholder = setPlaceholder d.href d.needsStableName d.priority d.outputFormat
      d.sourceType d.bundleBehavior ∨
  d.placeholder = hexFmt (sipHash13 (strHashBytes d.href)) ∨
  d.placeholder = d.href

/-- All dependencies recorded so far are `DepOk`. -/
def DepsOk (st : CState) : Prop := ∀ d ∈ st.deps, DepOk d

theorem depOk_mkDep (href : String) (nsn : Bool) (pri : Priority)
    (ofm : OutputFormat) (sty : SourceType) (bb : BundleBehavior) (line : Nat) :
    DepOk (mkDep href nsn pri ofm sty bb line) := by
  left
  simp only [mkDep]

theorem depsOk_concat {l : List Dependency} (h : ∀ x ∈ l, DepOk x)
    {d : Dependency} (hd : DepOk d) : ∀ x ∈ l ++ [d], DepOk x := by
  intro x hx
  rcases List.mem_append.mp hx with h1 | h1
  · exact h x h1
  · rw [List.mem_singleton] at h1
    subst h1
    exact hd

/-- Push-one closure of `DepsOk`, phrased on the resulting state. -/
theorem depsOk_push {st : CState} (h : DepsOk st) {d : Dependency} (hd : DepOk d)
    (st' : CState) (hdeps : st'.deps = st.deps ++ [d]) : DepsOk st' := by
  intro x hx
  rw [hdeps] at hx
  exact depsOk_concat h hd x hx

theorem depsOk_addDep {st : CState} (h : DepsOk st) (src : String) (nsn : Bool)
    (pri : Priority) (line : Nat) : DepsOk (st.addDep src nsn pri line).1 := by
  unfold CState.addDep
  dsimp only
  exact depsOk_push h (depOk_mkDep src nsn pri .nofmt .nosrc .nobeh line) _ rfl

theorem depsOk_handleAttr {st : CState} (h : DepsOk st) (attrs : List Attr)
    (name : QName) (nsn : Bool) (line : Nat) :
    DepsOk (handleAttr st attrs name nsn line).1 := by
  unfold handleAttr
  rcases getAttr attrs name with _ | src
  · exact h
  · dsimp only
    split_ifs
    · exact h
    · exact h
    · exact depsOk_addDep h src nsn .lazy line

theorem depsOk_srcsetFold (line : Nat) :
    ∀ (imgs : List ImageSource) (acc : CState × List String), DepsOk acc.1 →
      DepsOk (imgs.foldl (srcsetStep line) acc).1 := by
  intro imgs
  induction imgs with
  | nil => intro acc h; exact h
  | cons img rest ih =>
    intro acc h
    rw [List.foldl_cons]
    have hd : DepOk (srcsetDep img.url line) := by
      right
      left
      simp only [srcsetDep]
    exact ih _ (depsOk_push h hd _ rfl)

theorem depsOk_handleSrcset {st : CState} (h : DepsOk st) (attrs : List Attr)
    (name : QName) (line : Nat) : DepsOk (handleSrcset st attrs name line).1 := by
  unfold handleSrcset
  rcases getAttr attrs name with _ | srcset
  · exact h
  · exact depsOk_srcsetFold line (parseSrcset srcset) (st, []) h

theorem depsOk_svgUrlFold (line : Nat) :
    ∀ (l : List Attr) (acc : CState × List Attr), DepsOk acc.1 →
      DepsOk (l.foldl (svgUrlAttrStep line) acc).1 := by
  intro l
  induction l with
  | nil => intro acc h; exact h
  | cons a rest ih =>
    intro acc h
    rw [List.foldl_cons]
    apply ih
    unfold svgUrlAttrStep
    split_ifs
    · rcases parseCssUrl a.value with _ | url
      · exact h
      · exact depsOk_addDep h url false .lazy line
    · exact h

theorem depsOk_svgUrlStep {st : CState} (h : DepsOk st) (name : QName)
    (attrs : List Attr) (line : Nat) :
    DepsOk (svgUrlStep st name attrs line).1 := by
  unfold svgUrlStep
  split_ifs
  · exact depsOk_svgUrlFold line attrs (st, []) h
  · exact h

theorem depsOk_styleAttrStep {st : CState} (h : DepsOk st) (attrs : List Attr)
    (line : Nat) : DepsOk (styleAttrStep st attrs line).1 := by
  unfold styleAttrStep
  rcases getAttr attrs (attrQ "style") with _ | style
  · exact h
  · exact h

theorem depsOk_visitStyleEl {st : CState} (h : DepsOk st) (attrs : List Attr)
    (children : List HNode) (line : Nat) :
    DepsOk (visitStyleEl st attrs children line).1 := by
  unfold visitStyleEl
  rcases getAttr attrs (attrQ "data-parcel-key") with _ | k <;>
    rcases getAttr attrs (attrQ "type") with _ | t <;> exact h

theorem depsOk_visitMeta {st : CState} (h : DepsOk st) (attrs : List Attr)
    (line : Nat) : DepsOk (visitMeta st attrs line).1 := by
  unfold visitMeta
  rcases metaKind attrs with ⟨isDep, nsn⟩
  dsimp only
  cases isDep
  · exact h
  · rcases getAttr attrs (attrQ "content") with _ | content
    · exact h
    · dsimp only
      split_ifs with hc ht
      · exact depsOk_addDep h content nsn .lazy line
      · exact h
      · exact absurd rfl hc

theorem depsOk_visitA {st : CState} (h : DepsOk st) (attrs : List Attr)
    (line : Nat) : DepsOk (visitA st attrs line).1 := by
  unfold visitA
  rcases getAttr attrs (attrQ "href") with _ | href
  · exact h
  · dsimp only
    split_ifs
    · exact h
    · exact h
    · exact depsOk_addDep h href true .lazy line

theorem depsOk_visitLink {st : CState} (h : DepsOk st) (attrs : List Attr)
    (line : Nat) : DepsOk (visitLink st attrs line).1 := by
  unfold visitLink
  rcases getAttr attrs (attrQ "href") with _ | href
  · exact depsOk_handleSrcset h attrs (attrQ "imagesrcset") line
  · dsimp only
    split_ifs
    · exact h
    · rcases linkDepInfo attrs href with ⟨nsn, pri, href2⟩
      dsimp only
      exact depsOk_handleSrcset
        (depsOk_push h (depOk_mkDep href2 nsn pri .nofmt .nosrc .nobeh line) _ rfl)
        _ _ line

end ParcelHtml

namespace ParcelHtml

/-- `DepsOk` of the first component of an `if` over pairs. -/
theorem depsOk_ite_fst {C : Prop} [Decidable C] {α : Type} {p q : CState × α}
    (hp : DepsOk p.1) (hq : DepsOk q.1) : DepsOk (if C then p else q).1 := by
  split_ifs
  · exact hp
  · exact hq

theorem depsOk_visitScript {st : CState} (h : DepsOk st) (isSvg : Bool)
    (attrs : List Attr) (children : List HNode) (line : Nat) :
    DepsOk (visitScript st isSvg attrs children line).1 := by
  unfold visitScript
  dsimp only
  have hmod : DepsOk (if getAttr attrs (attrQ "type") = some "module" then
      { st with hasModuleScripts := true } else st) := by
    split_ifs
    · exact h
    · exact h
  rcases getAttr attrs (scriptSrcAttr isSvg attrs) with _ | srcv
  · exact depsOk_ite_fst hmod hmod
  · dsimp only
    by_cases hsv : srcv = ""
    · simp only [if_pos hsv]
      exact hmod
    · simp only [if_neg hsv]
      exact depsOk_push
        (depsOk_ite_fst (depsOk_push hmod (depOk_mkDep _ _ _ _ _ _ _) _ rfl) hmod)
        (depOk_mkDep _ _ _ _ _ _ _) _ rfl

theorem depsOk_piFold (line : Nat) :
    ∀ (l : List PIAttr) (acc : CState × List PIAttr), DepsOk acc.1 →
      DepsOk (l.foldl (piAttrStep line) acc).1 := by
  intro l
  induction l with
  | nil => intro acc h; exact h
  | cons a rest ih =>
    intro acc h
    rw [List.foldl_cons]
    apply ih
    unfold piAttrStep
    split_ifs
    · exact depsOk_addDep h a.value false .parallel line
    · exact h

theorem depsOk_visitDispatch {st : CState} (h : DepsOk st) (name : QName)
    (attrs : List Attr) (children : List HNode) (line : Nat) :
    DepsOk (visitDispatch st name attrs children line).1 := by
  unfold visitDispatch
  dsimp only
  by_cases c1 : name.ns = NSpace.html ∧ name.localName = "link"
  · rw [if_pos c1]
    exact depsOk_visitLink h attrs line
  · rw [if_neg c1]
    by_cases c2 : name.ns = NSpace.html ∧ name.localName = "script"
    · rw [if_pos c2]
      exact depsOk_visitScript h false attrs children line
    · rw [if_neg c2]
      by_cases c3 : name.ns = NSpace.svg ∧ name.localName = "script"
      · rw [if_pos c3]
        exact depsOk_visitScript h true attrs children line
      · rw [if_neg c3]
        by_cases c4 : (name.ns = NSpace.html ∨ name.ns = NSpace.svg) ∧ name.localName = "style"
        · rw [if_pos c4]
          exact depsOk_visitStyleEl h attrs children line
        · rw [if_neg c4]
          by_cases c5 : name.ns = NSpace.html ∧ name.localName = "meta"
          · rw [if_pos c5]
            exact depsOk_visitMeta h attrs line
          · rw [if_neg c5]
            by_cases c6 : name.ns = NSpace.html ∧ (name.localName = "img" ∨ name.localName = "source")
            · rw [if_pos c6]
              exact depsOk_handleSrcset (depsOk_handleAttr h attrs (attrQ "src") false line) _ _ line
            · rw [if_neg c6]
              by_cases c7 : name.ns = NSpace.html ∧ (name.localName = "audio" ∨ name.localName = "track" ∨ name.localName = "embed")
              · rw [if_pos c7]
                exact depsOk_handleAttr h attrs (attrQ "src") false line
              · rw [if_neg c7]
                by_cases c8 : name.ns = NSpace.html ∧ name.localName = "video"
                · rw [if_pos c8]
                  exact depsOk_handleAttr (depsOk_handleAttr h attrs (attrQ "src") false line) _ (attrQ "poster") false line
                · rw [if_neg c8]
                  by_cases c9 : name.ns = NSpace.html ∧ name.localName = "iframe"
                  · rw [if_pos c9]
                    exact depsOk_handleAttr h attrs (attrQ "src") true line
                  · rw [if_neg c9]
                    by_cases c10 : name.ns = NSpace.html ∧ name.localName = "object"
                    · rw [if_pos c10]
                      exact depsOk_handleAttr h attrs (attrQ "data") false line
                    · rw [if_neg c10]
                      by_cases c11 : name.ns = NSpace.html ∧ name.localName = "a"
                      · rw [if_pos c11]
                        exact depsOk_visitA h attrs line
                      · rw [if_neg c11]
                        by_cases c12 : name.ns = NSpace.svg ∧ name.localName = "a"
                        · rw [if_pos c12]
                          exact depsOk_handleAttr (depsOk_handleAttr h attrs (attrQ "href") true line) _ (xlinkQ "href") true line
                        · rw [if_neg c12]
                          by_cases c13 : name.ns = NSpace.svg ∧ (name.localName = "use" ∨ name.localName = "image" ∨ name.localName = "feImage" ∨ name.localName = "linearGradient" ∨ name.localName = "radialGradient" ∨ name.localName = "pattern" ∨ name.localName = "mpath" ∨ name.localName = "textPath")
                          · rw [if_pos c13]
                            exact depsOk_handleAttr (depsOk_handleAttr h attrs (attrQ "href") false line) _ (xlinkQ "href") false line
                          · rw [if_neg c13]
                            by_cases c14 : name.ns = NSpace.svg ∧ (name.localName = "altGlyph" ∨ name.localName = "cursor" ∨ name.localName = "filter" ∨ name.localName = "font-face-uri" ∨ name.localName = "glyphRef" ∨ name.localName = "tref" ∨ name.localName = "color-profile")
                            · rw [if_pos c14]
                              exact depsOk_handleAttr h attrs (xlinkQ "href") false line
                            · rw [if_neg c14]
                              exact h

theorem depsOk_visitElement {st : CState} (h : DepsOk st) (name : QName)
    (attrs : List Attr) (children : List HNode) (line : Nat) :
    DepsOk (visitElement st name attrs children line).1 := by
  unfold visitElement
  have h1 := depsOk_visitDispatch h name attrs children line
  rcases hd : visitDispatch st name attrs children line with ⟨st1, attrs1, clone, early⟩
  rw [hd] at h1
  dsimp only at h1
  cases early
  · dsimp only
    rcases hs : styleAttrStep st1 attrs1 line with ⟨st2, attrs2⟩
    have h2 := depsOk_styleAttrStep h1 attrs1 line
    rw [hs] at h2
    dsimp only
    rcases hsvg : svgUrlStep st2 name attrs2 line with ⟨st3, attrs3⟩
    have h3 := depsOk_svgUrlStep h2 name attrs2 line
    rw [hsvg] at h3
    exact h3
  · dsimp only
    exact h1

theorem depsOk_visitNode {st : CState} (h : DepsOk st) (data : NData)
    (children : List HNode) (line : Nat) :
    DepsOk (visitNode st data children line).1 := by
  unfold visitNode
  rcases data with _ | ⟨nm, pub, sys⟩ | s | s | ⟨name, attrs⟩ | ⟨target, contents⟩
  · exact h
  · exact h
  · exact h
  · exact h
  · dsimp only
    exact depsOk_visitElement h name attrs children line
  · dsimp only
    split_ifs
    · rcases parseXmlStylesheet contents with _ | pattrs
      · exact h
      · dsimp only
        exact depsOk_piFold line pattrs (st, []) h
    · exact h

theorem depsOk_walkNode :
    ∀ (n : HNode) (st : CState), DepsOk st → DepsOk (walkNode st n).1 := by
  intro n
  induction n using HNode.ind with
  | h data line children ih =>
    intro st hst
    rw [walkNode]
    dsimp only
    have hlist : ∀ (l : List HNode),
        (∀ c ∈ l, ∀ st2 : CState, DepsOk st2 → DepsOk (walkNode st2 c).1) →
        ∀ st2 : CState, DepsOk st2 → DepsOk (walkChildren st2 l).1 := by
      intro l
      induction l with
      | nil => intro _ st2 h2; exact h2
      | cons c rest ihr =>
        intro hmem st2 h2
        rw [walkChildren]
        dsimp only
        exact ihr (fun x hx => hmem x (List.mem_cons_of_mem _ hx)) _
          (hmem c (List.mem_cons_self _ _) _ h2)
    exact hlist children ih _ (depsOk_visitNode hst data children line)

theorem depsOk_walkChildren :
    ∀ (l : List HNode) (st : CState), DepsOk st → DepsOk (walkChildren st l).1 := by
  intro l
  induction l with
  | nil => intro st h; exact h
  | cons c rest ih =>
    intro st h
    rw [walkChildren]
    dsimp only
    exact ih _ (depsOk_walkNode c _ h)

end ParcelHtml

namespace ParcelHtml

theorem depsOk_collect (dom : HNode) (sh se hm : Bool) :
    ∀ d ∈ (collectDependencies dom sh se hm).deps, DepOk d := by
  have hst0 : DepsOk (CState.mk sh se [] [] false []) := by
    intro d hd
    exact absurd hd (List.not_mem_nil d)
  have h1 := depsOk_visitNode hst0 dom.data dom.children dom.line
  rcases hv : visitNode
      { scopeHoist := sh, supportsEsm := se, deps := [], assets := [],
        hasModuleScripts := false, errors := [] } dom.data dom.children dom.line
    with ⟨st1, data1, clone⟩
  rw [hv] at h1
  dsimp only at h1
  have h2 := depsOk_walkChildren dom.children st1 h1
  rcases hw : walkChildren st1 dom.children with ⟨st2, children1⟩
  rw [hw] at h2
  dsimp only at h2
  have h3 : DepsOk ({ st2 with deps := st2.deps ++ st2.assets.map pairDep }) := by
    intro d hd
    rcases List.mem_append.mp hd with hx | hx
    · exact h2 d hx
    · obtain ⟨a, _, rfl⟩ := List.mem_map.mp hx
      exact Or.inr (Or.inr rfl)
  simp only [collectDependencies, hv, hw]
  split
  · split
    · have h4 := depsOk_addDep h3 "hmr.js" false .parallel 0
      simp only [CState.addDep] at h4 ⊢
      exact h4
    · exact h3
  · exact h3

/-- The claim C1 exactly as stated: every dependency's placeholder is
the six-field hash of its own fields. -/
def c1Stated : Prop :=
  ∀ (dom : HNode) (sh se hm : Bool), ∀ d ∈ (collectDependencies dom sh se hm).deps,
    d.placeholder = setPlaceholder d.href d.needsStableName d.priority d.outputFormat
      d.sourceType d.bundleBehavior

/-- C1 counterexample: an inline `style` carrying `data-parcel-key="@"`
produces a pairing dependency whose placeholder is the raw key `@`,
not a hash of the dependency's fields. -/
theorem c1_counterexample : ¬c1Stated := by
  intro h
  have h2 := h (HNode.mk .document 0
      [HNode.mk (.element (htmlQ "style") [⟨attrQ "data-parcel-key", "@"⟩]) 1
        [HNode.mk (.text "x") 1 []]]) false false false
    ⟨"@", false, .sync, .nofmt, .nosrc, .nobeh, "@", 1⟩ (by decide)
  exact absurd h2 (by decide)

/-- C1 amended: every placeholder in the final dependency list is the
hex-formatted 64-bit SipHash-1-3 of exactly the six fields href,
needs-stable-name, priority, output-format, source-type and
bundle-behavior; or, for srcset candidates, the bare `str` hash of the
URL alone; or, for asset pairing dependencies, the asset key verbatim
(itself a content hash unless overridden by `data-parcel-key`).  The
line number never enters a placeholder: `mkDep` yields identical
placeholders for identical six-field values at any two lines. -/
theorem c1_placeholder_provenance :
    (∀ (dom : HNode) (sh se hm : Bool), ∀ d ∈ (collectDependencies dom sh se hm).deps,
      DepOk d) ∧
    (∀ (href : String) (nsn : Bool) (pri : Priority) (ofm : OutputFormat)
      (sty : SourceType) (bb : BundleBehavior) (l1 l2 : Nat),
      (mkDep href nsn pri ofm sty bb l1).placeholder =
        (mkDep href nsn pri ofm sty bb l2).placeholder) :=
  ⟨fun dom sh se hm => depsOk_collect dom sh se hm,
    fun _ _ _ _ _ _ _ _ => rfl⟩

/-- C1 witness: the dependency of `<img src=x>` is `DepOk`. -/
theorem c1_witness :
    DepOk (mkDep "x" false Priority.lazy OutputFormat.nofmt SourceType.nosrc
      BundleBehavior.nobeh 1) := by
  have h := c1_placeholder_provenance.1
    (HNode.mk .document 0 [HNode.mk (.element (htmlQ "img") [⟨attrQ "src", "x"⟩]) 1 []])
    false false false
  exact h _ (by decide)

end ParcelHtml

namespace ParcelHtml

/-- C6 witness: a value with no quote-forcing character is emitted
unquoted (`id=x`). -/
theorem c6_witness :
    emitAttr "div" ⟨attrQ "id", "x"⟩ = " id=x" := by
  have h := (c6_attr_emission.1 "div" ⟨attrQ "id", "x"⟩).2.1 (by decide) (by decide)
  rw [h]
  decide

end ParcelHtml
